import Mathlib

/-!
# Merry-Christmas: particle tree, image ring and the enlarge/restore animation

A shallow embedding of `src/main.js` (class `ParticleChristmasTree`).

Numbers are elements of an arbitrary linearly ordered field `α` (exact
arithmetic, no floating-point rounding); `ℚ` is used for concrete runs and `ℝ`
where trigonometry is needed.  Functions of the JavaScript `Math` object and of
the three.js scene graph that the program only calls are collected in the
structure `Lib`.
-/

namespace MerryChristmas

/-! ## Vectors, Euler angles, quaternions -/

/-- A `THREE.Vector3`; also used for a `THREE.Euler` in the default order XYZ. -/
structure Vec3 (α : Type) where
  x : α
  y : α
  z : α
deriving DecidableEq

/-- A `THREE.Quaternion`. -/
structure Quat (α : Type) where
  x : α
  y : α
  z : α
  w : α
deriving DecidableEq

/-! ## Library functions the program calls -/

/-- The functions of `Math` and of three.js that `main.js` calls but does not
define.  `getWorldPosition` and `getWorldQuaternion` take the yaw of the image
ring when the group is a child of the ring (`none` when it hangs directly under
the scene) and the group's local position or rotation. -/
structure Lib (α : Type) where
  PI : α
  cos : α → α
  sin : α → α
  atan2 : α → α → α
  sqrt : α → α
  color : Nat → Vec3 α
  getWorldPosition : Option α → Vec3 α → Vec3 α
  getWorldQuaternion : Option α → Vec3 α → Quat α
  setFromQuaternion : Quat α → Vec3 α

/-- The field `this.params` as set in the constructor. -/
structure Params (α : Type) where
  particleCount : Nat
  rotationSpeed : α
  particleSize : α
  treeHeight : α
  treeWidth : α
  layers : α
  groundParticleCount : Nat
  snowParticleCount : Nat
  starParticleCount : Nat
  groundParticleSize : α
  snowParticleSize : α
  starParticleSize : α

/-- The camera pose sampled by `enlargeImage`: `camera.position` and the result
of `camera.getWorldDirection`. -/
structure Camera (α : Type) where
  position : Vec3 α
  direction : Vec3 α

/-! ## Scene graph and panels -/

/-- The parent of a panel's group: an image ring (identified by the number of
the `createImageRing` call that built it), the scene root, or nothing. -/
inductive Parent where
  | ring (id : Nat)
  | scene
  | detached
deriving DecidableEq

/-- The call `container.remove(group)` seen from the group: it is detached when
it was a child of `container`. -/
def Parent.remove (container : Parent) (p : Parent) : Parent :=
  if p = container then Parent.detached else p

/-- The call `container.add(group)` seen from the group: it leaves its former
parent and becomes a child of `container`. -/
def Parent.add (container : Parent) (_p : Parent) : Parent := container

/-- The `THREE.Group` of a panel. -/
structure Group (α : Type) where
  parent : Parent
  position : Vec3 α
  rotation : Vec3 α
  scale : Vec3 α

/-- The object `imageData` built in `createImageRing` (the texture, mesh and
border objects are left out; of the mesh only `rotation.x` is kept). -/
structure ImageData (α : Type) where
  group : Group α
  meshRotationX : α
  originalLocalPosition : Option (Vec3 α)
  originalWorldPosition : Vec3 α
  originalWorldQuaternion : Option (Quat α)
  originalScale : Vec3 α
  originalLocalRotation : Option (Vec3 α)
  isEnlarged : Bool
  fixedRotation : Option (Vec3 α)
  initialAngle : α
  initialRotationY : α
  initialRotationZ : α

/-- The closure `animate` of `enlargeImage` or `animateFunc` of `restoreImage`,
with the variables it captured. -/
inductive Animation (α : Type) where
  | enlarge (imageData : Nat) (startScale : α) (startPos startRot : Vec3 α)
      (enlargedPosition fixedRotation : Vec3 α) (startTime : α)
  | restore (imageData : Nat) (startScale : α) (startPos startRot : Vec3 α) (startTime : α)

/-- The panel an animation closure works on. -/
def Animation.imageData {α : Type} : Animation α → Nat
  | .enlarge i _ _ _ _ _ _ => i
  | .restore i _ _ _ _ => i

/-- Whether the closure is the one of `enlargeImage`. -/
def Animation.isEnlarge {α : Type} : Animation α → Bool
  | .enlarge _ _ _ _ _ _ _ => true
  | .restore _ _ _ _ _ => false

/-- The part of the application state the image ring uses.  `heap` holds every
`imageData` object ever created (an object is named by its index), and
`callbacks` is the queue of `requestAnimationFrame` callbacks of the panel
animations, in registration order. -/
structure State (α : Type) where
  heap : List (ImageData α)
  imageMeshes : List Nat
  imageRing : Nat
  ringRotationY : α
  enlargedImage : Option Nat
  callbacks : List (Animation α)

/-- Overwrite the object `id` of the heap. -/
def State.setData {α : Type} (s : State α) (id : Nat) (d : ImageData α) : State α :=
  { s with heap := s.heap.set id d }

/-- The list `imageFiles` of `createImageRing`. -/
def imageFiles : List String :=
  [ "image/微信图片_20251224211232_59_185.jpg", "image/微信图片_20251224211233_60_185.jpg",
    "image/微信图片_20251224211234_61_185.jpg", "image/微信图片_20251224211235_62_185.jpg",
    "image/微信图片_20251224211236_63_185.jpg", "image/微信图片_20251224211236_64_185.jpg",
    "image/微信图片_20251224211237_65_185.jpg", "image/微信图片_20251224211238_66_185.jpg",
    "image/微信图片_20251224211239_67_185.jpg", "image/微信图片_20251224211240_68_185.jpg",
    "image/微信图片_20251224211240_69_185.jpg", "image/微信图片_20251224211241_70_185.jpg",
    "image/微信图片_20251224211242_71_185.jpg", "image/微信图片_20251224211243_72_185.jpg",
    "image/微信图片_20251224211244_73_185.jpg", "image/微信图片_20251224211244_74_185.jpg",
    "image/微信图片_20251224211245_75_185.jpg", "image/微信图片_20251224211246_76_185.jpg",
    "image/微信图片_20251224211247_77_185.jpg", "image/微信图片_20251224211248_78_185.jpg" ]

section Arith

variable {α : Type} [LinearOrderedField α]

/-- The method `Vector3.lerpVectors(v1, v2, alpha)` of three.js:
each component is `v1 + (v2 - v1) * alpha`. -/
def lerpVectors (v1 v2 : Vec3 α) (alpha : α) : Vec3 α :=
  ⟨v1.x + (v2.x - v1.x) * alpha, v1.y + (v2.y - v1.y) * alpha, v1.z + (v2.z - v1.z) * alpha⟩

/-- The function `THREE.MathUtils.lerp(x, y, t)`: `(1 - t) * x + t * y`. -/
def lerp (x y t : α) : α := (1 - t) * x + t * y

/-- The method `Vector3.set(s, s, s)` as used for uniform scaling. -/
def uniform (s : α) : Vec3 α := ⟨s, s, s⟩

/-- The constant `duration = 600` (milliseconds) of both animations. -/
def duration : α := 600

/-- The line `progress = Math.min(elapsed / duration, 1)`. -/
def progress (elapsed : α) : α := min (elapsed / duration) 1

/-- The line `easeProgress = 1 - Math.pow(1 - progress, 3)`. -/
def easeOutCubic (p : α) : α := 1 - (1 - p) ^ 3

/-! ## The image ring -/

/-- The constructor's `this.params`. -/
def defaultParams : Params α :=
  { particleCount := 5000, rotationSpeed := 1.0, particleSize := 2.0, treeHeight := 15,
    treeWidth := 8, layers := 8, groundParticleCount := 16000, snowParticleCount := 4000,
    starParticleCount := 500, groundParticleSize := 0.8, snowParticleSize := 1.2,
    starParticleSize := 1.5 }

/-- The body of the `forEach` callback of `createImageRing` for the image at
`index`, in a ring of `imageCount` images that is the ring object `ring`. -/
def createImageData (L : Lib α) (P : Params α) (ring imageCount index : Nat) : ImageData α :=
  let ringHeight := P.treeHeight * 0.5
  let ringRadius := P.treeWidth * 1.2
  let angleStepDegrees : α := 360 / (imageCount : α)
  let angleStep := (angleStepDegrees * L.PI) / 180
  let angle := (index : α) * angleStep
  let x := L.cos angle * ringRadius
  let z := L.sin angle * ringRadius
  let targetY := L.atan2 x z + L.PI
  let tiltAngleDegrees : α := 15
  let tiltAngle := (tiltAngleDegrees * L.PI) / 180
  { group :=
      { parent := Parent.ring ring
        position := ⟨x, ringHeight, z⟩
        rotation := ⟨0, targetY, tiltAngle⟩
        scale := ⟨1, 1, 1⟩ }
    meshRotationX := L.PI
    originalLocalPosition := some ⟨0, 0, 0⟩
    originalWorldPosition := ⟨x, ringHeight, z⟩
    originalWorldQuaternion := none
    originalScale := ⟨1, 1, 1⟩
    originalLocalRotation := some ⟨0, targetY, tiltAngle⟩
    isEnlarged := false
    fixedRotation := none
    initialAngle := angle
    initialRotationY := targetY
    initialRotationZ := tiltAngle }

/-- The method `createImageRing`, for the list `files` in the place of
`imageFiles`: a new ring object is made current, `imageMeshes` is reset and one
panel per file of `files.slice(0, 20)` is created and pushed. -/
def createImageRing (L : Lib α) (P : Params α) (files : List String) (s : State α) : State α :=
  let finalImageFiles := files.take 20
  let imageCount := finalImageFiles.length
  let ring := s.imageRing + 1
  let base := s.heap.length
  { s with
    heap := s.heap ++ (List.range imageCount).map (createImageData L P ring imageCount)
    imageMeshes := (List.range imageCount).map (fun index => base + index)
    imageRing := ring
    ringRotationY := 0 }

/-- The state when `init()` returns (line 38 of the constructor): nothing but
the ring built by `createImageRing` from `files`, not yet turned.  The
constructor goes on to call `animate()` itself (line 40), which is the first
frame: the state after the constructor is `afterConstructor`. -/
def initState (L : Lib α) (P : Params α) (files : List String) : State α :=
  createImageRing L P files
    { heap := [], imageMeshes := [], imageRing := 0, ringRotationY := 0,
      enlargedImage := none, callbacks := [] }

/-! ## Enlarge and restore -/

/-- The yaw of the ring a group turns with: the current ring's `rotation.y`
when the group is a child of the current ring. -/
def ringYaw (s : State α) (g : Group α) : Option α :=
  if g.parent = Parent.ring s.imageRing then some s.ringRotationY else none

/-- One call of the closure `animate` of `enlargeImage` (lines 1002-1027) or of
`animateFunc` of `restoreImage` (lines 1067-1105) when `performance.now()`
returns `now`.  `requestAnimationFrame` appends the closure to `callbacks`.
A restore closure whose panel has no saved position (or rotation) throws
after the scale (and the position) has been written, and is not queued
again. -/
def Animation.call (a : Animation α) (now : α) (s : State α) : State α :=
  match a with
  | .enlarge id startScale startPos startRot enlargedPosition fixedRotation startTime =>
    match s.heap[id]? with
    | none => s
    | some d =>
      let elapsed := now - startTime
      let progress := progress elapsed
      let easeProgress := easeOutCubic progress
      let targetScale : α := 4
      let currentScale := startScale + (targetScale - startScale) * easeProgress
      let g : Group α :=
        { d.group with
          scale := uniform currentScale
          position := lerpVectors startPos enlargedPosition easeProgress
          rotation := ⟨lerp startRot.x fixedRotation.x easeProgress,
                       lerp startRot.y fixedRotation.y easeProgress,
                       lerp startRot.z fixedRotation.z easeProgress⟩ }
      if progress < 1 then
        { s.setData id { d with group := g } with callbacks := s.callbacks ++ [a] }
      else
        { s.setData id { d with group := g, isEnlarged := true, fixedRotation := some fixedRotation }
          with enlargedImage := some id }
  | .restore id startScale startPos startRot startTime =>
    match s.heap[id]? with
    | none => s
    | some d =>
      let elapsed := now - startTime
      let progress := progress elapsed
      let easeProgress := easeOutCubic progress
      let currentScale := startScale + (d.originalScale.x - startScale) * easeProgress
      let g1 : Group α := { d.group with scale := uniform currentScale }
      match d.originalLocalPosition with
      | none => s.setData id { d with group := g1 }
      | some olp =>
        let g2 : Group α := { g1 with position := lerpVectors startPos olp easeProgress }
        match d.originalLocalRotation with
        | none => s.setData id { d with group := g2 }
        | some olr =>
          let g : Group α :=
            { g2 with
              rotation := ⟨lerp startRot.x olr.x easeProgress,
                           lerp startRot.y olr.y easeProgress,
                           lerp startRot.z olr.z easeProgress⟩ }
          if progress < 1 then
            { s.setData id { d with group := g } with callbacks := s.callbacks ++ [a] }
          else
            let p1 :=
              if g.parent = Parent.scene then Parent.remove Parent.scene g.parent else g.parent
            let p2 := if ¬ (p1 = Parent.ring s.imageRing)
              then Parent.add (Parent.ring s.imageRing) p1 else p1
            let g3 : Group α := { g with parent := p2, position := olp, rotation := olr }
            { s.setData id { d with group := g3, isEnlarged := false } with
              enlargedImage := if s.enlargedImage = some id then none else s.enlargedImage }

/-- The method `restoreImage(imageData, animate)`, called when
`performance.now()` returns `now`. -/
def restoreImage (now : α) (id : Nat) (animate : Bool) (s : State α) : State α :=
  match s.heap[id]? with
  | none => s
  | some d =>
    match d.originalLocalPosition, d.originalLocalRotation with
    | some olp, some olr =>
      if !animate then
        let p1 := if d.group.parent = Parent.scene
          then Parent.remove Parent.scene d.group.parent else d.group.parent
        let p2 := if ¬ (p1 = Parent.ring s.imageRing)
          then Parent.add (Parent.ring s.imageRing) p1 else p1
        let g : Group α := { parent := p2, scale := d.originalScale, position := olp, rotation := olr }
        { s.setData id { d with group := g, isEnlarged := false } with
          enlargedImage := if s.enlargedImage = some id then none else s.enlargedImage }
      else
        let startScale := d.group.scale.x
        let startPos := d.group.position
        let startRot := d.group.rotation
        let startTime := now
        (Animation.restore id startScale startPos startRot startTime).call now s
    | _, _ => s

/-- Lines 955-958 of `enlargeImage(imageData)`: when `this.enlargedImage` is set
and is not `imageData`, it is restored without animation. -/
def restorePrevious (now : α) (id : Nat) (s : State α) : State α :=
  match s.enlargedImage with
  | some other => if other ≠ id then restoreImage now other false s else s
  | none => s

/-- The method `enlargeImage(imageData)`, called with the camera pose `cam`
when `performance.now()` returns `now`; the closure `animate` makes its first
call before the method returns.  When the panel is flagged enlarged and has no
saved world quaternion, `setFromQuaternion` throws after the group has been
moved under the scene. -/
def enlargeImage (L : Lib α) (cam : Camera α) (now : α) (id : Nat) (s : State α) : State α :=
  let s1 := restorePrevious now id s
  match s1.heap[id]? with
  | none => s1
  | some d =>
    let d1 : ImageData α :=
      if !d.isEnlarged then
        { d with
          originalWorldPosition := L.getWorldPosition (ringYaw s1 d.group) d.group.position
          originalWorldQuaternion := some (L.getWorldQuaternion (ringYaw s1 d.group) d.group.rotation)
          originalScale := d.group.scale
          originalLocalPosition := some d.group.position
          originalLocalRotation := some d.group.rotation }
      else d
    let d2 : ImageData α :=
      { d1 with group := { d1.group with
          parent := Parent.add Parent.scene (Parent.remove (Parent.ring s1.imageRing) d1.group.parent) } }
    let s2 := s1.setData id d2
    let cameraDirection := cam.direction
    let enlargedPosition : Vec3 α :=
      ⟨cam.position.x + cameraDirection.x * 8, cam.position.y + cameraDirection.y * 8,
       cam.position.z + cameraDirection.z * 8⟩
    let cameraWorldDirection := cam.direction
    let targetY := L.atan2 cameraWorldDirection.x cameraWorldDirection.z + L.PI
    let fixedRotation : Vec3 α := ⟨0, targetY, 0⟩
    let startScale := d2.group.scale.x
    let startPos := d2.originalWorldPosition
    match d2.originalWorldQuaternion with
    | none => s2
    | some q =>
      let startRot := L.setFromQuaternion q
      let startTime := now
      (Animation.enlarge id startScale startPos startRot enlargedPosition fixedRotation
        startTime).call now s2

/-- The method `onImageClick(event)`, when `performance.now()` returns `now`,
the camera pose is `cam` and the first object the ray hits belongs to the panel
`hit` (`none` when the ray hits no panel). -/
def onImageClick (L : Lib α) (cam : Camera α) (now : α) (hit : Option Nat) (s : State α) :
    State α :=
  if s.imageMeshes.length = 0 then s
  else
    match hit with
    | none => s
    | some id =>
      if id ∈ s.imageMeshes then
        match s.heap[id]? with
        | none => s
        | some imageData =>
          if imageData.isEnlarged then restoreImage now id true s
          else enlargeImage L cam now id s
      else s

/-- One display frame at time `now`: the ring part of the method `animate`
(`imageRing.rotation.y += 0.001`), then every queued animation callback, in
registration order. -/
def frame (now : α) (s : State α) : State α :=
  s.callbacks.foldl (fun st a => a.call now st)
    { s with ringRotationY := s.ringRotationY + 0.001, callbacks := [] }

/-- What can happen to the ring: a pointer click or a display frame. -/
inductive Event (α : Type) where
  | click (now : α) (cam : Camera α) (hit : Option Nat)
  | tick (now : α)

/-- The effect of one event. -/
def Event.apply (L : Lib α) (e : Event α) (s : State α) : State α :=
  match e with
  | .click now cam hit => onImageClick L cam now hit s
  | .tick now => frame now s

/-- The effect of a sequence of events, oldest first. -/
def run (L : Lib α) (es : List (Event α)) (s : State α) : State α :=
  es.foldl (fun st e => e.apply L st) s

/-- A panel is ENLARGING when a closure of `enlargeImage` for it is queued. -/
def State.enlarging (s : State α) (id : Nat) : Bool :=
  s.callbacks.any (fun a => a.isEnlarge && a.imageData == id)

/-- A panel is ENLARGED when its flag `isEnlarged` is set. -/
def State.enlarged (s : State α) (id : Nat) : Bool :=
  match s.heap[id]? with
  | some d => d.isEnlarged
  | none => false

/-- A state the program can be in: the state left by `init()` followed by any
sequence of clicks and frames.  The first frame of the program is the
constructor's own call of `animate()`, so the state after the constructor and
all that follow it are of this kind. -/
def Reachable (L : Lib α) (P : Params α) (files : List String) (s : State α) : Prop :=
  ∃ es : List (Event α), s = run L es (initState L P files)

/-- A panel rests in the ring: it is a panel of the current ring, its group is
a child of the ring, it is not enlarged and no animation closure works on it. -/
def State.resting (s : State α) (id : Nat) : Prop :=
  id ∈ s.imageMeshes ∧
    (∃ d, s.heap[id]? = some d ∧ d.group.parent = Parent.ring s.imageRing ∧ d.isEnlarged = false) ∧
    ∀ c ∈ s.callbacks, c.imageData ≠ id

/-! ## Rotations of the scene graph -/

/-- Rotation about the X axis by `θ` (three.js `Matrix4.makeRotationX`). -/
def rotateX (L : Lib α) (θ : α) (v : Vec3 α) : Vec3 α :=
  ⟨v.x, L.cos θ * v.y - L.sin θ * v.z, L.sin θ * v.y + L.cos θ * v.z⟩

/-- Rotation about the Y axis by `θ` (three.js `Matrix4.makeRotationY`). -/
def rotateY (L : Lib α) (θ : α) (v : Vec3 α) : Vec3 α :=
  ⟨L.cos θ * v.x + L.sin θ * v.z, v.y, -(L.sin θ * v.x) + L.cos θ * v.z⟩

/-- Rotation about the Z axis by `θ` (three.js `Matrix4.makeRotationZ`). -/
def rotateZ (L : Lib α) (θ : α) (v : Vec3 α) : Vec3 α :=
  ⟨L.cos θ * v.x - L.sin θ * v.y, L.sin θ * v.x + L.cos θ * v.y, v.z⟩

/-- The rotation of an object whose `rotation` is the Euler triple `e` in the
order XYZ (three.js `Matrix4.makeRotationFromEuler`: the matrix is
`Rx * Ry * Rz`, so a vector is turned about Z first). -/
def applyEuler (L : Lib α) (e : Vec3 α) (v : Vec3 α) : Vec3 α :=
  rotateX L e.x (rotateY L e.y (rotateZ L e.z v))

/-- The normal of the image plane of a panel in the coordinates of the ring:
the `PlaneGeometry` normal `(0, 0, 1)` turned by the mesh rotation about X and
then by the rotation of the group. -/
def panelNormal (L : Lib α) (d : ImageData α) : Vec3 α :=
  applyEuler L d.group.rotation (rotateX L d.meshRotationX ⟨0, 0, 1⟩)

/-- The dot product of two vectors. -/
def dot (u v : Vec3 α) : α := u.x * v.x + u.y * v.y + u.z * v.z

/-! ## A concrete library and camera for runs on concrete inputs -/

/-- A stand-in for the library with the simplest geometry: the world pose of a
group is its local pose, every angle function is constant and colours are
black.  It is only used to run the program on concrete inputs; the theorems
hold for every library. -/
def flatLib : Lib α :=
  { PI := 3, cos := fun _ => 1, sin := fun _ => 0, atan2 := fun _ _ => 0, sqrt := fun x => x
    color := fun _ => ⟨0, 0, 0⟩
    getWorldPosition := fun _ p => p
    getWorldQuaternion := fun _ _ => ⟨0, 0, 0, 1⟩
    setFromQuaternion := fun _ => ⟨0, 0, 0⟩ }

/-- A camera at `(0, 15, 20)` looking at the origin: its forward direction is
the unit vector `(0, -3/5, -4/5)`. -/
def frontCamera : Camera α :=
  { position := ⟨0, 15, 20⟩, direction := ⟨0, -3 / 5, -4 / 5⟩ }

/-! ## Predicates on states used to state the behaviour of the animations -/

/-- No animation closure works on the panel. -/
def State.quiet (s : State α) (id : Nat) : Prop := ∀ c ∈ s.callbacks, c.imageData ≠ id

/-- The saved ring-local transform of a panel. -/
def ImageData.saved (d : ImageData α) (p r sc : Vec3 α) : Prop :=
  d.originalLocalPosition = some p ∧ d.originalLocalRotation = some r ∧ d.originalScale = sc

/-- The last queued closure is the enlarge closure of the panel `id` started at
`t0` with target position `ep` and rotation `fr`, and no other queued closure
works on the panel. -/
def State.enlargingTo (s : State α) (id : Nat) (ep fr : Vec3 α) (t0 : α) : Prop :=
  ∃ cs sc sp sr, s.callbacks = cs ++ [Animation.enlarge id sc sp sr ep fr t0] ∧
    ∀ c ∈ cs, c.imageData ≠ id

/-- The last queued closure is the restore closure of the panel `id` started at
`t0`, and no other queued closure works on the panel. -/
def State.restoringSince (s : State α) (id : Nat) (t0 : α) : Prop :=
  ∃ cs sc sp sr, s.callbacks = cs ++ [Animation.restore id sc sp sr t0] ∧
    ∀ c ∈ cs, c.imageData ≠ id

/-- The tick events at the times `ts`. -/
def ticks (ts : List α) : List (Event α) := ts.map Event.tick

/-- Every group of the heap is scaled uniformly, and so is every saved scale. -/
def State.uniformScales (s : State α) : Prop :=
  ∀ d ∈ s.heap, d.group.scale = uniform d.group.scale.x ∧ d.originalScale = uniform d.originalScale.x

/-- ENLARGING: the enlarge closure started at `t0` is queued for the panel,
whose group hangs under the scene and whose saved transform is `p`, `r`, `sc`. -/
def State.phaseEnlarging (s : State α) (id : Nat) (p r sc ep fr : Vec3 α) (t0 : α) : Prop :=
  s.enlargingTo id ep fr t0 ∧
  ∃ d, s.heap[id]? = some d ∧ d.saved p r sc ∧ d.isEnlarged = false ∧
    d.group.parent = Parent.scene

/-- ENLARGED: no closure works on the panel, which is flagged enlarged and sits
under the scene at position `ep`, rotation `fr` and scale 4. -/
def State.phaseEnlarged (s : State α) (id : Nat) (p r sc ep fr : Vec3 α) : Prop :=
  s.quiet id ∧
  ∃ d, s.heap[id]? = some d ∧ d.saved p r sc ∧ d.isEnlarged = true ∧
    d.group = { parent := Parent.scene, position := ep, rotation := fr, scale := ⟨4, 4, 4⟩ }

/-- RESTORING: the restore closure started at `t1` is queued for the panel. -/
def State.phaseRestoring (s : State α) (id : Nat) (p r sc : Vec3 α) (t1 : α) : Prop :=
  s.restoringSince id t1 ∧ ∃ d, s.heap[id]? = some d ∧ d.saved p r sc

/-- RING again: no closure works on the panel, which is not flagged enlarged and
is a child of the ring with the saved position and rotation and the saved
scale's `x` on every axis. -/
def State.phaseRestored (s : State α) (id : Nat) (p r sc : Vec3 α) : Prop :=
  s.quiet id ∧
  ∃ d, s.heap[id]? = some d ∧ d.saved p r sc ∧ d.isEnlarged = false ∧
    d.group = { parent := Parent.ring s.imageRing, position := p, rotation := r,
                scale := uniform sc.x }

/-- While the panel `A` is ENLARGING and is the only panel with an enlarge
closure queued, no other panel is flagged enlarged. -/
def State.onlyEnlarging (s : State α) (A : Nat) : Prop :=
  (∀ c ∈ s.callbacks, c.isEnlarge = true → c.imageData = A) ∧
  ∀ j, j ≠ A → s.enlarged j = false

/-- The panel `A` is the one enlarged panel: it is referenced by
`enlargedImage`, only restore closures are queued, and no other panel is
flagged enlarged. -/
def State.onlyEnlarged (s : State α) (A : Nat) : Prop :=
  s.enlargedImage = some A ∧ (∀ c ∈ s.callbacks, c.isEnlarge = false) ∧
  ∀ j, j ≠ A → s.enlarged j = false

end Arith

/-- A library whose `Math` part is the real one: `Math.atan2(y, x)` is the
argument of the complex number `x + y i`. -/
noncomputable def realMath (L : Lib ℝ) : Lib ℝ :=
  { L with
    PI := Real.pi
    cos := Real.cos
    sin := Real.sin
    atan2 := fun y x => Complex.arg ⟨x, y⟩
    sqrt := Real.sqrt }

/-! ## The particle tree -/

section Tree

variable {α : Type} [LinearOrderedField α] [FloorRing α]

/-- The arrays `positions`, `colors`, `sizes` and `velocities` of
`createParticleTree`. -/
structure TreeArrays (α : Type) where
  positions : List α
  colors : List α
  sizes : List α
  velocities : List α

/-- The JavaScript expression `x % 1`: `x` minus its integer part (truncation
toward zero). -/
def mod1 (x : α) : α := x - (if 0 ≤ x then (⌊x⌋ : α) else (⌈x⌉ : α))

/-- The arrays after the iteration `i` of the first loop of `createParticleTree`
(lines 162-203) has run on the arrays `t`; `rnd k` is the value of the `k`-th
call of `Math.random()`, and the iteration makes the calls `8 i` to `8 i + 7`. -/
def canopyStep (L : Lib α) (P : Params α) (rnd : Nat → α) (i : Nat) (t : TreeArrays α) :
    TreeArrays α :=
  let color1 := L.color 0x4a9eff
  let color2 := L.color 0x0066ff
  let color3 := L.color 0x00d4ff
  let layer := rnd (8 * i)
  let layerIndex : α := (⌊layer * P.layers⌋ : α)
  let layerProgress := mod1 (layer * P.layers)
  let layerHeight := (layerIndex / P.layers) * P.treeHeight
  let baseWidth := P.treeWidth
  let topWidth := P.treeWidth * 0.2
  let layerWidth := baseWidth - (baseWidth - topWidth) * (layerIndex / P.layers)
  let angle := rnd (8 * i + 1) * L.PI * 2
  let radius := L.sqrt (rnd (8 * i + 2)) * layerWidth
  let x := L.cos angle * radius
  let z := L.sin angle * radius
  let y := layerHeight + layerProgress * (P.treeHeight / P.layers)
  let noise := (rnd (8 * i + 3) - 0.5) * 0.3
  let mix0 : Vec3 α := lerpVectors color2 color1 layer
  let colorMix : Vec3 α :=
    if layer > 0.7 then
      let a := (layer - 0.7) / 0.3
      ⟨mix0.x + (color3.x - mix0.x) * a, mix0.y + (color3.y - mix0.y) * a,
       mix0.z + (color3.z - mix0.z) * a⟩
    else mix0
  let size := P.particleSize * (0.5 + rnd (8 * i + 4) * 0.5) * (1 - layer * 0.3)
  { positions := t.positions ++ [x + noise, y, z + noise]
    colors := t.colors ++ [colorMix.x, colorMix.y, colorMix.z]
    sizes := t.sizes ++ [size]
    velocities := t.velocities ++
      [(rnd (8 * i + 5) - 0.5) * 0.02, (rnd (8 * i + 6) - 0.5) * 0.01,
       (rnd (8 * i + 7) - 0.5) * 0.02] }

/-- The first loop of `createParticleTree` run for `n` iterations from empty
arrays. -/
def canopyLoop (L : Lib α) (P : Params α) (rnd : Nat → α) : Nat → TreeArrays α
  | 0 => { positions := [], colors := [], sizes := [], velocities := [] }
  | n + 1 => canopyStep L P rnd n (canopyLoop L P rnd n)

/-- The number `trunkParticles = Math.floor(particleCount * 0.05)`. -/
def trunkParticles (P : Params α) : Int := ⌊(P.particleCount : α) * 0.05⌋

/-- The arrays after the iteration `i` of the trunk loop (lines 210-221); the
iteration makes the calls `8 N + 3 i` to `8 N + 3 i + 2` of `Math.random()`,
`N` being `particleCount`. -/
def trunkStep (L : Lib α) (P : Params α) (rnd : Nat → α) (i : Nat) (t : TreeArrays α) :
    TreeArrays α :=
  let trunkHeight := P.treeHeight * 0.15
  let trunkWidth := P.treeWidth * 0.1
  let k := 8 * P.particleCount + 3 * i
  let y := (rnd k - 0.5) * trunkHeight
  let angle := rnd (k + 1) * L.PI * 2
  let radius := rnd (k + 2) * trunkWidth
  let x := L.cos angle * radius
  let z := L.sin angle * radius
  { positions := t.positions ++ [x, y, z]
    colors := t.colors ++ [0.2, 0.1, 0.05]
    sizes := t.sizes ++ [P.particleSize * 1.5]
    velocities := t.velocities ++ [0, 0, 0] }

/-- The trunk loop run for `n` iterations on the arrays `t`. -/
def trunkLoop (L : Lib α) (P : Params α) (rnd : Nat → α) (t : TreeArrays α) : Nat → TreeArrays α
  | 0 => t
  | n + 1 => trunkStep L P rnd n (trunkLoop L P rnd t n)

/-- The arrays that `createParticleTree` hands to the geometry attributes
`position`, `particleColor`, `size` and `velocity`. -/
def createParticleTree (L : Lib α) (P : Params α) (rnd : Nat → α) : TreeArrays α :=
  trunkLoop L P rnd (canopyLoop L P rnd P.particleCount) (trunkParticles P).toNat

end Tree

section Bands

variable {α : Type} [LinearOrderedField α]

/-- Lines 170-172 of `createParticleTree`: the width `layerWidth` of the layer
with index `layerIndex`. -/
def layerWidth (P : Params α) (layerIndex : α) : α :=
  let baseWidth := P.treeWidth
  let topWidth := P.treeWidth * 0.2
  baseWidth - (baseWidth - topWidth) * (layerIndex / P.layers)

/-- Every channel of the colour the library makes of a hex code is in `[0, 1]`. -/
def Lib.unitColors (L : Lib α) : Prop :=
  ∀ h : Nat, (0 ≤ (L.color h).x ∧ (L.color h).x ≤ 1) ∧ (0 ≤ (L.color h).y ∧ (L.color h).y ≤ 1) ∧
    (0 ≤ (L.color h).z ∧ (L.color h).z ≤ 1)

end Bands

/-! ## The ground -/

section Ground

variable {α : Type} [LinearOrderedField α] [FloorRing α]

/-- The arrays `positions`, `colors`, `sizes` and `rotations` of
`createGroundParticles` or of `createStar`, and the number `draws` of calls of
`Math.random()` made so far. -/
structure DiskArrays (α : Type) where
  positions : List α
  colors : List α
  sizes : List α
  rotations : List α
  draws : Nat

/-- The arrays after the iteration `i` of the loop of `createGroundParticles`
(lines 335-381) has run on the arrays `t`; `rnd k` is the value of the `k`-th
call of `Math.random()`.  The spiral branch makes two calls for `x` and `z`,
the other branch three. -/
def groundStep (L : Lib α) (P : Params α) (rnd : Nat → α) (i : Nat) (t : DiskArrays α) :
    DiskArrays α :=
  let groundSize : α := 50
  let groundY : α := 0
  let spiralRatio : α := 0.9
  let maxRadius := groundSize * 0.5
  let spiralTurns : α := 8
  let maxAngle := spiralTurns * L.PI * 2
  let k := t.draws
  let xz : α × α × Nat :=
    if (i : α) < (P.groundParticleCount : α) * spiralRatio then
      let progress := (i : α) / ((P.groundParticleCount : α) * spiralRatio)
      let angle := progress * maxAngle
      let radius := progress * maxRadius
      let radiusNoise := (rnd k - 0.5) * 1.0
      let angleNoise := (rnd (k + 1) - 0.5) * 0.2
      let finalRadius := max 0 (radius + radiusNoise)
      let finalAngle := angle + angleNoise
      (L.cos finalAngle * finalRadius, L.sin finalAngle * finalRadius, k + 2)
    else
      let angle := rnd k * L.PI * 2
      let radius := rnd (k + 1) * maxRadius
      let randomOffset := (rnd (k + 2) - 0.5) * 10
      (L.cos angle * radius + randomOffset, L.sin angle * radius + randomOffset, k + 3)
  let x := xz.1
  let z := xz.2.1
  let k1 := xz.2.2
  let y := groundY + (rnd k1 - 0.5) * 0.3
  let white := 0.9 + rnd (k1 + 1) * 0.1
  let size := P.groundParticleSize * (0.8 + rnd (k1 + 2) * 0.4)
  { positions := t.positions ++ [x, y, z]
    colors := t.colors ++ [white, white, white]
    sizes := t.sizes ++ [size]
    rotations := t.rotations ++ [rnd (k1 + 3) * L.PI * 2]
    draws := k1 + 4 }

/-- The loop of `createGroundParticles` run for `n` iterations from empty
arrays. -/
def groundLoop (L : Lib α) (P : Params α) (rnd : Nat → α) : Nat → DiskArrays α
  | 0 => { positions := [], colors := [], sizes := [], rotations := [], draws := 0 }
  | n + 1 => groundStep L P rnd n (groundLoop L P rnd n)

/-- The arrays that `createGroundParticles` hands to the geometry attributes
`position`, `particleColor`, `size` and `rotation`. -/
def createGroundParticles (L : Lib α) (P : Params α) (rnd : Nat → α) : DiskArrays α :=
  groundLoop L P rnd P.groundParticleCount

end Ground

/-! ## The snow -/

section Snow

variable {α : Type} [LinearOrderedField α] [FloorRing α]

/-- The arrays `positions`, `colors`, `sizes`, `velocities` and `rotations` of
`createSnowParticles`. -/
structure SnowArrays (α : Type) where
  positions : List α
  colors : List α
  sizes : List α
  velocities : List α
  rotations : List α

/-- The arrays after the iteration `i` of the loop of `createSnowParticles`
(lines 465-490) has run on the arrays `t`; the iteration makes the calls `9 i`
to `9 i + 8` of `Math.random()`. -/
def snowStep (L : Lib α) (P : Params α) (rnd : Nat → α) (i : Nat) (t : SnowArrays α) :
    SnowArrays α :=
  let areaSize : α := 40
  let heightRange : α := 30
  let k := 9 * i
  let x := (rnd k - 0.5) * areaSize
  let y := rnd (k + 1) * heightRange
  let z := (rnd (k + 2) - 0.5) * areaSize
  let white := 0.8 + rnd (k + 3) * 0.2
  let size := P.snowParticleSize * (0.7 + rnd (k + 4) * 0.6)
  { positions := t.positions ++ [x, y, z]
    colors := t.colors ++ [white, white, white]
    sizes := t.sizes ++ [size]
    velocities := t.velocities ++
      [(rnd (k + 5) - 0.5) * 0.05, -(rnd (k + 6)) * 0.1 - 0.05, (rnd (k + 7) - 0.5) * 0.05]
    rotations := t.rotations ++ [rnd (k + 8) * L.PI * 2] }

/-- The loop of `createSnowParticles` run for `n` iterations from empty
arrays. -/
def snowLoop (L : Lib α) (P : Params α) (rnd : Nat → α) : Nat → SnowArrays α
  | 0 => { positions := [], colors := [], sizes := [], velocities := [], rotations := [] }
  | n + 1 => snowStep L P rnd n (snowLoop L P rnd n)

/-- The arrays that `createSnowParticles` hands to the geometry attributes. -/
def createSnowParticles (L : Lib α) (P : Params α) (rnd : Nat → α) : SnowArrays α :=
  snowLoop L P rnd P.snowParticleCount

/-- The GLSL function `mod(x, y)`: `x - y * floor(x / y)`. -/
def glslMod (x y : α) : α := x - y * (⌊x / y⌋ : α)

/-- Lines 520-529 of the snow vertex shader: the position of a particle after
the drift by its velocity and the wrap, before the spin about the vertical
axis. -/
def snowWrap (time : α) (position velocity : Vec3 α) : Vec3 α :=
  let moveTime := glslMod (time * 10.0) 100.0
  let px := position.x + velocity.x * moveTime
  let py := position.y + velocity.y * moveTime
  let pz := position.z + velocity.z * moveTime
  let wy := glslMod (py + 35.0) 35.0
  let wx := glslMod (px + 20.0) 40.0 - 20.0
  let wz := glslMod (pz + 20.0) 40.0 - 20.0
  ⟨wx, wy, wz⟩

end Snow

/-! ## The star -/

section Star

variable {α : Type} [LinearOrderedField α] [FloorRing α]

/-- The constant `starRadius` of `createStar`. -/
def starRadius : α := 1.5

/-- The entry `outerPoints[i]` built by the loop at lines 598-613 of
`createStar`; the array has the entries 0 to 4. -/
def outerPoint (L : Lib α) (i : Nat) : Vec3 α :=
  let angleStep := (L.PI * 2) / 5
  let angle := (i : α) * angleStep - L.PI / 2
  ⟨0, L.cos angle * starRadius, L.sin angle * starRadius⟩

/-- The entry `innerPoints[i]` built by the loop at lines 598-613 of
`createStar`; the array has the entries 0 to 4. -/
def innerPoint (L : Lib α) (i : Nat) : Vec3 α :=
  let angleStep := (L.PI * 2) / 5
  let angle := (i : α) * angleStep - L.PI / 2
  let innerAngle := angle + angleStep / 2
  ⟨0, L.cos innerAngle * starRadius * 0.38, L.sin innerAngle * starRadius * 0.38⟩

/-- Lines 623-637 of `createStar`: the vertices `p1`, `p2`, `p3` of the wedge
chosen by the draw `r`, with `segment = Math.floor(r * 10)`. -/
def starWedge (L : Lib α) (r : α) : Vec3 α × Vec3 α × Vec3 α :=
  let segment : Int := ⌊r * 10⌋
  if segment < 5 then
    (outerPoint L segment.toNat, innerPoint L segment.toNat,
      outerPoint L ((segment.toNat + 1) % 5))
  else
    let idx := (segment - 5).toNat
    (innerPoint L idx, outerPoint L ((idx + 1) % 5), innerPoint L ((idx + 1) % 5))

/-- The arrays after one iteration of the particle loop of `createStar` (lines
616-677) has run on the arrays `t`.  The wedge branch makes five calls of
`Math.random()` for the position, the other branch four. -/
def starStep (L : Lib α) (P : Params α) (rnd : Nat → α) (t : DiskArrays α) : DiskArrays α :=
  let starHeight := P.treeHeight + 2.0
  let starThickness : α := 0.3
  let k := t.draws
  let rand := rnd k
  let xyz : Vec3 α × Nat :=
    if rand < 0.6 then
      let ps := starWedge L (rnd (k + 1))
      let p1 := ps.1
      let p2 := ps.2.1
      let p3 := ps.2.2
      let u := rnd (k + 2)
      let v := rnd (k + 3)
      let w := if u + v > 1 then 1 - u else v
      let t1 := 1 - u - w
      let t2 := u
      let t3 := w
      let x := (rnd (k + 4) - 0.5) * starThickness
      let y := p1.y * t1 + p2.y * t2 + p3.y * t3
      let z := p1.z * t1 + p2.z * t2 + p3.z * t3
      (⟨x, y, z⟩, k + 5)
    else
      let angle := rnd (k + 1) * L.PI * 2
      let radius := rnd (k + 2) * starRadius * 0.35
      let x := (rnd (k + 3) - 0.5) * starThickness
      let y := L.cos angle * radius
      let z := L.sin angle * radius
      (⟨x, y, z⟩, k + 4)
  let k1 := xyz.2
  let colorMix := lerpVectors (L.color 0x0066ff) (L.color 0x4a9eff) (rnd k1)
  let size := P.starParticleSize * (0.7 + rnd (k1 + 1) * 0.6)
  { positions := t.positions ++ [xyz.1.x, starHeight + xyz.1.y, xyz.1.z]
    colors := t.colors ++ [colorMix.x, colorMix.y, colorMix.z]
    sizes := t.sizes ++ [size]
    rotations := t.rotations ++ [rnd (k1 + 2) * L.PI * 2]
    draws := k1 + 3 }

/-- The particle loop of `createStar` run for `n` iterations from empty
arrays. -/
def starLoop (L : Lib α) (P : Params α) (rnd : Nat → α) : Nat → DiskArrays α
  | 0 => { positions := [], colors := [], sizes := [], rotations := [], draws := 0 }
  | n + 1 => starStep L P rnd (starLoop L P rnd n)

/-- The arrays that `createStar` hands to the geometry attributes. -/
def createStar (L : Lib α) (P : Params α) (rnd : Nat → α) : DiskArrays α :=
  starLoop L P rnd P.starParticleCount

end Star

/-! ## The particle groups and the size sliders -/

section Sliders

variable {α : Type}

/-- A `THREE.Points` object: the attribute arrays of its geometry, the uniforms
`time` and `pointSize` of its material, and `rotation.y`. -/
structure Points (A : Type) (α : Type) where
  geometry : A
  time : α
  pointSize : α
  rotationY : α

/-- The part of the application the sliders work on: `params` and the four
particle groups (`null` before they are created). -/
structure Scene (α : Type) where
  params : Params α
  particleSystem : Option (Points (TreeArrays α) α)
  groundParticles : Option (Points (DiskArrays α) α)
  snowParticles : Option (Points (SnowArrays α) α)
  starParticles : Option (Points (DiskArrays α) α)

/-- The `input` listener of `size-slider` (lines 1139-1145), for the slider
value `v`. -/
def sizeSliderInput (v : α) (sc : Scene α) : Scene α :=
  let sc1 : Scene α := { sc with params := { sc.params with particleSize := v } }
  match sc1.particleSystem with
  | some ps => { sc1 with particleSystem := some { ps with pointSize := sc1.params.particleSize } }
  | none => sc1

/-- The `input` listener of `ground-size-slider` (lines 1153-1159). -/
def groundSizeSliderInput (v : α) (sc : Scene α) : Scene α :=
  let sc1 : Scene α := { sc with params := { sc.params with groundParticleSize := v } }
  match sc1.groundParticles with
  | some ps =>
    { sc1 with groundParticles := some { ps with pointSize := sc1.params.groundParticleSize } }
  | none => sc1

/-- The `input` listener of `snow-size-slider` (lines 1167-1173). -/
def snowSizeSliderInput (v : α) (sc : Scene α) : Scene α :=
  let sc1 : Scene α := { sc with params := { sc.params with snowParticleSize := v } }
  match sc1.snowParticles with
  | some ps =>
    { sc1 with snowParticles := some { ps with pointSize := sc1.params.snowParticleSize } }
  | none => sc1

/-- The `input` listener of `star-size-slider` (lines 1181-1187). -/
def starSizeSliderInput (v : α) (sc : Scene α) : Scene α :=
  let sc1 : Scene α := { sc with params := { sc.params with starParticleSize := v } }
  match sc1.starParticles with
  | some ps =>
    { sc1 with starParticles := some { ps with pointSize := sc1.params.starParticleSize } }
  | none => sc1

end Sliders

/-! ## Draws for a run of the ground generator -/

/-- Draws that send the first particle of the random branch of the default
ground (particle 14400, whose draws start at the draw 86400) to the angle 0,
the radius 24 and the offset 4. -/
def offsetDraws {α : Type} [LinearOrderedField α] (k : Nat) : α :=
  if k = 86401 then 24 / 25 else if k = 86402 then 9 / 10 else 0

/-! ## Reloading the images -/

section Reload

variable {α : Type} [LinearOrderedField α]

/-- The function `window.reloadImages` (lines 122-144), for the list `files` in
the place of `imageFiles`.  The field `imageRing` is `null` only before the
first call of `createImageRing`, which is the ring number 0 here.  Removing the
old ring from the scene and disposing of the geometries does not change the
fields of the panels; queued animation callbacks are not touched. -/
def reloadImages (L : Lib α) (P : Params α) (files : List String) (s : State α) : State α :=
  let s1 : State α :=
    if s.imageRing ≠ 0 then { s with imageMeshes := [], enlargedImage := none } else s
  createImageRing L P files s1

/-- What can happen to the ring when `reloadImages` is in use: a click or a
display frame, or a call of `reloadImages`. -/
inductive Action (α : Type) where
  | event (e : Event α)
  | reload (files : List String)

/-- The effect of one action. -/
def Action.apply (L : Lib α) (P : Params α) (a : Action α) (s : State α) : State α :=
  match a with
  | .event e => e.apply L s
  | .reload files => reloadImages L P files s

/-- The effect of a sequence of actions, oldest first. -/
def runActions (L : Lib α) (P : Params α) (as : List (Action α)) (s : State α) : State α :=
  as.foldl (fun st a => a.apply L P st) s

end Reload

/-! ## The invariant on `enlargedImage` -/

section Valid

variable {α : Type} [LinearOrderedField α]

/-- The invariant on `enlargedImage`: when it is not `null` it refers to a panel
of the current list `imageMeshes` whose flag `isEnlarged` is set. -/
def State.enlargedImageValid (s : State α) : Prop :=
  ∀ id, s.enlargedImage = some id → id ∈ s.imageMeshes ∧ s.enlarged id = true

/-- Every queued closure of `enlargeImage` works on a panel of the current list
`imageMeshes`. -/
def State.enlargeClosuresCurrent (s : State α) : Prop :=
  ∀ c ∈ s.callbacks, c.isEnlarge = true → c.imageData ∈ s.imageMeshes

end Valid

/-! ## The shaders -/

section Shaders

variable {α : Type} [LinearOrderedField α]

/-- The GLSL function `clamp(x, minVal, maxVal)`: `min(max(x, minVal), maxVal)`. -/
def glslClamp (x minVal maxVal : α) : α := min (max x minVal) maxVal

/-- The GLSL function `smoothstep(edge0, edge1, x)`: with
`t = clamp((x - edge0) / (edge1 - edge0), 0.0, 1.0)` it is
`t * t * (3.0 - 2.0 * t)`. -/
def smoothstep (edge0 edge1 x : α) : α :=
  let t := glslClamp ((x - edge0) / (edge1 - edge0)) 0.0 1.0
  t * t * (3.0 - 2.0 * t)

/-- The value `alpha` that the vertex shaders of the tree, the ground and the
star assign to `vAlpha` (lines 257-258, 414-415, 711-712) for the view distance
`distance = length(mvPosition.xyz)`. -/
def vertexAlpha (distance : α) : α :=
  let alpha := 1.0 - smoothstep 0.0 50.0 distance
  alpha

/-- The value that the vertex shader of the snow assigns to `vAlpha` (lines
542-543): `alpha * 0.8`. -/
def snowVertexAlpha (distance : α) : α :=
  let alpha := 1.0 - smoothstep 0.0 50.0 distance
  alpha * 0.8

/-- The fragment shaders of the ground, the snow and the star (lines 426-442,
554-570, 723-739); they differ in the exponent of `pow` and in the gain of the
glow only.  `pointCoord` is `gl_PointCoord`, `pow` is the GLSL function, and
the result is `none` when the fragment is discarded and the colour and the
alpha of `gl_FragColor` otherwise. -/
def pointFragment (L : Lib α) (pow : α → α → α) (exponent gain : α) (pointCoord : α × α)
    (vColor : Vec3 α) (vAlpha vRotation : α) : Option (Vec3 α × α) :=
  let coord0 : α × α := (pointCoord.1 - 0.5, pointCoord.2 - 0.5)
  let c := L.cos vRotation
  let s := L.sin vRotation
  let coord1 : α × α := (coord0.1 * c - coord0.2 * s, coord0.1 * s + coord0.2 * c)
  let coord : α × α := (coord1.1 + 0.5, coord1.2 + 0.5)
  let distance :=
    L.sqrt ((coord.1 - 0.5) * (coord.1 - 0.5) + (coord.2 - 0.5) * (coord.2 - 0.5))
  if distance > 0.5 then none
  else
    let alpha := (1.0 - distance * 2.0) * vAlpha
    let alpha1 := pow alpha exponent
    let k := 1.0 + (1.0 - distance * 2.0) * gain
    some (⟨vColor.x * k, vColor.y * k, vColor.z * k⟩, alpha1)

/-- The fragment shader of the ground (lines 426-442). -/
def groundFragment (L : Lib α) (pow : α → α → α) (pointCoord : α × α) (vColor : Vec3 α)
    (vAlpha vRotation : α) : Option (Vec3 α × α) :=
  pointFragment L pow 0.7 1.5 pointCoord vColor vAlpha vRotation

/-- The fragment shader of the snow (lines 554-570). -/
def snowFragment (L : Lib α) (pow : α → α → α) (pointCoord : α × α) (vColor : Vec3 α)
    (vAlpha vRotation : α) : Option (Vec3 α × α) :=
  pointFragment L pow 0.6 1.2 pointCoord vColor vAlpha vRotation

/-- The fragment shader of the star (lines 723-739). -/
def starFragment (L : Lib α) (pow : α → α → α) (pointCoord : α × α) (vColor : Vec3 α)
    (vAlpha vRotation : α) : Option (Vec3 α × α) :=
  pointFragment L pow 0.5 2.0 pointCoord vColor vAlpha vRotation

end Shaders

/-! ## The frame loop of the particle groups -/

section Frames

variable {α : Type} [LinearOrderedField α]

/-- The part of the method `animate` (lines 1250-1275) that works on the four
particle groups, when `performance.now()` returns `now`: the uniform `time` is
set from the clock and `rotation.y` is advanced by a constant. -/
def animateParticles (now : α) (sc : Scene α) : Scene α :=
  let time := now * 0.001
  { sc with
    particleSystem := sc.particleSystem.map (fun p =>
      { p with time := time, rotationY := p.rotationY + 0.001 * sc.params.rotationSpeed })
    groundParticles := sc.groundParticles.map (fun p => { p with time := time })
    snowParticles := sc.snowParticles.map (fun p =>
      { p with time := time, rotationY := p.rotationY + 0.0002 })
    starParticles := sc.starParticles.map (fun p =>
      { p with time := time, rotationY := p.rotationY + 0.0005 }) }

/-- The particle groups after the display frames at the times `ts`, oldest
first. -/
def runFrames (ts : List α) (sc : Scene α) : Scene α :=
  ts.foldl (fun st t => animateParticles t st) sc

/-- The scene when `init()` returns (line 38 of the constructor), as far as the
sliders and the frame loop see it: the four groups with the arrays `tree`,
`ground`, `snow` and `star`, the uniforms `time = 0` and `pointSize` from
`params`, and no rotation.  The constructor's own call of `animate()` comes
after it: the scene after the constructor is `sceneAfterConstructor`. -/
def initScene (P : Params α) (tree : TreeArrays α) (ground : DiskArrays α) (snow : SnowArrays α)
    (star : DiskArrays α) : Scene α :=
  { params := P
    particleSystem := some { geometry := tree, time := 0, pointSize := P.particleSize,
                             rotationY := 0 }
    groundParticles := some { geometry := ground, time := 0, pointSize := P.groundParticleSize,
                              rotationY := 0 }
    snowParticles := some { geometry := snow, time := 0, pointSize := P.snowParticleSize,
                            rotationY := 0 }
    starParticles := some { geometry := star, time := 0, pointSize := P.starParticleSize,
                            rotationY := 0 } }

/-- The ring after the constructor (lines 38-40): `init()` leaves `initState`,
and the constructor's own call of `animate()`, made when `performance.now()`
returns `now`, is the first frame. -/
def afterConstructor (L : Lib α) (P : Params α) (files : List String) (now : α) : State α :=
  frame now (initState L P files)

/-- The particle groups after the constructor (lines 38-40): `init()` leaves
`initScene`, and the constructor's own call of `animate()`, made when
`performance.now()` returns `now`, is the first frame. -/
def sceneAfterConstructor (P : Params α) (tree : TreeArrays α) (ground : DiskArrays α)
    (snow : SnowArrays α) (star : DiskArrays α) (now : α) : Scene α :=
  animateParticles now (initScene P tree ground snow star)

end Frames

/-! ## The star polygon of the specification -/

section StarPolygon

variable {α : Type} [LinearOrderedField α] [FloorRing α]

/-- The vertex number `j` of the boundary of the star polygon in the plane of
`y` and `z`, in the order `outer_0, inner_0, outer_1, inner_1, ...`. -/
def starVertex (L : Lib α) (j : Nat) : α × α :=
  if j % 2 = 0 then ((outerPoint L (j / 2 % 5)).y, (outerPoint L (j / 2 % 5)).z)
  else ((innerPoint L (j / 2 % 5)).y, (innerPoint L (j / 2 % 5)).z)

/-- The specification's star polygon, not a part of the program: the region
bounded by the closed line through `outer_0, inner_0, outer_1, ..., inner_4`.
The vertices wind once around the centre, a fifth of a half turn apart, so the
region is the union of the ten triangles spanned by the centre and two
consecutive vertices. -/
def specInsideStarPolygon (L : Lib α) (p : α × α) : Prop :=
  ∃ j : Nat, j < 10 ∧ ∃ a b : α, 0 ≤ a ∧ 0 ≤ b ∧ a + b ≤ 1 ∧
    p = (a * (starVertex L j).1 + b * (starVertex L (j + 1)).1,
         a * (starVertex L j).2 + b * (starVertex L (j + 1)).2)

end StarPolygon

/-! ## Draws for runs of the star and of the trunk -/

/-- Draws that put the first star particle at the middle of the segment from
`outer_0` to `outer_1`: the wedge branch (draw 0), the segment 0 (draw 1),
`u = 0` (draw 2), `v = 1/2` (draw 3), and the thickness draw `1/2`. -/
def notchDraws {α : Type} [LinearOrderedField α] (k : Nat) : α :=
  if k = 3 then 1 / 2 else if k = 4 then 1 / 2 else 0

/-- Draws that put the first trunk particle of the default tree (its draws
start at the draw 40000) at nine tenths of the way up the trunk. -/
def trunkDraws {α : Type} [LinearOrderedField α] (k : Nat) : α :=
  if k = 40000 then 9 / 10 else 0

/-! # Theorems -/

set_option linter.unusedSectionVars false

/-! ## Easing -/

section Easing

variable {α : Type} [LinearOrderedField α]

theorem progress_le_one (e : α) : progress e ≤ 1 := by
  unfold progress; exact min_le_right _ _

theorem progress_nonneg {e : α} (he : 0 ≤ e) : 0 ≤ progress e := by
  unfold progress duration
  exact le_min (div_nonneg he (by norm_num)) zero_le_one

theorem easeOutCubic_zero : easeOutCubic (0 : α) = 0 := by simp [easeOutCubic]

theorem easeOutCubic_one : easeOutCubic (1 : α) = 1 := by simp [easeOutCubic]

theorem easeOutCubic_mono {p q : α} (hpq : p ≤ q) (hq : q ≤ 1) :
    easeOutCubic p ≤ easeOutCubic q := by
  unfold easeOutCubic
  have h1 : 0 ≤ 1 - q := by linarith
  have h2 : 1 - q ≤ 1 - p := by linarith
  have := pow_le_pow_left₀ h1 h2 3
  linarith

/-- C7: for every elapsed time `e ≥ 0` the progress `min (e / 600) 1` lies in
`[0, 1]`; the factor `f p = 1 - (1 - p) ^ 3` has `f 0 = 0`, `f 1 = 1`, is
non-decreasing on `[0, 1]` and maps `[0, 1]` into `[0, 1]`. -/
theorem ease_out_cubic_properties (e : α) (he : 0 ≤ e) :
    (progress e = min (e / 600) 1 ∧ 0 ≤ progress e ∧ progress e ≤ 1) ∧
    (∀ p : α, easeOutCubic p = 1 - (1 - p) ^ 3) ∧
    easeOutCubic (0 : α) = 0 ∧ easeOutCubic (1 : α) = 1 ∧
    (∀ p q : α, 0 ≤ p → p ≤ q → q ≤ 1 → easeOutCubic p ≤ easeOutCubic q) ∧
    (∀ p : α, 0 ≤ p → p ≤ 1 → 0 ≤ easeOutCubic p ∧ easeOutCubic p ≤ 1) := by
  refine ⟨⟨rfl, progress_nonneg he, progress_le_one e⟩, fun _ => rfl, easeOutCubic_zero,
    easeOutCubic_one, fun p q _ hpq hq => easeOutCubic_mono hpq hq, ?_⟩
  intro p hp hp1
  constructor
  · have := easeOutCubic_mono hp hp1
    rwa [easeOutCubic_zero] at this
  · have := easeOutCubic_mono hp1 (le_refl (1 : α))
    rwa [easeOutCubic_one] at this

/-- The theorem of C7 at the elapsed time 300 ms (half of the duration). -/
theorem ease_out_cubic_properties_witness :
    (0 : ℚ) ≤ 300 ∧ 0 ≤ progress (300 : ℚ) ∧ progress (300 : ℚ) ≤ 1 :=
  ⟨by norm_num, (ease_out_cubic_properties (300 : ℚ) (by norm_num)).1.2⟩

end Easing

/-! ## The particle tree -/

section TreeLength

variable {α : Type} [LinearOrderedField α]

theorem canopyLoop_length [FloorRing α] (L : Lib α) (P : Params α) (rnd : Nat → α) (n : Nat) :
    (canopyLoop L P rnd n).positions.length = 3 * n ∧
    (canopyLoop L P rnd n).colors.length = 3 * n ∧
    (canopyLoop L P rnd n).sizes.length = n ∧
    (canopyLoop L P rnd n).velocities.length = 3 * n := by
  induction n with
  | zero => simp [canopyLoop]
  | succ n ih =>
    obtain ⟨h1, h2, h3, h4⟩ := ih
    simp only [canopyLoop, canopyStep, List.length_append, h1, h2, h3, h4]
    simp
    omega

theorem trunkLoop_length (L : Lib α) (P : Params α) (rnd : Nat → α) (t : TreeArrays α) (n : Nat) :
    (trunkLoop L P rnd t n).positions.length = t.positions.length + 3 * n ∧
    (trunkLoop L P rnd t n).colors.length = t.colors.length + 3 * n ∧
    (trunkLoop L P rnd t n).sizes.length = t.sizes.length + n ∧
    (trunkLoop L P rnd t n).velocities.length = t.velocities.length + 3 * n := by
  induction n with
  | zero => simp [trunkLoop]
  | succ n ih =>
    obtain ⟨h1, h2, h3, h4⟩ := ih
    simp only [trunkLoop, trunkStep, List.length_append, h1, h2, h3, h4]
    simp
    omega

/-- C10: for every particle count `N` and every outcome of the random draws the
position, colour and velocity arrays of the tree hold `3 * (N + ⌊0.05 * N⌋)`
numbers and the size array holds `N + ⌊0.05 * N⌋`; for `N = 0` all four arrays
are empty. -/
theorem tree_arrays_length [FloorRing α] (L : Lib α) (P : Params α) (rnd : Nat → α) :
    (createParticleTree L P rnd).positions.length
        = 3 * (P.particleCount + ⌊(0.05 : α) * P.particleCount⌋₊) ∧
    (createParticleTree L P rnd).colors.length
        = 3 * (P.particleCount + ⌊(0.05 : α) * P.particleCount⌋₊) ∧
    (createParticleTree L P rnd).velocities.length
        = 3 * (P.particleCount + ⌊(0.05 : α) * P.particleCount⌋₊) ∧
    (createParticleTree L P rnd).sizes.length
        = P.particleCount + ⌊(0.05 : α) * P.particleCount⌋₊ ∧
    (P.particleCount = 0 →
      (createParticleTree L P rnd).positions = [] ∧ (createParticleTree L P rnd).colors = [] ∧
      (createParticleTree L P rnd).velocities = [] ∧ (createParticleTree L P rnd).sizes = []) := by
  have hk : (trunkParticles P).toNat = ⌊(0.05 : α) * P.particleCount⌋₊ := by
    unfold trunkParticles
    rw [Int.floor_toNat, mul_comm]
  obtain ⟨c1, c2, c3, c4⟩ := canopyLoop_length L P rnd P.particleCount
  obtain ⟨t1, t2, t3, t4⟩ :=
    trunkLoop_length L P rnd (canopyLoop L P rnd P.particleCount) (trunkParticles P).toNat
  unfold createParticleTree
  rw [hk] at t1 t2 t3 t4 ⊢
  refine ⟨by omega, by omega, by omega, by omega, ?_⟩
  intro h0
  rw [h0] at t1 t2 t3 t4 c1 c2 c3 c4 ⊢
  simp only [Nat.cast_zero, mul_zero, Nat.floor_zero] at t1 t2 t3 t4 ⊢
  refine ⟨List.eq_nil_of_length_eq_zero ?_, List.eq_nil_of_length_eq_zero ?_,
    List.eq_nil_of_length_eq_zero ?_, List.eq_nil_of_length_eq_zero ?_⟩ <;>
  simp [trunkLoop, canopyLoop]

end TreeLength

/-! ## The ring layout -/

section RingInit

variable {α : Type} [LinearOrderedField α]

theorem initState_heap (L : Lib α) (P : Params α) (files : List String) :
    (initState L P files).heap =
      (List.range (min files.length 20)).map
        (createImageData L P 1 (min files.length 20)) := by
  simp [initState, createImageRing, List.length_take, min_comm]

theorem initState_getElem? (L : Lib α) (P : Params α) (files : List String) (i : Nat)
    (hi : i < min files.length 20) :
    (initState L P files).heap[i]? = some (createImageData L P 1 (min files.length 20) i) := by
  rw [initState_heap]
  simp [List.getElem?_map, List.getElem?_range hi]

theorem initState_imageMeshes (L : Lib α) (P : Params α) (files : List String) :
    (initState L P files).imageMeshes = List.range (min files.length 20) := by
  simp [initState, createImageRing, List.length_take, min_comm]
end RingInit

theorem createImageData_angle (L : Lib ℝ) (P : Params ℝ) (r n i : Nat) (hn : 0 < n) :
    (createImageData (realMath L) P r n i).initialAngle = i * (2 * Real.pi / n) := by
  have : (n : ℝ) ≠ 0 := by positivity
  simp only [createImageData, realMath]
  field_simp
  ring

/-- C8: in a ring of `n = min files.length 20` panels, panel `i < n` has the ring
angle `i * (2 π / n)`, which lies in `[0, 2 π)` and is smaller than the angle
of every later panel; its group sits at `(cos angle * R, h, sin angle * R)`
with `R = 1.2 * treeWidth` and `h = 0.5 * treeHeight`, at horizontal distance
`R` from the axis of the ring. -/
theorem ring_layout (L : Lib ℝ) (P : Params ℝ) (files : List String) (i : Nat)
    (hi : i < min files.length 20) (hw : 0 ≤ P.treeWidth) :
    (initState (realMath L) P files).imageMeshes = List.range (min files.length 20) ∧
    ∃ d, (initState (realMath L) P files).heap[i]? = some d ∧
      d.initialAngle = i * (2 * Real.pi / (min files.length 20 : Nat)) ∧
      0 ≤ d.initialAngle ∧ d.initialAngle < 2 * Real.pi ∧
      (∀ j d', i < j → (initState (realMath L) P files).heap[j]? = some d' →
        d.initialAngle < d'.initialAngle) ∧
      d.group.position =
        ⟨Real.cos d.initialAngle * (1.2 * P.treeWidth), 0.5 * P.treeHeight,
         Real.sin d.initialAngle * (1.2 * P.treeWidth)⟩ ∧
      Real.sqrt (d.group.position.x ^ 2 + d.group.position.z ^ 2) = 1.2 * P.treeWidth := by
  have hn : 0 < min files.length 20 := by omega
  have hnR : (0 : ℝ) < ((min files.length 20 : Nat) : ℝ) := by exact_mod_cast hn
  have hstep : 0 < 2 * Real.pi / ((min files.length 20 : Nat) : ℝ) :=
    div_pos (by positivity) hnR
  refine ⟨initState_imageMeshes _ _ _, _, initState_getElem? _ _ _ i hi, ?_, ?_, ?_, ?_, ?_, ?_⟩
  · exact createImageData_angle L P 1 _ i hn
  · rw [createImageData_angle L P 1 _ i hn]; positivity
  · rw [createImageData_angle L P 1 _ i hn]
    have hiR : (i : ℝ) < ((min files.length 20 : Nat) : ℝ) := by exact_mod_cast hi
    calc (i : ℝ) * (2 * Real.pi / ((min files.length 20 : Nat) : ℝ))
        < ((min files.length 20 : Nat) : ℝ) * (2 * Real.pi / ((min files.length 20 : Nat) : ℝ)) :=
          mul_lt_mul_of_pos_right hiR hstep
      _ = 2 * Real.pi := by
          rw [← mul_div_assoc]; exact mul_div_cancel_left₀ _ (ne_of_gt hnR)
  · intro j d' hij hj
    have hjn : j < min files.length 20 := by
      by_contra hcon
      rw [initState_heap] at hj
      have : ((List.range (min files.length 20)).map
          (createImageData (realMath L) P 1 (min files.length 20))).length ≤ j := by
        simp; omega
      rw [List.getElem?_eq_none this] at hj
      exact Option.noConfusion hj
    rw [initState_getElem? _ _ _ j hjn] at hj
    cases hj
    rw [createImageData_angle L P 1 _ i hn, createImageData_angle L P 1 _ j hn]
    have : (i : ℝ) < j := by exact_mod_cast hij
    exact mul_lt_mul_of_pos_right this hstep
  · simp only [createImageData, realMath]
    congr 1 <;> ring
  · have hx : (createImageData (realMath L) P 1 (min files.length 20) i).group.position.x =
        Real.cos (createImageData (realMath L) P 1 (min files.length 20) i).initialAngle
          * (1.2 * P.treeWidth) := by
      simp only [createImageData, realMath]; ring
    have hz : (createImageData (realMath L) P 1 (min files.length 20) i).group.position.z =
        Real.sin (createImageData (realMath L) P 1 (min files.length 20) i).initialAngle
          * (1.2 * P.treeWidth) := by
      simp only [createImageData, realMath]; ring
    rw [hx, hz]
    have hR : (0 : ℝ) ≤ 1.2 * P.treeWidth := by positivity
    have : ∀ a R : ℝ, (Real.cos a * R) ^ 2 + (Real.sin a * R) ^ 2 = R ^ 2 := by
      intro a R
      have := Real.cos_sq_add_sin_sq a
      nlinarith
    rw [this, Real.sqrt_sq hR]

/-- The theorem of C8 at the first panel of the ring of the program. -/
theorem ring_layout_witness :
    0 < min imageFiles.length 20 ∧ (0 : ℝ) ≤ (defaultParams : Params ℝ).treeWidth ∧
    ∃ d, (initState (realMath flatLib) defaultParams imageFiles).heap[0]? = some d ∧
      d.initialAngle = (0 : Nat) * (2 * Real.pi / (min imageFiles.length 20 : Nat)) :=
  have h1 : 0 < min imageFiles.length 20 := by decide
  have h2 : (0 : ℝ) ≤ (defaultParams : Params ℝ).treeWidth := by simp [defaultParams]
  ⟨h1, h2,
    let ⟨d, hd, ha, _⟩ := (ring_layout flatLib defaultParams imageFiles 0 h1 h2).2
    ⟨d, hd, ha⟩⟩

theorem Vec3.dot_outward (x z : ℝ) (h : x ≠ 0 ∨ z ≠ 0) :
    0 < -Real.sin (Complex.arg ⟨z, x⟩ + Real.pi) * x + -Real.cos (Complex.arg ⟨z, x⟩ + Real.pi) * z := by
  have hw : (⟨z, x⟩ : ℂ) ≠ 0 := by
    intro hc
    have h1 := congrArg Complex.re hc
    have h2 := congrArg Complex.im hc
    simp at h1 h2
    rcases h with h | h
    · exact h h2
    · exact h h1
  have habs : 0 < Complex.abs ⟨z, x⟩ := by simpa using hw
  rw [Real.sin_add_pi, Real.cos_add_pi, Complex.sin_arg, Complex.cos_arg hw]
  simp only [neg_neg]
  have hsq : Complex.abs ⟨z, x⟩ * Complex.abs ⟨z, x⟩ = z * z + x * x := by
    rw [Complex.mul_self_abs, Complex.normSq_mk]
  have : x / Complex.abs ⟨z, x⟩ * x + z / Complex.abs ⟨z, x⟩ * z = Complex.abs ⟨z, x⟩ := by
    field_simp
    nlinarith
  rw [this]; exact habs

theorem panelNormal_createImageData (L : Lib ℝ) (P : Params ℝ) (r n i : Nat) :
    panelNormal (realMath L) (createImageData (realMath L) P r n i) =
      ⟨-Real.sin ((createImageData (realMath L) P r n i).group.rotation.y), 0,
       -Real.cos ((createImageData (realMath L) P r n i).group.rotation.y)⟩ := by
  simp [panelNormal, applyEuler, rotateX, rotateY, rotateZ, createImageData, realMath]

/-- C9: for every panel of the ring, the normal of the image plane (the
plane's `+Z` normal turned by the mesh rotation `x = π` and then by the group's
Euler rotation `(0, atan2(x, z) + π, 15°)`) has a positive dot product with
the radial direction `(x, 0, z)` of the panel. -/
theorem panel_normal_outward (L : Lib ℝ) (P : Params ℝ) (files : List String) (i : Nat)
    (hi : i < min files.length 20) (hw : P.treeWidth ≠ 0) :
    ∃ d, (initState (realMath L) P files).heap[i]? = some d ∧
      d.meshRotationX = Real.pi ∧
      d.group.rotation =
        ⟨0, (realMath L).atan2 d.group.position.x d.group.position.z + Real.pi,
         15 * Real.pi / 180⟩ ∧
      0 < dot (panelNormal (realMath L) d) ⟨d.group.position.x, 0, d.group.position.z⟩ := by
  refine ⟨_, initState_getElem? _ _ _ i hi, rfl, rfl, ?_⟩
  rw [panelNormal_createImageData]
  simp only [dot, mul_zero, add_zero]
  have hpos : (createImageData (realMath L) P 1 (min files.length 20) i).group.position.x ≠ 0 ∨
      (createImageData (realMath L) P 1 (min files.length 20) i).group.position.z ≠ 0 := by
    simp only [createImageData, realMath]
    by_contra hc
    push_neg at hc
    obtain ⟨h1, h2⟩ := hc
    have hR : P.treeWidth * 1.2 ≠ 0 := mul_ne_zero hw (by norm_num)
    have hc0 := (mul_eq_zero.mp h1).resolve_right hR
    have hs0 := (mul_eq_zero.mp h2).resolve_right hR
    have := Real.cos_sq_add_sin_sq (i * (360 / ((min files.length 20 : Nat) : ℝ) * Real.pi / 180))
    rw [hc0, hs0] at this
    norm_num at this
  exact Vec3.dot_outward _ _ hpos

/-- The theorem of C9 at the first panel of the ring of the program. -/
theorem panel_normal_outward_witness :
    0 < min imageFiles.length 20 ∧ (defaultParams : Params ℝ).treeWidth ≠ 0 ∧
    ∃ d, (initState (realMath flatLib) defaultParams imageFiles).heap[0]? = some d ∧
      0 < dot (panelNormal (realMath flatLib) d) ⟨d.group.position.x, 0, d.group.position.z⟩ :=
  have h1 : 0 < min imageFiles.length 20 := by decide
  have h2 : (defaultParams : Params ℝ).treeWidth ≠ 0 := by simp [defaultParams]
  ⟨h1, h2,
    let ⟨d, hd, _, _, hn⟩ := panel_normal_outward flatLib defaultParams imageFiles 0 h1 h2
    ⟨d, hd, hn⟩⟩

/-! ## The enlarge and restore animations -/

section StateMachine

variable {α : Type} [LinearOrderedField α]

/-! ## Single steps of the animation closures -/

theorem progress_lt_one_iff (e : α) : progress e < 1 ↔ e < 600 := by
  unfold progress duration
  rw [min_lt_iff]
  constructor
  · rintro (h | h)
    · rwa [div_lt_one (by norm_num)] at h
    · exact absurd h (lt_irrefl _)
  · intro h
    left
    rwa [div_lt_one (by norm_num)]

theorem progress_eq_one {e : α} (h : 600 ≤ e) : progress e = 1 := by
  unfold progress duration
  apply min_eq_right
  rwa [one_le_div (by norm_num)]

theorem progress_zero : progress (0 : α) = 0 := by
  unfold progress duration
  simp

theorem lerpVectors_one (u v : Vec3 α) : lerpVectors u v 1 = v := by
  cases v; simp [lerpVectors]

theorem lerp_one (x y : α) : lerp x y 1 = y := by simp [lerp]

theorem heap_lt {s : State α} {id : Nat} {d : ImageData α} (h : s.heap[id]? = some d) :
    id < s.heap.length := by
  by_contra hc
  rw [List.getElem?_eq_none (by omega)] at h
  exact Option.noConfusion h

theorem setData_get_same {s : State α} {id : Nat} {d0 : ImageData α} (d : ImageData α)
    (h : s.heap[id]? = some d0) : (s.setData id d).heap[id]? = some d := by
  simp [State.setData, List.getElem?_set, heap_lt h]

theorem setData_get_other (s : State α) {id j : Nat} (d : ImageData α) (h : id ≠ j) :
    (s.setData id d).heap[j]? = s.heap[j]? := by
  simp [State.setData, List.getElem?_set, h]

theorem call_heap_other (a : Animation α) (now : α) (s : State α) (j : Nat)
    (h : a.imageData ≠ j) : (a.call now s).heap[j]? = s.heap[j]? := by
  cases a with
  | enlarge id sc sp sr ep fr t0 =>
    simp only [Animation.imageData] at h
    simp only [Animation.call]
    split
    · rfl
    · split <;> simp [State.setData, List.getElem?_set, h]
  | restore id sc sp sr t0 =>
    simp only [Animation.imageData] at h
    simp only [Animation.call]
    split
    · rfl
    · split
      · simp [State.setData, List.getElem?_set, h]
      · split
        · simp [State.setData, List.getElem?_set, h]
        · split <;> simp [State.setData, List.getElem?_set, h]

theorem call_static (a : Animation α) (now : α) (s : State α) :
    (a.call now s).imageRing = s.imageRing ∧ (a.call now s).imageMeshes = s.imageMeshes ∧
    (a.call now s).ringRotationY = s.ringRotationY ∧
    (a.call now s).heap.length = s.heap.length := by
  cases a with
  | enlarge id sc sp sr ep fr t0 =>
    simp only [Animation.call]
    split
    · simp
    · split <;> simp [State.setData]
  | restore id sc sp sr t0 =>
    simp only [Animation.call]
    split
    · simp
    · split
      · simp [State.setData]
      · split
        · simp [State.setData]
        · split <;> simp [State.setData]

theorem call_callbacks (a : Animation α) (now : α) (s : State α) :
    (a.call now s).callbacks = s.callbacks ∨ (a.call now s).callbacks = s.callbacks ++ [a] := by
  cases a with
  | enlarge id sc sp sr ep fr t0 =>
    simp only [Animation.call]
    split
    · simp
    · split <;> simp [State.setData]
  | restore id sc sp sr t0 =>
    simp only [Animation.call]
    split
    · simp
    · split
      · simp [State.setData]
      · split
        · simp [State.setData]
        · split <;> simp [State.setData]

theorem call_enlarge_running {s : State α} {id : Nat} {d : ImageData α}
    (sc : α) (sp sr ep fr : Vec3 α) {t0 now : α}
    (h : s.heap[id]? = some d) (ht : now - t0 < 600) :
    (∃ g : Group α, g.parent = d.group.parent ∧
      ((Animation.enlarge id sc sp sr ep fr t0).call now s).heap[id]? =
        some { d with group := g }) ∧
    ((Animation.enlarge id sc sp sr ep fr t0).call now s).callbacks =
      s.callbacks ++ [Animation.enlarge id sc sp sr ep fr t0] ∧
    ((Animation.enlarge id sc sp sr ep fr t0).call now s).enlargedImage = s.enlargedImage := by
  have hp : progress (now - t0) < 1 := (progress_lt_one_iff _).2 ht
  simp only [Animation.call, h, hp, if_true]
  refine ⟨⟨_, ?_, setData_get_same _ h⟩, ?_⟩
  · rfl
  · simp [State.setData]

theorem call_enlarge_done {s : State α} {id : Nat} {d : ImageData α}
    (sc : α) (sp sr ep fr : Vec3 α) {t0 now : α}
    (h : s.heap[id]? = some d) (ht : 600 ≤ now - t0) :
    ((Animation.enlarge id sc sp sr ep fr t0).call now s).heap[id]? =
      some { d with
        group := { d.group with scale := ⟨4, 4, 4⟩, position := ep, rotation := fr }
        isEnlarged := true, fixedRotation := some fr } ∧
    ((Animation.enlarge id sc sp sr ep fr t0).call now s).callbacks = s.callbacks ∧
    ((Animation.enlarge id sc sp sr ep fr t0).call now s).enlargedImage = some id := by
  have hp : progress (now - t0) = 1 := progress_eq_one ht
  simp only [Animation.call, h, hp, lt_irrefl, if_false, easeOutCubic_one, lerpVectors_one,
    lerp_one]
  refine ⟨?_, ?_⟩
  · rw [setData_get_same _ h]
    simp [uniform]
  · simp [State.setData]

theorem call_restore_running {s : State α} {id : Nat} {d : ImageData α} {olp olr : Vec3 α}
    (sc : α) (sp sr : Vec3 α) {t0 now : α}
    (h : s.heap[id]? = some d) (hp : d.originalLocalPosition = some olp)
    (hr : d.originalLocalRotation = some olr) (ht : now - t0 < 600) :
    (∃ g : Group α, g.parent = d.group.parent ∧
      ((Animation.restore id sc sp sr t0).call now s).heap[id]? = some { d with group := g }) ∧
    ((Animation.restore id sc sp sr t0).call now s).callbacks =
      s.callbacks ++ [Animation.restore id sc sp sr t0] ∧
    ((Animation.restore id sc sp sr t0).call now s).enlargedImage = s.enlargedImage := by
  have hlt : progress (now - t0) < 1 := (progress_lt_one_iff _).2 ht
  simp only [Animation.call, h, hp, hr, hlt, if_true]
  refine ⟨⟨_, ?_, setData_get_same _ h⟩, ?_⟩
  · rfl
  · simp [State.setData]

theorem call_restore_done {s : State α} {id : Nat} {d : ImageData α} {olp olr : Vec3 α}
    (sc : α) (sp sr : Vec3 α) {t0 now : α}
    (h : s.heap[id]? = some d) (hp : d.originalLocalPosition = some olp)
    (hr : d.originalLocalRotation = some olr) (ht : 600 ≤ now - t0) :
    ((Animation.restore id sc sp sr t0).call now s).heap[id]? =
      some { d with
        group := { parent := Parent.ring s.imageRing, scale := uniform d.originalScale.x,
                   position := olp, rotation := olr }
        isEnlarged := false } ∧
    ((Animation.restore id sc sp sr t0).call now s).callbacks = s.callbacks := by
  have hp1 : progress (now - t0) = 1 := progress_eq_one ht
  simp only [Animation.call, h, hp, hr, hp1, lt_irrefl, if_false, easeOutCubic_one,
    lerpVectors_one, lerp_one]
  refine ⟨?_, rfl⟩
  rw [setData_get_same _ h]
  have hpar : ∀ p : Parent,
      (if ¬ ((if p = Parent.scene then Parent.remove Parent.scene p else p) =
            Parent.ring s.imageRing)
        then Parent.add (Parent.ring s.imageRing)
          (if p = Parent.scene then Parent.remove Parent.scene p else p)
        else (if p = Parent.scene then Parent.remove Parent.scene p else p)) =
      Parent.ring s.imageRing := by
    intro p
    by_cases h1 : (if p = Parent.scene then Parent.remove Parent.scene p else p) =
        Parent.ring s.imageRing
    · simp [h1]
    · simp [h1, Parent.add]
  simp [hpar]

/-! ## Frames -/

theorem foldl_call_static (now : α) (cs : List (Animation α)) (st : State α) :
    (cs.foldl (fun st a => a.call now st) st).imageRing = st.imageRing ∧
    (cs.foldl (fun st a => a.call now st) st).imageMeshes = st.imageMeshes ∧
    (cs.foldl (fun st a => a.call now st) st).heap.length = st.heap.length ∧
    ∀ c ∈ (cs.foldl (fun st a => a.call now st) st).callbacks, c ∈ st.callbacks ∨ c ∈ cs := by
  induction cs generalizing st with
  | nil => simp
  | cons a cs ih =>
    obtain ⟨h1, h2, h3, h4⟩ := ih (a.call now st)
    obtain ⟨k1, k2, _, k4⟩ := call_static a now st
    simp only [List.foldl_cons]
    refine ⟨h1.trans k1, h2.trans k2, h3.trans k4, ?_⟩
    intro c hc
    rcases h4 c hc with h | h
    · rcases call_callbacks a now st with e | e
      · rw [e] at h; exact Or.inl h
      · rw [e] at h
        rcases List.mem_append.1 h with h' | h'
        · exact Or.inl h'
        · right; simp at h'; simp [h']
    · right; exact List.mem_cons_of_mem _ h

theorem foldl_call_others (now : α) (id : Nat) (cs : List (Animation α)) (st : State α)
    (h : ∀ c ∈ cs, c.imageData ≠ id) :
    (cs.foldl (fun st a => a.call now st) st).heap[id]? = st.heap[id]? := by
  induction cs generalizing st with
  | nil => simp
  | cons a cs ih =>
    simp only [List.foldl_cons]
    rw [ih _ (fun c hc => h c (List.mem_cons_of_mem _ hc))]
    exact call_heap_other a now st id (h a (List.mem_cons_self _ _))

theorem frame_static (now : α) (s : State α) :
    (frame now s).imageRing = s.imageRing ∧ (frame now s).imageMeshes = s.imageMeshes ∧
    (frame now s).heap.length = s.heap.length ∧
    ∀ c ∈ (frame now s).callbacks, c ∈ s.callbacks := by
  obtain ⟨h1, h2, h3, h4⟩ := foldl_call_static now s.callbacks
    { s with ringRotationY := s.ringRotationY + 0.001, callbacks := [] }
  refine ⟨h1, h2, h3, ?_⟩
  intro c hc
  rcases h4 c hc with h | h
  · simp at h
  · exact h

theorem frame_quiet (now : α) {s : State α} {id : Nat} (h : s.quiet id) :
    (frame now s).heap[id]? = s.heap[id]? ∧ (frame now s).quiet id := by
  constructor
  · exact foldl_call_others now id s.callbacks _ h
  · intro c hc
    exact h c ((frame_static now s).2.2.2 c hc)

/-- A frame whose queue ends with a closure `a` that is the only one working on
its panel: the frame is the call of `a` on a state that agrees with the old one
on that panel and whose queue holds only other closures of the old queue. -/
theorem frame_last (now : α) {s : State α} {a : Animation α} (cs : List (Animation α))
    (h : s.callbacks = cs ++ [a]) (hq : ∀ c ∈ cs, c.imageData ≠ a.imageData) :
    ∃ st : State α, frame now s = a.call now st ∧
      st.heap[a.imageData]? = s.heap[a.imageData]? ∧ st.imageRing = s.imageRing ∧
      ∀ c ∈ st.callbacks, c ∈ cs := by
  refine ⟨cs.foldl (fun st a => a.call now st)
    { s with ringRotationY := s.ringRotationY + 0.001, callbacks := [] }, ?_, ?_, ?_, ?_⟩
  · simp [frame, h, List.foldl_append]
  · exact foldl_call_others now _ cs _ hq
  · exact (foldl_call_static now cs _).1
  · intro c hc
    rcases (foldl_call_static now cs _).2.2.2 c hc with h' | h'
    · simp at h'
    · exact h'

theorem frame_enlarging_running {now t0 : α} {s : State α} {id : Nat} {ep fr : Vec3 α}
    {d : ImageData α} (h : s.enlargingTo id ep fr t0) (hd : s.heap[id]? = some d)
    (ht : now - t0 < 600) :
    (frame now s).enlargingTo id ep fr t0 ∧
    (∃ g : Group α, g.parent = d.group.parent ∧
      (frame now s).heap[id]? = some { d with group := g }) := by
  obtain ⟨cs, sc, sp, sr, hcs, hq⟩ := h
  obtain ⟨st, hf, hh, _, hc⟩ := frame_last now cs hcs hq
  simp only [Animation.imageData] at hh
  rw [← hh] at hd
  obtain ⟨hg, hcb, _⟩ := call_enlarge_running sc sp sr ep fr hd ht
  rw [hf]
  exact ⟨⟨st.callbacks, sc, sp, sr, hcb, fun c hcm => hq c (hc c hcm)⟩, hg⟩

theorem frame_enlarging_done {now t0 : α} {s : State α} {id : Nat} {ep fr : Vec3 α}
    {d : ImageData α} (h : s.enlargingTo id ep fr t0) (hd : s.heap[id]? = some d)
    (ht : 600 ≤ now - t0) :
    (frame now s).quiet id ∧ (frame now s).enlargedImage = some id ∧
    (frame now s).heap[id]? = some { d with
        group := { d.group with scale := ⟨4, 4, 4⟩, position := ep, rotation := fr }
        isEnlarged := true, fixedRotation := some fr } := by
  obtain ⟨cs, sc, sp, sr, hcs, hq⟩ := h
  obtain ⟨st, hf, hh, _, hc⟩ := frame_last now cs hcs hq
  simp only [Animation.imageData] at hh
  rw [← hh] at hd
  obtain ⟨hg, hcb, he⟩ := call_enlarge_done sc sp sr ep fr hd ht
  rw [hf]
  refine ⟨?_, he, hg⟩
  intro c hcm
  rw [hcb] at hcm
  exact hq c (hc c hcm)

theorem frame_restoring_running {now t0 : α} {s : State α} {id : Nat} {p r sc : Vec3 α}
    {d : ImageData α} (h : s.restoringSince id t0) (hd : s.heap[id]? = some d)
    (hs : d.saved p r sc) (ht : now - t0 < 600) :
    (frame now s).restoringSince id t0 ∧
    (∃ g : Group α, g.parent = d.group.parent ∧
      (frame now s).heap[id]? = some { d with group := g }) := by
  obtain ⟨cs, sc', sp, sr, hcs, hq⟩ := h
  obtain ⟨st, hf, hh, _, hc⟩ := frame_last now cs hcs hq
  simp only [Animation.imageData] at hh
  rw [← hh] at hd
  obtain ⟨hg, hcb, _⟩ := call_restore_running sc' sp sr hd hs.1 hs.2.1 ht
  rw [hf]
  exact ⟨⟨st.callbacks, sc', sp, sr, hcb, fun c hcm => hq c (hc c hcm)⟩, hg⟩

theorem frame_restoring_done {now t0 : α} {s : State α} {id : Nat} {p r sc : Vec3 α}
    {d : ImageData α} (h : s.restoringSince id t0) (hd : s.heap[id]? = some d)
    (hs : d.saved p r sc) (ht : 600 ≤ now - t0) :
    (frame now s).quiet id ∧
    (frame now s).heap[id]? = some { d with
        group := { parent := Parent.ring s.imageRing, scale := uniform sc.x,
                   position := p, rotation := r }
        isEnlarged := false } := by
  obtain ⟨cs, sc', sp, sr, hcs, hq⟩ := h
  obtain ⟨st, hf, hh, hring, hc⟩ := frame_last now cs hcs hq
  simp only [Animation.imageData] at hh
  rw [← hh] at hd
  obtain ⟨hg, hcb⟩ := call_restore_done sc' sp sr hd hs.1 hs.2.1 ht
  rw [hf]
  refine ⟨?_, ?_⟩
  · intro c hcm
    rw [hcb] at hcm
    exact hq c (hc c hcm)
  · rw [hg, hring, hs.2.2]

/-! ## Clicks -/

theorem restoreImage_snap_other (now : α) (other id : Nat) (s : State α) (h : other ≠ id) :
    (restoreImage now other false s).heap[id]? = s.heap[id]? ∧
    (restoreImage now other false s).callbacks = s.callbacks ∧
    (restoreImage now other false s).imageRing = s.imageRing ∧
    (restoreImage now other false s).imageMeshes = s.imageMeshes := by
  unfold restoreImage
  split
  · simp
  · split
    · simp [State.setData, List.getElem?_set, h]
    · simp

/-- The state in which `enlargeImage` saves the transform: the other enlarged
panel, if any, has been snapped back. -/
theorem enlargeImage_eq (L : Lib α) (cam : Camera α) (now : α) (id : Nat) (s : State α) :
    ∃ s1 : State α, s1.heap[id]? = s.heap[id]? ∧ s1.callbacks = s.callbacks ∧
      s1.imageRing = s.imageRing ∧ s1.imageMeshes = s.imageMeshes ∧
      (s1 = s ∨ ∃ other, other ≠ id ∧ s.enlargedImage = some other ∧
        s1 = restoreImage now other false s) ∧
      enlargeImage L cam now id s =
        match s1.heap[id]? with
        | none => s1
        | some d =>
          let d1 : ImageData α :=
            if !d.isEnlarged then
              { d with
                originalWorldPosition := L.getWorldPosition (ringYaw s1 d.group) d.group.position
                originalWorldQuaternion :=
                  some (L.getWorldQuaternion (ringYaw s1 d.group) d.group.rotation)
                originalScale := d.group.scale
                originalLocalPosition := some d.group.position
                originalLocalRotation := some d.group.rotation }
            else d
          let d2 : ImageData α :=
            { d1 with group := { d1.group with
                parent := Parent.add Parent.scene
                  (Parent.remove (Parent.ring s1.imageRing) d1.group.parent) } }
          match d2.originalWorldQuaternion with
          | none => s1.setData id d2
          | some q =>
            (Animation.enlarge id d2.group.scale.x d2.originalWorldPosition
              (L.setFromQuaternion q)
              ⟨cam.position.x + cam.direction.x * 8, cam.position.y + cam.direction.y * 8,
               cam.position.z + cam.direction.z * 8⟩
              ⟨0, L.atan2 cam.direction.x cam.direction.z + L.PI, 0⟩ now).call now
              (s1.setData id d2) := by
  refine ⟨restorePrevious now id s, ?_, ?_, ?_, ?_, ?_, rfl⟩
  all_goals unfold restorePrevious
  all_goals cases he : s.enlargedImage with
    | none => simp
    | some other =>
      by_cases ho : other = id
      · simp [ho]
      · have := restoreImage_snap_other now other id s ho
        first
          | (simp [ho, this]; done)
          | exact Or.inr ⟨other, ho, rfl, by simp [ho]⟩

/-- `enlargeImage` on a panel that is not flagged enlarged: the transform of
the group is saved, the group moves under the scene, and the new closure makes
its first call. -/
theorem enlargeImage_unflagged (L : Lib α) (cam : Camera α) (now : α) {id : Nat} {s : State α}
    {d : ImageData α} (hd : s.heap[id]? = some d) (he : d.isEnlarged = false) :
    ∃ sp sr : Vec3 α, ∃ st : State α, ∃ d2 : ImageData α,
      enlargeImage L cam now id s =
        (Animation.enlarge id d.group.scale.x sp sr
          ⟨cam.position.x + cam.direction.x * 8, cam.position.y + cam.direction.y * 8,
           cam.position.z + cam.direction.z * 8⟩
          ⟨0, L.atan2 cam.direction.x cam.direction.z + L.PI, 0⟩ now).call now st ∧
      st.heap[id]? = some d2 ∧ st.callbacks = s.callbacks ∧ st.imageRing = s.imageRing ∧
      st.imageMeshes = s.imageMeshes ∧
      d2.saved d.group.position d.group.rotation d.group.scale ∧ d2.isEnlarged = false ∧
      d2.group.parent = Parent.scene := by
  obtain ⟨s1, h1, h2, h3, h4, _, heq⟩ := enlargeImage_eq L cam now id s
  rw [← h1] at hd
  refine ⟨L.getWorldPosition (ringYaw s1 d.group) d.group.position,
    L.setFromQuaternion (L.getWorldQuaternion (ringYaw s1 d.group) d.group.rotation),
    s1.setData id
        { d with
          originalWorldPosition := L.getWorldPosition (ringYaw s1 d.group) d.group.position
          originalWorldQuaternion :=
            some (L.getWorldQuaternion (ringYaw s1 d.group) d.group.rotation)
          originalScale := d.group.scale
          originalLocalPosition := some d.group.position
          originalLocalRotation := some d.group.rotation
          group := { d.group with
            parent := Parent.add Parent.scene
              (Parent.remove (Parent.ring s1.imageRing) d.group.parent) } },
    _, ?_, setData_get_same _ hd, h2, h3, h4, ⟨rfl, rfl, rfl⟩, he, rfl⟩
  rw [heq]
  simp only [hd, he, Bool.not_false, if_true]

theorem enlargeImage_resting (L : Lib α) (cam : Camera α) (now : α) {id : Nat} {s : State α}
    {d : ImageData α} (hd : s.heap[id]? = some d) (he : d.isEnlarged = false)
    (hq : s.quiet id) :
    (enlargeImage L cam now id s).enlargingTo id
      ⟨cam.position.x + cam.direction.x * 8, cam.position.y + cam.direction.y * 8,
       cam.position.z + cam.direction.z * 8⟩
      ⟨0, L.atan2 cam.direction.x cam.direction.z + L.PI, 0⟩ now ∧
    (∃ d1, (enlargeImage L cam now id s).heap[id]? = some d1 ∧
      d1.saved d.group.position d.group.rotation d.group.scale ∧ d1.isEnlarged = false ∧
      d1.group.parent = Parent.scene) ∧
    (enlargeImage L cam now id s).imageRing = s.imageRing ∧
    (enlargeImage L cam now id s).imageMeshes = s.imageMeshes ∧
    (∃ sc : α, ∃ sp sr ep fr : Vec3 α, (enlargeImage L cam now id s).callbacks =
      s.callbacks ++ [Animation.enlarge id sc sp sr ep fr now]) := by
  obtain ⟨sp, sr, st, d2, heq, hd2, hcb, hring, hmesh, hsaved, he2, hpar⟩ :=
    enlargeImage_unflagged L cam now hd he
  have ht : now - now < (600 : α) := by simp
  obtain ⟨⟨g, hg, hh⟩, hcb', _⟩ := call_enlarge_running d.group.scale.x sp sr
    ⟨cam.position.x + cam.direction.x * 8, cam.position.y + cam.direction.y * 8,
       cam.position.z + cam.direction.z * 8⟩
    ⟨0, L.atan2 cam.direction.x cam.direction.z + L.PI, 0⟩ hd2 ht
  obtain ⟨k1, k2, _, _⟩ := call_static (Animation.enlarge id d.group.scale.x sp sr
    ⟨cam.position.x + cam.direction.x * 8, cam.position.y + cam.direction.y * 8,
       cam.position.z + cam.direction.z * 8⟩
    ⟨0, L.atan2 cam.direction.x cam.direction.z + L.PI, 0⟩ now) now st
  rw [heq]
  rw [hcb] at hcb'
  refine ⟨⟨s.callbacks, d.group.scale.x, sp, sr, hcb', hq⟩, ⟨_, hh, hsaved, he2, hg.trans hpar⟩,
    k1.trans hring, k2.trans hmesh, ⟨_, _, _, _, _, hcb'⟩⟩

theorem enlargeImage_heap_other (L : Lib α) (cam : Camera α) (now : α) {id j : Nat}
    (s : State α) (h : id ≠ j) :
    (enlargeImage L cam now id s).heap[j]? = (restorePrevious now id s).heap[j]? := by
  unfold enlargeImage
  simp only []
  split
  · rfl
  · split
    · exact setData_get_other _ _ h
    · rw [call_heap_other _ _ _ _ (by simpa [Animation.imageData] using h)]
      exact setData_get_other _ _ h

theorem restoreImage_snap (now : α) {id : Nat} {s : State α} {d : ImageData α} {p r : Vec3 α}
    (hd : s.heap[id]? = some d) (hp : d.originalLocalPosition = some p)
    (hr : d.originalLocalRotation = some r) :
    (restoreImage now id false s).heap[id]? =
      some { d with
        group := { parent := Parent.ring s.imageRing, position := p, rotation := r,
                   scale := d.originalScale }
        isEnlarged := false } := by
  simp only [restoreImage, hd, hp, hr, Bool.not_false, if_true]
  rw [setData_get_same _ hd]
  by_cases h1 : d.group.parent = Parent.scene
  · simp [h1, Parent.remove, Parent.add]
  · by_cases h2 : d.group.parent = Parent.ring s.imageRing
    · simp [h1, h2]
    · simp [h1, h2, Parent.add]

theorem restoreImage_enlarged (now : α) {id : Nat} {s : State α} {d : ImageData α}
    {p r sc : Vec3 α} (hd : s.heap[id]? = some d) (hs : d.saved p r sc) (hq : s.quiet id) :
    (restoreImage now id true s).restoringSince id now ∧
    (∃ g : Group α, g.parent = d.group.parent ∧
      (restoreImage now id true s).heap[id]? = some { d with group := g }) ∧
    (restoreImage now id true s).imageRing = s.imageRing ∧
    (restoreImage now id true s).imageMeshes = s.imageMeshes := by
  have ht : now - now < (600 : α) := by simp
  obtain ⟨hg, hcb, _⟩ := call_restore_running d.group.scale.x d.group.position d.group.rotation
    hd hs.1 hs.2.1 ht
  obtain ⟨k1, k2, _, _⟩ := call_static (Animation.restore id d.group.scale.x d.group.position
    d.group.rotation now) now s
  have heq : restoreImage now id true s =
      (Animation.restore id d.group.scale.x d.group.position d.group.rotation now).call now s := by
    simp [restoreImage, hd, hs.1, hs.2.1]
  rw [heq]
  exact ⟨⟨s.callbacks, _, _, _, hcb, hq⟩, hg, k1, k2⟩

theorem run_nil (L : Lib α) (s : State α) : run L [] s = s := rfl

theorem run_cons (L : Lib α) (e : Event α) (es : List (Event α)) (s : State α) :
    run L (e :: es) s = run L es (e.apply L s) := rfl

theorem run_append (L : Lib α) (es es' : List (Event α)) (s : State α) :
    run L (es ++ es') s = run L es' (run L es s) := by
  simp [run, List.foldl_append]

theorem run_ticks_cons (L : Lib α) (t : α) (ts : List α) (s : State α) :
    run L (ticks (t :: ts)) s = run L (ticks ts) (frame t s) := rfl

theorem run_ticks_static (L : Lib α) (ts : List α) (s : State α) :
    (run L (ticks ts) s).imageRing = s.imageRing ∧
    (run L (ticks ts) s).imageMeshes = s.imageMeshes := by
  induction ts generalizing s with
  | nil => exact ⟨rfl, rfl⟩
  | cons t ts ih =>
    rw [run_ticks_cons]
    obtain ⟨h1, h2⟩ := ih (frame t s)
    obtain ⟨k1, k2, _⟩ := frame_static t s
    exact ⟨h1.trans k1, h2.trans k2⟩

theorem run_ticks_quiet (L : Lib α) (ts : List α) {s : State α} {id : Nat} (h : s.quiet id) :
    (run L (ticks ts) s).heap[id]? = s.heap[id]? ∧ (run L (ticks ts) s).quiet id := by
  induction ts generalizing s with
  | nil => exact ⟨rfl, h⟩
  | cons t ts ih =>
    rw [run_ticks_cons]
    obtain ⟨k1, k2⟩ := frame_quiet t h
    obtain ⟨h1, h2⟩ := ih k2
    exact ⟨h1.trans k1, h2⟩

theorem frame_phaseEnlarging {s : State α} {id : Nat} {p r sc ep fr : Vec3 α} {t0 t : α}
    (h : s.phaseEnlarging id p r sc ep fr t0) (ht : t - t0 < 600) :
    (frame t s).phaseEnlarging id p r sc ep fr t0 := by
  obtain ⟨he, d, hd, hs, hf, hp⟩ := h
  obtain ⟨k1, g, hg, k2⟩ := frame_enlarging_running he hd ht
  exact ⟨k1, _, k2, hs, hf, hg.trans hp⟩

theorem frame_phaseEnlarged_of_enlarging {s : State α} {id : Nat} {p r sc ep fr : Vec3 α}
    {t0 t : α} (h : s.phaseEnlarging id p r sc ep fr t0) (ht : 600 ≤ t - t0) :
    (frame t s).phaseEnlarged id p r sc ep fr ∧ (frame t s).enlargedImage = some id := by
  obtain ⟨he, d, hd, hs, _, hp⟩ := h
  obtain ⟨k1, k2, k3⟩ := frame_enlarging_done he hd ht
  refine ⟨⟨k1, _, k3, hs, rfl, ?_⟩, k2⟩
  simp [hp]

theorem run_ticks_phaseEnlarged (L : Lib α) (ts : List α) {s : State α} {id : Nat}
    {p r sc ep fr : Vec3 α} (h : s.phaseEnlarged id p r sc ep fr) :
    (run L (ticks ts) s).phaseEnlarged id p r sc ep fr := by
  obtain ⟨hq, d, hd, rest⟩ := h
  obtain ⟨k1, k2⟩ := run_ticks_quiet L ts hq
  exact ⟨k2, d, k1.trans hd, rest⟩

theorem run_ticks_phaseEnlarging (L : Lib α) (ts : List α) {s : State α} {id : Nat}
    {p r sc ep fr : Vec3 α} {t0 : α} (h : s.phaseEnlarging id p r sc ep fr t0)
    (hts : ∀ t ∈ ts, t - t0 < 600) :
    (run L (ticks ts) s).phaseEnlarging id p r sc ep fr t0 := by
  induction ts generalizing s with
  | nil => exact h
  | cons t ts ih =>
    rw [run_ticks_cons]
    exact ih (frame_phaseEnlarging h (hts t (List.mem_cons_self _ _)))
      (fun t' ht' => hts t' (List.mem_cons_of_mem _ ht'))

theorem run_ticks_enlarge_completes (L : Lib α) (ts : List α) {s : State α} {id : Nat}
    {p r sc ep fr : Vec3 α} {t0 : α} (h : s.phaseEnlarging id p r sc ep fr t0)
    (hts : ∃ t ∈ ts, 600 ≤ t - t0) :
    (run L (ticks ts) s).phaseEnlarged id p r sc ep fr := by
  induction ts generalizing s with
  | nil => obtain ⟨t, ht, _⟩ := hts; exact absurd ht (List.not_mem_nil _)
  | cons t ts ih =>
    rw [run_ticks_cons]
    by_cases hlt : t - t0 < 600
    · apply ih (frame_phaseEnlarging h hlt)
      obtain ⟨t', ht', hge⟩ := hts
      rcases List.mem_cons.1 ht' with e | e
      · subst e; exact absurd hlt (not_lt.2 hge)
      · exact ⟨t', e, hge⟩
    · exact run_ticks_phaseEnlarged L ts (frame_phaseEnlarged_of_enlarging h (not_lt.1 hlt)).1

theorem frame_phaseRestoring {s : State α} {id : Nat} {p r sc : Vec3 α} {t1 t : α}
    (h : s.phaseRestoring id p r sc t1) (ht : t - t1 < 600) :
    (frame t s).phaseRestoring id p r sc t1 := by
  obtain ⟨he, d, hd, hs⟩ := h
  obtain ⟨k1, g, _, k2⟩ := frame_restoring_running he hd hs ht
  exact ⟨k1, _, k2, hs⟩

theorem frame_phaseRestored_of_restoring {s : State α} {id : Nat} {p r sc : Vec3 α} {t1 t : α}
    (h : s.phaseRestoring id p r sc t1) (ht : 600 ≤ t - t1) :
    (frame t s).phaseRestored id p r sc := by
  obtain ⟨he, d, hd, hs⟩ := h
  obtain ⟨k1, k2⟩ := frame_restoring_done he hd hs ht
  refine ⟨k1, _, k2, hs, rfl, ?_⟩
  rw [(frame_static t s).1]

theorem run_ticks_phaseRestored (L : Lib α) (ts : List α) {s : State α} {id : Nat}
    {p r sc : Vec3 α} (h : s.phaseRestored id p r sc) :
    (run L (ticks ts) s).phaseRestored id p r sc := by
  obtain ⟨hq, d, hd, h1, h2, h3⟩ := h
  obtain ⟨k1, k2⟩ := run_ticks_quiet L ts hq
  refine ⟨k2, d, k1.trans hd, h1, h2, ?_⟩
  rw [(run_ticks_static L ts s).1]; exact h3

theorem run_ticks_restore_completes (L : Lib α) (ts : List α) {s : State α} {id : Nat}
    {p r sc : Vec3 α} {t1 : α} (h : s.phaseRestoring id p r sc t1)
    (hts : ∃ t ∈ ts, 600 ≤ t - t1) :
    (run L (ticks ts) s).phaseRestored id p r sc := by
  induction ts generalizing s with
  | nil => obtain ⟨t, ht, _⟩ := hts; exact absurd ht (List.not_mem_nil _)
  | cons t ts ih =>
    rw [run_ticks_cons]
    by_cases hlt : t - t1 < 600
    · apply ih (frame_phaseRestoring h hlt)
      obtain ⟨t', ht', hge⟩ := hts
      rcases List.mem_cons.1 ht' with e | e
      · subst e; exact absurd hlt (not_lt.2 hge)
      · exact ⟨t', e, hge⟩
    · exact run_ticks_phaseRestored L ts (frame_phaseRestored_of_restoring h (not_lt.1 hlt))

/-! ## Clicks on a resting and on an enlarged panel -/

theorem click_resting (L : Lib α) (cam : Camera α) (t0 : α) {s : State α} {id : Nat}
    {d : ImageData α} (h : s.resting id) (hd : s.heap[id]? = some d) :
    (onImageClick L cam t0 (some id) s).phaseEnlarging id d.group.position d.group.rotation
      d.group.scale
      ⟨cam.position.x + cam.direction.x * 8, cam.position.y + cam.direction.y * 8,
       cam.position.z + cam.direction.z * 8⟩
      ⟨0, L.atan2 cam.direction.x cam.direction.z + L.PI, 0⟩ t0 ∧
    (onImageClick L cam t0 (some id) s).imageRing = s.imageRing ∧
    (onImageClick L cam t0 (some id) s).imageMeshes = s.imageMeshes := by
  obtain ⟨hm, ⟨d', hd', _, he⟩, hq⟩ := h
  rw [hd] at hd'
  cases hd'
  have hne : s.imageMeshes.length ≠ 0 := by
    intro h0
    rw [List.length_eq_zero] at h0
    rw [h0] at hm
    exact absurd hm (List.not_mem_nil _)
  have heq : onImageClick L cam t0 (some id) s = enlargeImage L cam t0 id s := by
    simp [onImageClick, hne, hm, hd, he]
  rw [heq]
  obtain ⟨k1, k2, k3, k4, _⟩ := enlargeImage_resting L cam t0 hd he hq
  exact ⟨⟨k1, k2⟩, k3, k4⟩

theorem click_enlarged (L : Lib α) (cam : Camera α) (t1 : α) {s : State α} {id : Nat}
    {p r sc ep fr : Vec3 α} (h : s.phaseEnlarged id p r sc ep fr) (hm : id ∈ s.imageMeshes) :
    (onImageClick L cam t1 (some id) s).phaseRestoring id p r sc t1 ∧
    (onImageClick L cam t1 (some id) s).imageRing = s.imageRing ∧
    (onImageClick L cam t1 (some id) s).imageMeshes = s.imageMeshes := by
  obtain ⟨hq, d, hd, hs, he, _⟩ := h
  have hne : s.imageMeshes.length ≠ 0 := by
    intro h0
    rw [List.length_eq_zero] at h0
    rw [h0] at hm
    exact absurd hm (List.not_mem_nil _)
  have heq : onImageClick L cam t1 (some id) s = restoreImage t1 id true s := by
    simp [onImageClick, hne, hm, hd, he]
  rw [heq]
  obtain ⟨k1, ⟨g, _, k2⟩, k3, k4⟩ := restoreImage_enlarged t1 hd hs hq
  exact ⟨⟨k1, _, k2, hs⟩, k3, k4⟩

/-! ## Uniform scales in every reachable state -/

theorem uniformScales_setData {s : State α} (h : s.uniformScales) (id : Nat) {d : ImageData α}
    (hd : d.group.scale = uniform d.group.scale.x ∧ d.originalScale = uniform d.originalScale.x) :
    (s.setData id d).uniformScales := by
  intro x hx
  rcases List.mem_or_eq_of_mem_set hx with h' | h'
  · exact h x h'
  · rw [h']; exact hd

theorem uniformScales_callbacks {s : State α} (h : s.uniformScales) (cb : List (Animation α))
    (e : Option Nat) :
    ({ s with callbacks := cb, enlargedImage := e } : State α).uniformScales := h

theorem uniformScales_call {s : State α} (h : s.uniformScales) (a : Animation α) (now : α) :
    (a.call now s).uniformScales := by
  cases a with
  | enlarge id sc sp sr ep fr t0 =>
    simp only [Animation.call]
    split
    · exact h
    · next d hd =>
      have hmem := h d (List.getElem?_mem hd)
      split
      · exact uniformScales_setData h id ⟨rfl, hmem.2⟩
      · exact uniformScales_setData h id ⟨rfl, hmem.2⟩
  | restore id sc sp sr t0 =>
    simp only [Animation.call]
    split
    · exact h
    · next d hd =>
      have hmem := h d (List.getElem?_mem hd)
      split
      · exact uniformScales_setData h id ⟨rfl, hmem.2⟩
      · split
        · exact uniformScales_setData h id ⟨rfl, hmem.2⟩
        · split
          · exact uniformScales_setData h id ⟨rfl, hmem.2⟩
          · exact uniformScales_setData h id ⟨rfl, hmem.2⟩

theorem uniformScales_restoreImage {s : State α} (h : s.uniformScales) (now : α) (id : Nat)
    (animate : Bool) : (restoreImage now id animate s).uniformScales := by
  unfold restoreImage
  split
  · exact h
  · next d hd =>
    have hmem := h d (List.getElem?_mem hd)
    split
    · split
      · exact uniformScales_setData h id ⟨hmem.2, hmem.2⟩
      · exact uniformScales_call h _ now
    · exact h

theorem uniformScales_enlargeImage (L : Lib α) (cam : Camera α) {s : State α}
    (h : s.uniformScales) (now : α) (id : Nat) : (enlargeImage L cam now id s).uniformScales := by
  obtain ⟨s1, _, _, _, _, hs1, heq⟩ := enlargeImage_eq L cam now id s
  have h1 : s1.uniformScales := by
    rcases hs1 with e | ⟨other, _, _, e⟩
    · rw [e]; exact h
    · rw [e]; exact uniformScales_restoreImage h now other false
  rw [heq]
  split
  · exact h1
  · next d hd =>
    have hmem := h1 d (List.getElem?_mem hd)
    have hd2 : ∀ d1 : ImageData α,
        (d1.group.scale = uniform d1.group.scale.x ∧ d1.originalScale = uniform d1.originalScale.x) →
        ((s1.setData id { d1 with group := { d1.group with
            parent := Parent.add Parent.scene
              (Parent.remove (Parent.ring s1.imageRing) d1.group.parent) } }).uniformScales) :=
      fun d1 hd1 => uniformScales_setData h1 id hd1
    have hd1 : ∀ d1 : ImageData α, d1 = (if !d.isEnlarged then
              { d with
                originalWorldPosition := L.getWorldPosition (ringYaw s1 d.group) d.group.position
                originalWorldQuaternion :=
                  some (L.getWorldQuaternion (ringYaw s1 d.group) d.group.rotation)
                originalScale := d.group.scale
                originalLocalPosition := some d.group.position
                originalLocalRotation := some d.group.rotation }
            else d) →
        (d1.group.scale = uniform d1.group.scale.x ∧ d1.originalScale = uniform d1.originalScale.x) := by
      intro d1 e
      rw [e]
      split
      · exact ⟨hmem.1, hmem.1⟩
      · exact hmem
    simp only []
    split
    · exact hd2 _ (hd1 _ rfl)
    · exact uniformScales_call (hd2 _ (hd1 _ rfl)) _ now

theorem uniformScales_frame {s : State α} (h : s.uniformScales) (now : α) :
    (frame now s).uniformScales := by
  have key : ∀ (cs : List (Animation α)) (st : State α), st.uniformScales →
      (cs.foldl (fun st a => a.call now st) st).uniformScales := by
    intro cs
    induction cs with
    | nil => intro st hst; exact hst
    | cons a cs ih => intro st hst; exact ih _ (uniformScales_call hst a now)
  exact key _ _ h

theorem uniformScales_apply (L : Lib α) {s : State α} (h : s.uniformScales) (e : Event α) :
    (e.apply L s).uniformScales := by
  cases e with
  | click now cam hit =>
    simp only [Event.apply, onImageClick]
    split
    · exact h
    · split
      · exact h
      · split
        · split
          · exact h
          · split
            · exact uniformScales_restoreImage h _ _ _
            · exact uniformScales_enlargeImage L cam h _ _
        · exact h
  | tick now => exact uniformScales_frame h now

theorem uniformScales_run (L : Lib α) (es : List (Event α)) {s : State α} (h : s.uniformScales) :
    (run L es s).uniformScales := by
  induction es generalizing s with
  | nil => exact h
  | cons e es ih => exact ih (uniformScales_apply L h e)

theorem uniformScales_initState (L : Lib α) (P : Params α) (files : List String) :
    (initState L P files).uniformScales := by
  intro d hd
  rw [initState_heap] at hd
  obtain ⟨i, _, rfl⟩ := List.mem_map.1 hd
  exact ⟨rfl, rfl⟩

theorem Reachable.uniformScales {L : Lib α} {P : Params α} {files : List String} {s : State α}
    (h : Reachable L P files s) : s.uniformScales := by
  obtain ⟨es, rfl⟩ := h
  exact uniformScales_run L es (uniformScales_initState L P files)

theorem enlarging_of_enlargingTo {s : State α} {id : Nat} {ep fr : Vec3 α} {t0 : α}
    (h : s.enlargingTo id ep fr t0) : s.enlarging id = true := by
  obtain ⟨cs, sc, sp, sr, hcs, _⟩ := h
  simp [State.enlarging, hcs, Animation.isEnlarge, Animation.imageData]

theorem not_enlarging_of_quiet {s : State α} {id : Nat} (h : s.quiet id) :
    s.enlarging id = false := by
  simp only [State.enlarging, List.any_eq_false, Bool.and_eq_true, beq_iff_eq, not_and]
  intro c hc _
  exact h c hc

theorem enlarged_of_heap {s : State α} {id : Nat} {d : ImageData α} (h : s.heap[id]? = some d) :
    s.enlarged id = d.isEnlarged := by
  simp [State.enlarged, h]

/-- C5: after a click at `t0` on a panel resting in the ring and frames that all
come before `t0 + 600`, the panel is ENLARGING and not flagged enlarged; a
further frame at `t` keeps that and queues the closure again when
`t - t0 < 600`, and when `t - t0 ≥ 600` it sets `isEnlarged`, makes the panel
`enlargedImage` and leaves no closure for the panel in the queue. -/
theorem enlarge_completes_at_duration (L : Lib α) (cam : Camera α) (t0 : α) (s : State α)
    (id : Nat) (hrest : s.resting id) (ts : List α) (hts : ∀ t' ∈ ts, t' - t0 < 600) (t : α) :
    ((run L (Event.click t0 cam (some id) :: ticks ts) s).enlarged id = false ∧
      (run L (Event.click t0 cam (some id) :: ticks ts) s).enlarging id = true) ∧
    (t - t0 < 600 →
      (frame t (run L (Event.click t0 cam (some id) :: ticks ts) s)).enlarged id = false ∧
      (frame t (run L (Event.click t0 cam (some id) :: ticks ts) s)).enlarging id = true) ∧
    (600 ≤ t - t0 →
      (frame t (run L (Event.click t0 cam (some id) :: ticks ts) s)).enlarged id = true ∧
      (frame t (run L (Event.click t0 cam (some id) :: ticks ts) s)).enlargedImage = some id ∧
      (frame t (run L (Event.click t0 cam (some id) :: ticks ts) s)).enlarging id = false ∧
      ∀ c ∈ (frame t (run L (Event.click t0 cam (some id) :: ticks ts) s)).callbacks,
        c.imageData ≠ id) := by
  obtain ⟨d, hd, _⟩ := hrest.2.1
  have h1 := (click_resting L cam t0 hrest hd).1
  have h2 := run_ticks_phaseEnlarging L ts h1 hts
  rw [run_cons]
  refine ⟨?_, ?_, ?_⟩
  · obtain ⟨he, d', hd', _, hf, _⟩ := h2
    exact ⟨(enlarged_of_heap hd').trans hf, enlarging_of_enlargingTo he⟩
  · intro ht
    obtain ⟨he, d', hd', _, hf, _⟩ := frame_phaseEnlarging h2 ht
    exact ⟨(enlarged_of_heap hd').trans hf, enlarging_of_enlargingTo he⟩
  · intro ht
    obtain ⟨⟨hq, d', hd', _, hf, _⟩, hei⟩ := frame_phaseEnlarged_of_enlarging h2 ht
    exact ⟨(enlarged_of_heap hd').trans hf, hei, not_enlarging_of_quiet hq, hq⟩

/-- C6: for every camera position `c` and direction `d` sampled by the click,
once a frame at or after `t0 + 600` has run the panel sits at `c + 8 d`, with
rotation `(0, atan2(d.x, d.z) + π, 0)` and scale 4 on every axis, whatever
its transform in the ring was. -/
theorem enlarge_final_pose (L : Lib α) (cam : Camera α) (t0 : α) (s : State α) (id : Nat)
    (hrest : s.resting id) (ts : List α) (hts : ∃ t ∈ ts, 600 ≤ t - t0) :
    ∃ d, (run L (Event.click t0 cam (some id) :: ticks ts) s).heap[id]? = some d ∧
      d.isEnlarged = true ∧
      d.group.position =
        ⟨cam.position.x + cam.direction.x * 8, cam.position.y + cam.direction.y * 8,
         cam.position.z + cam.direction.z * 8⟩ ∧
      d.group.rotation = ⟨0, L.atan2 cam.direction.x cam.direction.z + L.PI, 0⟩ ∧
      d.group.scale = ⟨4, 4, 4⟩ := by
  obtain ⟨d0, hd0, _⟩ := hrest.2.1
  have h1 := (click_resting L cam t0 hrest hd0).1
  obtain ⟨_, d, hd, _, he, hg⟩ := run_ticks_enlarge_completes L ts h1 hts
  rw [run_cons]
  exact ⟨d, hd, he, by rw [hg], by rw [hg], by rw [hg]⟩

/-- C2: in a reachable state, a panel resting in the ring that is clicked,
enlarged to completion, clicked again and restored to completion, with only
frames in between, is again a child of the ring with the local position,
rotation and scale it had before the first click. -/
theorem restore_reproduces_transform (L : Lib α) (P : Params α) (files : List String)
    (s : State α) (hreach : Reachable L P files s) (id : Nat) (hrest : s.resting id)
    (d0 : ImageData α) (hd0 : s.heap[id]? = some d0)
    (cam cam' : Camera α) (t0 t1 : α) (ts ts' : List α)
    (hts : ∃ t ∈ ts, 600 ≤ t - t0) (hts' : ∃ t ∈ ts', 600 ≤ t - t1) :
    ∃ d, (run L (Event.click t0 cam (some id) :: ticks ts ++
            Event.click t1 cam' (some id) :: ticks ts') s).heap[id]? = some d ∧
      d.group.parent = Parent.ring s.imageRing ∧
      d.group.position = d0.group.position ∧
      d.group.rotation = d0.group.rotation ∧
      d.group.scale = d0.group.scale ∧
      d.isEnlarged = false := by
  have hu := (hreach.uniformScales d0 (List.getElem?_mem hd0)).1
  obtain ⟨h1, r1, m1⟩ := click_resting L cam t0 hrest hd0
  have h2 := run_ticks_enlarge_completes L ts h1 hts
  obtain ⟨r2, m2⟩ := run_ticks_static L ts (onImageClick L cam t0 (some id) s)
  have hm : id ∈ (run L (ticks ts) (onImageClick L cam t0 (some id) s)).imageMeshes := by
    rw [m2, m1]; exact hrest.1
  obtain ⟨h3, r3, _⟩ := click_enlarged L cam' t1 h2 hm
  obtain ⟨_, d, hd, _, he, hg⟩ := run_ticks_restore_completes L ts' h3 hts'
  obtain ⟨r4, _⟩ := run_ticks_static L ts'
    (onImageClick L cam' t1 (some id) (run L (ticks ts) (onImageClick L cam t0 (some id) s)))
  have hrun : run L (Event.click t0 cam (some id) :: ticks ts ++
      Event.click t1 cam' (some id) :: ticks ts') s =
      run L (ticks ts') (onImageClick L cam' t1 (some id)
        (run L (ticks ts) (onImageClick L cam t0 (some id) s))) := by
    rw [List.cons_append, run_cons, run_append, run_cons]
    rfl
  rw [hrun]
  refine ⟨d, hd, ?_, by rw [hg], by rw [hg], ?_, he⟩
  · rw [hg]; simp only; rw [r4, r3, r2, r1]
  · rw [hg]; exact hu.symm

theorem enlarged_congr {s s' : State α} {j : Nat} (h : s'.heap[j]? = s.heap[j]?) :
    s'.enlarged j = s.enlarged j := by
  simp [State.enlarged, h]

theorem call_enlarged_false (c : Animation α) (now : α) (st : State α) (j : Nat)
    (hc : c.imageData = j → c.isEnlarge = false) (h : st.enlarged j = false) :
    (c.call now st).enlarged j = false := by
  by_cases hj : c.imageData = j
  · have hre := hc hj
    cases c with
    | enlarge id sc sp sr ep fr t0 => simp [Animation.isEnlarge] at hre
    | restore id sc sp sr t0 =>
      simp only [Animation.imageData] at hj
      subst hj
      simp only [Animation.call]
      split
      · exact h
      · next d hd =>
        have hd' : d.isEnlarged = false := by rw [← enlarged_of_heap hd]; exact h
        have hlt := heap_lt hd
        split
        · simp [State.enlarged, State.setData, List.getElem?_set, hlt, hd']
        · split
          · simp [State.enlarged, State.setData, List.getElem?_set, hlt, hd']
          · split
            · simp [State.enlarged, State.setData, List.getElem?_set, hlt, hd']
            · simp [State.enlarged, State.setData, List.getElem?_set, hlt]
  · rw [enlarged_congr (call_heap_other c now st j hj)]; exact h

theorem call_keep_enlargedImage (c : Animation α) (now : α) (st : State α) (A : Nat)
    (hc : c.isEnlarge = false) (hA : c.imageData ≠ A) (h : st.enlargedImage = some A) :
    (c.call now st).enlargedImage = some A := by
  cases c with
  | enlarge id sc sp sr ep fr t0 => simp [Animation.isEnlarge] at hc
  | restore id sc sp sr t0 =>
    simp only [Animation.imageData] at hA
    simp only [Animation.call]
    split
    · exact h
    · split
      · exact h
      · split
        · exact h
        · split
          · exact h
          · have : ¬ (A = id) := fun e => hA e.symm
            simp [State.setData, h, this]

theorem foldl_call_enlarged_false (now : α) (j : Nat) (cs : List (Animation α)) (st : State α)
    (hc : ∀ c ∈ cs, c.imageData = j → c.isEnlarge = false) (h : st.enlarged j = false) :
    (cs.foldl (fun st a => a.call now st) st).enlarged j = false := by
  induction cs generalizing st with
  | nil => exact h
  | cons a cs ih =>
    simp only [List.foldl_cons]
    exact ih _ (fun c hm => hc c (List.mem_cons_of_mem _ hm))
      (call_enlarged_false a now st j (hc a (List.mem_cons_self _ _)) h)

theorem foldl_call_keep_enlargedImage (now : α) (A : Nat) (cs : List (Animation α))
    (st : State α) (hc : ∀ c ∈ cs, c.isEnlarge = false ∧ c.imageData ≠ A)
    (h : st.enlargedImage = some A) :
    (cs.foldl (fun st a => a.call now st) st).enlargedImage = some A := by
  induction cs generalizing st with
  | nil => exact h
  | cons a cs ih =>
    simp only [List.foldl_cons]
    exact ih _ (fun c hm => hc c (List.mem_cons_of_mem _ hm))
      (call_keep_enlargedImage a now st A (hc a (List.mem_cons_self _ _)).1
        (hc a (List.mem_cons_self _ _)).2 h)

theorem frame_enlarged_false {now : α} {s : State α} {j : Nat}
    (hc : ∀ c ∈ s.callbacks, c.imageData = j → c.isEnlarge = false)
    (h : s.enlarged j = false) : (frame now s).enlarged j = false :=
  foldl_call_enlarged_false now j s.callbacks _ hc h

theorem frame_keep_enlargedImage {now : α} {s : State α} {A : Nat}
    (hc : ∀ c ∈ s.callbacks, c.isEnlarge = false ∧ c.imageData ≠ A)
    (h : s.enlargedImage = some A) : (frame now s).enlargedImage = some A :=
  foldl_call_keep_enlargedImage now A s.callbacks _ hc h

theorem frame_onlyEnlarging (now : α) {s : State α} {A : Nat} (h : s.onlyEnlarging A) :
    (frame now s).onlyEnlarging A := by
  obtain ⟨h1, h2⟩ := h
  refine ⟨fun c hc => h1 c ((frame_static now s).2.2.2 c hc), ?_⟩
  intro j hj
  apply frame_enlarged_false _ (h2 j hj)
  intro c hc hcj
  cases hce : c.isEnlarge with
  | false => rfl
  | true => exact absurd ((h1 c hc hce).symm.trans hcj) (Ne.symm hj)

theorem frame_onlyEnlarged {now : α} {s : State α} {A : Nat} (h : s.onlyEnlarged A)
    (hq : s.quiet A) : (frame now s).onlyEnlarged A := by
  obtain ⟨h1, h2, h3⟩ := h
  refine ⟨frame_keep_enlargedImage (fun c hc => ⟨h2 c hc, hq c hc⟩) h1,
    fun c hc => h2 c ((frame_static now s).2.2.2 c hc), ?_⟩
  intro j hj
  exact frame_enlarged_false (fun c hc _ => h2 c hc) (h3 j hj)

theorem run_ticks_onlyEnlarged (L : Lib α) (ts : List α) {s : State α} {A : Nat}
    (h : s.onlyEnlarged A) (hq : s.quiet A) : (run L (ticks ts) s).onlyEnlarged A := by
  induction ts generalizing s with
  | nil => exact h
  | cons t ts ih =>
    rw [run_ticks_cons]
    exact ih (frame_onlyEnlarged h hq) (frame_quiet t hq).2

theorem run_ticks_enlarge_only (L : Lib α) (ts : List α) {s : State α} {A : Nat}
    {p r sc ep fr : Vec3 α} {t0 : α} (h : s.phaseEnlarging A p r sc ep fr t0)
    (ho : s.onlyEnlarging A) (hts : ∃ t ∈ ts, 600 ≤ t - t0) :
    (run L (ticks ts) s).onlyEnlarged A := by
  induction ts generalizing s with
  | nil => obtain ⟨t, ht, _⟩ := hts; exact absurd ht (List.not_mem_nil _)
  | cons t ts ih =>
    rw [run_ticks_cons]
    by_cases hlt : t - t0 < 600
    · apply ih (frame_phaseEnlarging h hlt) (frame_onlyEnlarging t ho)
      obtain ⟨t', ht', hge⟩ := hts
      rcases List.mem_cons.1 ht' with e | e
      · subst e; exact absurd hlt (not_lt.2 hge)
      · exact ⟨t', e, hge⟩
    · obtain ⟨⟨hq, _⟩, hei⟩ := frame_phaseEnlarged_of_enlarging h (not_lt.1 hlt)
      obtain ⟨k1, k2⟩ := frame_onlyEnlarging t ho
      apply run_ticks_onlyEnlarged L ts _ hq
      refine ⟨hei, ?_, k2⟩
      intro c hc
      cases hce : c.isEnlarge with
      | false => rfl
      | true => exact absurd (k1 c hc hce) (hq c hc)

theorem onImageClick_resting_eq (L : Lib α) (cam : Camera α) (t0 : α) {s : State α} {id : Nat}
    (h : s.resting id) : onImageClick L cam t0 (some id) s = enlargeImage L cam t0 id s := by
  obtain ⟨hm, ⟨d, hd, _, he⟩, _⟩ := h
  have hne : s.imageMeshes.length ≠ 0 := by
    intro h0
    rw [List.length_eq_zero] at h0
    rw [h0] at hm
    exact absurd hm (List.not_mem_nil _)
  simp [onImageClick, hne, hm, hd, he]

/-- A click while another panel is enlarged, in a state that respects the rule
of one enlarged panel: let `B` be the enlarged panel (`isEnlarged` set,
`enlargedImage = B`), `A` another panel resting in the ring, no other panel
flagged enlarged and no enlarge closure queued.  A click on `A` puts `B` back
at once: child of the ring, saved position, rotation and scale, `isEnlarged`
cleared.  Once a frame at or after `t0 + 600` has run, `A` is flagged enlarged,
`enlargedImage = A` and no other panel is flagged enlarged. -/
theorem click_while_other_enlarged (L : Lib α) (cam : Camera α) (t0 : α) (s : State α)
    (A B : Nat) (hAB : A ≠ B) (hA : s.resting A)
    (dB : ImageData α) (p r : Vec3 α) (hB : s.heap[B]? = some dB)
    (_hBe : dB.isEnlarged = true) (hBi : s.enlargedImage = some B)
    (hBp : dB.originalLocalPosition = some p) (hBr : dB.originalLocalRotation = some r)
    (hothers : ∀ j, j ≠ B → s.enlarged j = false)
    (hno : ∀ c ∈ s.callbacks, c.isEnlarge = false)
    (ts : List α) (hts : ∃ t ∈ ts, 600 ≤ t - t0) :
    (∃ d, (onImageClick L cam t0 (some A) s).heap[B]? = some d ∧
      d.group.parent = Parent.ring s.imageRing ∧ d.group.position = p ∧
      d.group.rotation = r ∧ d.group.scale = dB.originalScale ∧ d.isEnlarged = false) ∧
    (run L (Event.click t0 cam (some A) :: ticks ts) s).enlarged A = true ∧
    (run L (Event.click t0 cam (some A) :: ticks ts) s).enlargedImage = some A ∧
    ∀ j, j ≠ A → (run L (Event.click t0 cam (some A) :: ticks ts) s).enlarged j = false := by
  obtain ⟨dA, hdA, _, hAe⟩ := hA.2.1
  have hprev : restorePrevious t0 A s = restoreImage t0 B false s := by
    simp [restorePrevious, hBi, Ne.symm hAB]
  have hclick := onImageClick_resting_eq L cam t0 hA
  have hsnap := restoreImage_snap t0 hB hBp hBr
  have hBheap : (onImageClick L cam t0 (some A) s).heap[B]? =
      (restoreImage t0 B false s).heap[B]? := by
    rw [hclick, enlargeImage_heap_other L cam t0 s hAB, hprev]
  rw [hsnap] at hBheap
  have hphase := (click_resting L cam t0 hA hdA).1
  have honly : (onImageClick L cam t0 (some A) s).onlyEnlarging A := by
    constructor
    · intro c hc hce
      obtain ⟨sc, sp, sr, ep, fr, hcb⟩ :=
        (enlargeImage_resting L cam t0 hdA hAe hA.2.2).2.2.2.2
      rw [hclick, hcb] at hc
      rcases List.mem_append.1 hc with h' | h'
      · rw [hno c h'] at hce; exact absurd hce (by simp)
      · simp at h'; rw [h']; rfl
    · intro j hj
      by_cases hjB : j = B
      · subst hjB
        rw [enlarged_of_heap hBheap]
      · rw [hclick, enlarged_congr (enlargeImage_heap_other L cam t0 s (Ne.symm hj)), hprev,
          enlarged_congr (restoreImage_snap_other t0 B j s (Ne.symm hjB)).1]
        exact hothers j hjB
  refine ⟨⟨_, hBheap, rfl, rfl, rfl, rfl, rfl⟩, ?_⟩
  rw [run_cons]
  obtain ⟨_, d, hd, _, he, _⟩ := run_ticks_enlarge_completes L ts hphase hts
  obtain ⟨k1, _, k3⟩ := run_ticks_enlarge_only L ts hphase honly hts
  exact ⟨(enlarged_of_heap hd).trans he, k1, k3⟩

theorem heap_some_of_length {s s' : State α} {id : Nat} {d : ImageData α}
    (h : s'.heap.length = s.heap.length) (hd : s.heap[id]? = some d) :
    ∃ d', s'.heap[id]? = some d' := by
  have hlt : id < s'.heap.length := by rw [h]; exact heap_lt hd
  exact ⟨s'.heap[id], List.getElem?_eq_getElem hlt⟩

theorem call_enlarged_true (c : Animation α) (now : α) (st : State α) (j : Nat)
    (hc : c.imageData = j → c.isEnlarge = true) (h : st.enlarged j = true) :
    (c.call now st).enlarged j = true := by
  by_cases hj : c.imageData = j
  · have hre := hc hj
    cases c with
    | restore id sc sp sr t0 => simp [Animation.isEnlarge] at hre
    | enlarge id sc sp sr ep fr t0 =>
      simp only [Animation.imageData] at hj
      subst hj
      simp only [Animation.call]
      split
      · exact h
      · next d hd =>
        have hd' : d.isEnlarged = true := by rw [← enlarged_of_heap hd]; exact h
        have hlt := heap_lt hd
        split
        · simp [State.enlarged, State.setData, List.getElem?_set, hlt, hd']
        · simp [State.enlarged, State.setData, List.getElem?_set, hlt]
  · rw [enlarged_congr (call_heap_other c now st j hj)]; exact h

theorem foldl_call_enlarged_true (now : α) (j : Nat) (cs : List (Animation α)) (st : State α)
    (hc : ∀ c ∈ cs, c.imageData = j → c.isEnlarge = true) (h : st.enlarged j = true) :
    (cs.foldl (fun st a => a.call now st) st).enlarged j = true := by
  induction cs generalizing st with
  | nil => exact h
  | cons a cs ih =>
    simp only [List.foldl_cons]
    exact ih _ (fun c hm => hc c (List.mem_cons_of_mem _ hm))
      (call_enlarged_true a now st j (hc a (List.mem_cons_self _ _)) h)

theorem frame_enlarged_true {now : α} {s : State α} {j : Nat}
    (hc : ∀ c ∈ s.callbacks, c.imageData = j → c.isEnlarge = true)
    (h : s.enlarged j = true) : (frame now s).enlarged j = true :=
  foldl_call_enlarged_true now j s.callbacks _ hc h

/-- An enlarge closure that is queued for a panel on which no restore closure is
queued flags the panel enlarged in the first frame at or after its duration,
wherever it stands in the queue. -/
theorem frame_enlarge_member (now t0 sc : α) (sp sr ep fr : Vec3 α) {s : State α} {id : Nat}
    {d : ImageData α} (hmem : Animation.enlarge id sc sp sr ep fr t0 ∈ s.callbacks)
    (hc : ∀ c ∈ s.callbacks, c.imageData = id → c.isEnlarge = true)
    (hd : s.heap[id]? = some d) (ht : 600 ≤ now - t0) :
    (frame now s).enlarged id = true := by
  obtain ⟨l1, l2, hl⟩ := List.append_of_mem hmem
  unfold frame
  rw [hl, List.foldl_append, List.foldl_cons]
  apply foldl_call_enlarged_true
  · intro c hcm
    exact hc c (by rw [hl]; exact List.mem_append_right _ (List.mem_cons_of_mem _ hcm))
  · have hlen := (foldl_call_static now l1
      { s with ringRotationY := s.ringRotationY + 0.001, callbacks := [] }).2.2.1
    obtain ⟨d', hd'⟩ := heap_some_of_length (s := s) hlen hd
    rw [enlarged_of_heap (call_enlarge_done sc sp sr ep fr hd' ht).1]

theorem restoreImage_length (now : α) (id : Nat) (animate : Bool) (s : State α) :
    (restoreImage now id animate s).heap.length = s.heap.length := by
  unfold restoreImage
  split
  · rfl
  · split
    · split
      · simp [State.setData]
      · exact (call_static _ now s).2.2.2
    · rfl

theorem enlargeImage_length (L : Lib α) (cam : Camera α) (now : α) (id : Nat) (s : State α) :
    (enlargeImage L cam now id s).heap.length = s.heap.length := by
  obtain ⟨s1, _, _, _, _, hs1, heq⟩ := enlargeImage_eq L cam now id s
  have h1 : s1.heap.length = s.heap.length := by
    rcases hs1 with e | ⟨other, _, _, e⟩
    · rw [e]
    · rw [e]; exact restoreImage_length now other false s
  rw [heq]
  split
  · exact h1
  · simp only []
    split
    · simp [State.setData, h1]
    · rw [(call_static _ now _).2.2.2]; simp [State.setData, h1]

theorem onImageClick_unflagged_eq (L : Lib α) (cam : Camera α) (t0 : α) {s : State α} {id : Nat}
    {d : ImageData α} (hm : id ∈ s.imageMeshes) (hd : s.heap[id]? = some d)
    (he : d.isEnlarged = false) :
    onImageClick L cam t0 (some id) s = enlargeImage L cam t0 id s := by
  have hne : s.imageMeshes.length ≠ 0 := by
    intro h0
    rw [List.length_eq_zero] at h0
    rw [h0] at hm
    exact absurd hm (List.not_mem_nil _)
  simp [onImageClick, hne, hm, hd, he]

theorem initState_resting (L : Lib α) (P : Params α) (files : List String) (i : Nat)
    (hi : i < min files.length 20) : (initState L P files).resting i := by
  refine ⟨?_, ⟨_, initState_getElem? L P files i hi, ?_, rfl⟩, ?_⟩
  · rw [initState_imageMeshes]; exact List.mem_range.2 hi
  · simp [createImageData, initState, createImageRing]
  · intro c hc
    simp [initState, createImageRing] at hc

theorem call_enlarge_running_scale {s : State α} {id : Nat} {d : ImageData α}
    (sc : α) (sp sr ep fr : Vec3 α) {t0 now : α}
    (h : s.heap[id]? = some d) (ht : now - t0 < 600) :
    ∃ d', ((Animation.enlarge id sc sp sr ep fr t0).call now s).heap[id]? = some d' ∧
      d'.group.scale = uniform (sc + (4 - sc) * easeOutCubic (progress (now - t0))) ∧
      d'.originalScale = d.originalScale ∧ d'.isEnlarged = d.isEnlarged := by
  have hp : progress (now - t0) < 1 := (progress_lt_one_iff _).2 ht
  simp only [Animation.call, h, hp, if_true]
  exact ⟨_, setData_get_same _ h, rfl, rfl, rfl⟩

theorem initState_enlarged (L : Lib α) (P : Params α) (files : List String) (j : Nat) :
    (initState L P files).enlarged j = false := by
  simp only [State.enlarged, initState_heap, List.getElem?_map]
  cases (List.range (min files.length 20))[j]? <;> rfl

/-- A click on a resting panel when no enlarge closure is queued and no panel
other than the snapped one is flagged enlarged. -/
theorem click_resting_onlyEnlarging (L : Lib α) (cam : Camera α) (t0 : α) {s : State α}
    {A : Nat} (hA : s.resting A)
    (hothers : ∀ j, j ≠ A → (restorePrevious t0 A s).enlarged j = false)
    (hno : ∀ c ∈ s.callbacks, c.isEnlarge = false) :
    (onImageClick L cam t0 (some A) s).onlyEnlarging A := by
  obtain ⟨dA, hdA, _, hAe⟩ := hA.2.1
  have hclick := onImageClick_resting_eq L cam t0 hA
  constructor
  · intro c hc hce
    obtain ⟨sc, sp, sr, ep, fr, hcb⟩ := (enlargeImage_resting L cam t0 hdA hAe hA.2.2).2.2.2.2
    rw [hclick, hcb] at hc
    rcases List.mem_append.1 hc with h' | h'
    · rw [hno c h'] at hce; exact absurd hce (by simp)
    · simp at h'; rw [h']; rfl
  · intro j hj
    rw [hclick, enlarged_congr (enlargeImage_heap_other L cam t0 s (Ne.symm hj))]
    exact hothers j hj

theorem restorePrevious_none (now : α) (id : Nat) {s : State α} (h : s.enlargedImage = none) :
    restorePrevious now id s = s := by
  simp [restorePrevious, h]

theorem enlargeImage_enlargedImage (L : Lib α) (cam : Camera α) (now : α) {id : Nat}
    {s : State α} {d : ImageData α} (hd : s.heap[id]? = some d) (he : d.isEnlarged = false)
    (hn : s.enlargedImage = none) : (enlargeImage L cam now id s).enlargedImage = none := by
  have hprev := restorePrevious_none now id hn
  unfold enlargeImage
  simp only [hprev, hd, he, Bool.not_false, if_true]
  have hset := setData_get_same (s := s)
    { d with
      originalWorldPosition := L.getWorldPosition (ringYaw s d.group) d.group.position
      originalWorldQuaternion := some (L.getWorldQuaternion (ringYaw s d.group) d.group.rotation)
      originalScale := d.group.scale
      originalLocalPosition := some d.group.position
      originalLocalRotation := some d.group.rotation
      isEnlarged := false
      group := { d.group with
        parent := Parent.add Parent.scene
          (Parent.remove (Parent.ring s.imageRing) d.group.parent) } } hd
  have ht : now - now < (600 : α) := by simp
  obtain ⟨_, _, hei⟩ := call_enlarge_running d.group.scale.x
    (L.getWorldPosition (ringYaw s d.group) d.group.position)
    (L.setFromQuaternion (L.getWorldQuaternion (ringYaw s d.group) d.group.rotation))
    ⟨cam.position.x + cam.direction.x * 8, cam.position.y + cam.direction.y * 8,
       cam.position.z + cam.direction.z * 8⟩
    ⟨0, L.atan2 cam.direction.x cam.direction.z + L.PI, 0⟩ hset ht
  exact hei.trans hn

end StateMachine

/-! ## Runs from the ring of the program -/

theorem imageFiles_length : min imageFiles.length 20 = 20 := by decide

/-- C1, evaluated on the ring of the program: a click on panel 0 at 0 ms
followed by a click on panel 1 at 100 ms leaves both panels ENLARGING, and
after the frames at 600 ms and 700 ms both panels are flagged enlarged. -/
theorem two_panels_enlarged_together (L : Lib ℚ) (cam : Camera ℚ) :
    ((run L [Event.click 0 cam (some 0), Event.click 100 cam (some 1)]
        (initState L defaultParams imageFiles)).enlarging 0 = true ∧
     (run L [Event.click 0 cam (some 0), Event.click 100 cam (some 1)]
        (initState L defaultParams imageFiles)).enlarging 1 = true) ∧
    ((run L [Event.click 0 cam (some 0), Event.click 100 cam (some 1), Event.tick 600,
        Event.tick 700] (initState L defaultParams imageFiles)).enlarged 0 = true ∧
     (run L [Event.click 0 cam (some 0), Event.click 100 cam (some 1), Event.tick 600,
        Event.tick 700] (initState L defaultParams imageFiles)).enlarged 1 = true) := by
  have hr0 : (initState L defaultParams imageFiles).resting 0 :=
    initState_resting L defaultParams imageFiles 0 (by rw [imageFiles_length]; norm_num)
  have hr1 : (initState L defaultParams imageFiles).resting 1 :=
    initState_resting L defaultParams imageFiles 1 (by rw [imageFiles_length]; norm_num)
  have hcb0 : (initState L defaultParams imageFiles).callbacks = [] := rfl
  have hei0 : (initState L defaultParams imageFiles).enlargedImage = none := rfl
  obtain ⟨d0, hd0, _, he0⟩ := hr0.2.1
  obtain ⟨d1, hd1, hp1, he1⟩ := hr1.2.1
  -- the first click
  have hc1 := onImageClick_resting_eq L cam 0 hr0
  obtain ⟨_, ⟨d0', hd0', _, _, _⟩, hring1, hmesh1, sc0, sp0, sr0, ep0, fr0, hcb1⟩ :=
    enlargeImage_resting L cam (0 : ℚ) hd0 he0 hr0.2.2
  rw [hcb0, List.nil_append] at hcb1
  have hprev : restorePrevious (0 : ℚ) 0 (initState L defaultParams imageFiles) =
      initState L defaultParams imageFiles := by
    simp [restorePrevious, hei0]
  have hd1' : (enlargeImage L cam 0 0 (initState L defaultParams imageFiles)).heap[1]? =
      some d1 := by
    rw [enlargeImage_heap_other L cam 0 _ (by norm_num : (0 : Nat) ≠ 1), hprev]; exact hd1
  have hr1' : (enlargeImage L cam 0 0 (initState L defaultParams imageFiles)).resting 1 := by
    refine ⟨by rw [hmesh1]; exact hr1.1, ⟨d1, hd1', by rw [hring1]; exact hp1, he1⟩, ?_⟩
    intro c hc
    rw [hcb1] at hc
    simp at hc
    rw [hc]; simp [Animation.imageData]
  -- the second click
  have hc2 := onImageClick_resting_eq L cam 100 hr1'
  have hph := (click_resting L cam 100 hr1' hd1').1
  obtain ⟨_, _, _, _, sc1, sp1, sr1, ep1, fr1, hcb2⟩ :=
    enlargeImage_resting L cam (100 : ℚ) hd1' he1 hr1'.2.2
  rw [hcb1] at hcb2
  obtain ⟨d0'', hd0''⟩ := heap_some_of_length
    (enlargeImage_length L cam 100 1 (enlargeImage L cam 0 0 (initState L defaultParams imageFiles)))
    hd0'
  have hs2 : run L [Event.click 0 cam (some 0), Event.click 100 cam (some 1)]
      (initState L defaultParams imageFiles) =
      enlargeImage L cam 100 1 (enlargeImage L cam 0 0 (initState L defaultParams imageFiles)) := by
    simp only [run, List.foldl_cons, List.foldl_nil, Event.apply]
    rw [hc1, hc2]
  have hs4 : run L [Event.click 0 cam (some 0), Event.click 100 cam (some 1), Event.tick 600,
      Event.tick 700] (initState L defaultParams imageFiles) =
      frame 700 (frame 600 (enlargeImage L cam 100 1
        (enlargeImage L cam 0 0 (initState L defaultParams imageFiles)))) := by
    simp only [run, List.foldl_cons, List.foldl_nil, Event.apply]
    rw [hc1, hc2]
  rw [hs2, hs4, ← hc2]
  rw [← hc2] at hcb2 hd0''
  have hall : ∀ c ∈ (onImageClick L cam 100 (some 1)
      (enlargeImage L cam 0 0 (initState L defaultParams imageFiles))).callbacks,
      c.isEnlarge = true := by
    intro c hc
    rw [hcb2] at hc
    simp at hc
    rcases hc with e | e <;> rw [e] <;> rfl
  refine ⟨⟨?_, ?_⟩, ?_, ?_⟩
  · simp [State.enlarging, hcb2, Animation.isEnlarge, Animation.imageData]
  · simp [State.enlarging, hcb2, Animation.isEnlarge, Animation.imageData]
  · apply frame_enlarged_true
    · intro c hc _
      exact hall c ((frame_static 600 _).2.2.2 c hc)
    · exact frame_enlarge_member 600 0 sc0 sp0 sr0 ep0 fr0 (by rw [hcb2]; simp) (fun c hc _ => hall c hc)
        hd0'' (by norm_num)
  · have hph3 := frame_phaseEnlarging (t := 600) hph (by norm_num)
    obtain ⟨⟨_, d, hd, _, he, _⟩, _⟩ :=
      frame_phaseEnlarged_of_enlarging (t := 700) hph3 (by norm_num)
    exact (enlarged_of_heap hd).trans he

/-- C3, evaluated on the ring of the program: the click on panel 0 at 0 ms saves
the scale `(1, 1, 1)`; at the frame at 300 ms the panel is still ENLARGING and
not flagged enlarged; a second click on the panel at 300 ms overwrites the
saved scale with the scale `29/8` of the running animation. -/
theorem saved_scale_overwritten (L : Lib ℚ) (cam : Camera ℚ) :
    ((run L [Event.click 0 cam (some 0)]
        (initState L defaultParams imageFiles)).heap[0]?.map (fun d => d.originalScale)
      = some ⟨1, 1, 1⟩) ∧
    ((run L [Event.click 0 cam (some 0), Event.tick 300]
        (initState L defaultParams imageFiles)).enlarging 0 = true ∧
     (run L [Event.click 0 cam (some 0), Event.tick 300]
        (initState L defaultParams imageFiles)).enlarged 0 = false) ∧
    ((run L [Event.click 0 cam (some 0), Event.tick 300, Event.click 300 cam (some 0)]
        (initState L defaultParams imageFiles)).heap[0]?.map (fun d => d.originalScale)
      = some ⟨29 / 8, 29 / 8, 29 / 8⟩) := by
  have hr0 : (initState L defaultParams imageFiles).resting 0 :=
    initState_resting L defaultParams imageFiles 0 (by rw [imageFiles_length]; norm_num)
  have hd0 : (initState L defaultParams imageFiles).heap[0]? =
      some (createImageData L defaultParams 1 (min imageFiles.length 20) 0) :=
    initState_getElem? L defaultParams imageFiles 0 (by rw [imageFiles_length]; norm_num)
  have hcb0 : (initState L defaultParams imageFiles).callbacks = [] := rfl
  -- the first click
  have hc1 := onImageClick_resting_eq L cam 0 hr0
  obtain ⟨sp, sr, st, d2, heq, hd2, hcb, _, hmesh, hsaved, he2, _⟩ :=
    enlargeImage_unflagged L cam (0 : ℚ) hd0 rfl
  obtain ⟨⟨g, _, hh1⟩, hcb1, _⟩ := call_enlarge_running
    (createImageData L defaultParams 1 (min imageFiles.length 20) 0).group.scale.x sp sr
    ⟨cam.position.x + cam.direction.x * 8, cam.position.y + cam.direction.y * 8,
     cam.position.z + cam.direction.z * 8⟩
    ⟨0, L.atan2 cam.direction.x cam.direction.z + L.PI, 0⟩ hd2
    (by norm_num : (0 : ℚ) - 0 < 600)
  obtain ⟨_, hm1, _, _⟩ := call_static (Animation.enlarge 0
    (createImageData L defaultParams 1 (min imageFiles.length 20) 0).group.scale.x sp sr
    ⟨cam.position.x + cam.direction.x * 8, cam.position.y + cam.direction.y * 8,
     cam.position.z + cam.direction.z * 8⟩
    ⟨0, L.atan2 cam.direction.x cam.direction.z + L.PI, 0⟩ (0 : ℚ)) 0 st
  rw [← heq, ← hc1] at hh1 hcb1 hm1
  rw [hcb, hcb0, List.nil_append] at hcb1
  -- the frame at 300 ms
  obtain ⟨st3, hf, hh3, _, hcs3⟩ := frame_last (300 : ℚ) [] (by rw [hcb1]; rfl) (by simp)
  simp only [Animation.imageData] at hh3
  rw [hh1] at hh3
  obtain ⟨d3, hd3, hsc3, _, he3⟩ := call_enlarge_running_scale
    (createImageData L defaultParams 1 (min imageFiles.length 20) 0).group.scale.x sp sr
    ⟨cam.position.x + cam.direction.x * 8, cam.position.y + cam.direction.y * 8,
     cam.position.z + cam.direction.z * 8⟩
    ⟨0, L.atan2 cam.direction.x cam.direction.z + L.PI, 0⟩ hh3
    (by norm_num : (300 : ℚ) - 0 < 600)
  obtain ⟨_, hcb3, _⟩ := call_enlarge_running
    (createImageData L defaultParams 1 (min imageFiles.length 20) 0).group.scale.x sp sr
    ⟨cam.position.x + cam.direction.x * 8, cam.position.y + cam.direction.y * 8,
     cam.position.z + cam.direction.z * 8⟩
    ⟨0, L.atan2 cam.direction.x cam.direction.z + L.PI, 0⟩ hh3
    (by norm_num : (300 : ℚ) - 0 < 600)
  rw [← hf] at hd3 hcb3
  have he3' : d3.isEnlarged = false := he3.trans he2
  have hscale : d3.group.scale = ⟨29 / 8, 29 / 8, 29 / 8⟩ := by
    rw [hsc3]
    simp only [createImageData, uniform, easeOutCubic, progress, duration]
    norm_num
  -- the second click
  have hm3 : 0 ∈ (frame 300 (onImageClick L cam 0 (some 0)
      (initState L defaultParams imageFiles))).imageMeshes := by
    rw [(frame_static 300 _).2.1, hm1, hmesh]; exact hr0.1
  have hc4 := onImageClick_unflagged_eq L cam 300 hm3 hd3 he3'
  obtain ⟨sp', sr', st', d4, heq', hd4, _, _, _, hsaved', _, _⟩ :=
    enlargeImage_unflagged L cam (300 : ℚ) hd3 he3'
  obtain ⟨⟨g', _, hh4⟩, _, _⟩ := call_enlarge_running d3.group.scale.x sp' sr'
    ⟨cam.position.x + cam.direction.x * 8, cam.position.y + cam.direction.y * 8,
     cam.position.z + cam.direction.z * 8⟩
    ⟨0, L.atan2 cam.direction.x cam.direction.z + L.PI, 0⟩ hd4
    (by norm_num : (300 : ℚ) - 300 < 600)
  rw [← heq', ← hc4] at hh4
  refine ⟨?_, ⟨?_, ?_⟩, ?_⟩
  · show (onImageClick L cam 0 (some 0) (initState L defaultParams imageFiles)).heap[0]?.map _ = _
    rw [hh1]
    simp only [Option.map_some', hsaved.2.2]
    rfl
  · show (frame 300 (onImageClick L cam 0 (some 0)
      (initState L defaultParams imageFiles))).enlarging 0 = true
    simp [State.enlarging, hcb3, Animation.isEnlarge, Animation.imageData]
  · show (frame 300 (onImageClick L cam 0 (some 0)
      (initState L defaultParams imageFiles))).enlarged 0 = false
    exact (enlarged_of_heap hd3).trans he3'
  · show (onImageClick L cam 300 (some 0) (frame 300 (onImageClick L cam 0 (some 0)
      (initState L defaultParams imageFiles)))).heap[0]?.map _ = _
    rw [hh4]
    simp only [Option.map_some', hsaved'.2.2, hscale]

/-- C4, evaluated on the ring of the program: panels 2 and 1 are clicked at 0 ms
and 100 ms and both complete, so that panel 1 is enlarged and referenced by
`enlargedImage` while panel 0 rests in the ring; after the click on panel 0 at
800 ms and the frame at 1400 ms panel 0 is flagged enlarged and is
`enlargedImage`, and panel 2 is still flagged enlarged. -/
theorem third_panel_stays_enlarged (L : Lib ℚ) (cam : Camera ℚ) :
    ((run L [Event.click 0 cam (some 2), Event.click 100 cam (some 1), Event.tick 600,
        Event.tick 700] (initState L defaultParams imageFiles)).enlarged 1 = true ∧
     (run L [Event.click 0 cam (some 2), Event.click 100 cam (some 1), Event.tick 600,
        Event.tick 700] (initState L defaultParams imageFiles)).enlargedImage = some 1 ∧
     (run L [Event.click 0 cam (some 2), Event.click 100 cam (some 1), Event.tick 600,
        Event.tick 700] (initState L defaultParams imageFiles)).resting 0) ∧
    ((run L [Event.click 0 cam (some 2), Event.click 100 cam (some 1), Event.tick 600,
        Event.tick 700, Event.click 800 cam (some 0), Event.tick 1400]
        (initState L defaultParams imageFiles)).enlarged 0 = true ∧
     (run L [Event.click 0 cam (some 2), Event.click 100 cam (some 1), Event.tick 600,
        Event.tick 700, Event.click 800 cam (some 0), Event.tick 1400]
        (initState L defaultParams imageFiles)).enlargedImage = some 0 ∧
     (run L [Event.click 0 cam (some 2), Event.click 100 cam (some 1), Event.tick 600,
        Event.tick 700, Event.click 800 cam (some 0), Event.tick 1400]
        (initState L defaultParams imageFiles)).enlarged 2 = true) := by
  have hr0 : (initState L defaultParams imageFiles).resting 0 :=
    initState_resting L defaultParams imageFiles 0 (by rw [imageFiles_length]; norm_num)
  have hr1 : (initState L defaultParams imageFiles).resting 1 :=
    initState_resting L defaultParams imageFiles 1 (by rw [imageFiles_length]; norm_num)
  have hr2 : (initState L defaultParams imageFiles).resting 2 :=
    initState_resting L defaultParams imageFiles 2 (by rw [imageFiles_length]; norm_num)
  have hcb0 : (initState L defaultParams imageFiles).callbacks = [] := rfl
  have hei0 : (initState L defaultParams imageFiles).enlargedImage = none := rfl
  obtain ⟨d0, hd0, hp0, he0⟩ := hr0.2.1
  obtain ⟨d1, hd1, hp1, he1⟩ := hr1.2.1
  obtain ⟨d2, hd2, _, he2⟩ := hr2.2.1
  -- the click on panel 2 at 0 ms
  have hc1 := onImageClick_resting_eq L cam 0 hr2
  obtain ⟨_, ⟨d2', hd2', _, _, _⟩, hring1, hmesh1, sc2, sp2, sr2, ep2, fr2, hcb1⟩ :=
    enlargeImage_resting L cam (0 : ℚ) hd2 he2 hr2.2.2
  rw [hcb0, List.nil_append] at hcb1
  have hprev1 := restorePrevious_none (0 : ℚ) 2 hei0
  have hei1 := enlargeImage_enlargedImage L cam (0 : ℚ) hd2 he2 hei0
  have h10 : (enlargeImage L cam 0 2 (initState L defaultParams imageFiles)).heap[0]? =
      some d0 := by
    rw [enlargeImage_heap_other L cam 0 _ (by norm_num : (2 : Nat) ≠ 0), hprev1]; exact hd0
  have h11 : (enlargeImage L cam 0 2 (initState L defaultParams imageFiles)).heap[1]? =
      some d1 := by
    rw [enlargeImage_heap_other L cam 0 _ (by norm_num : (2 : Nat) ≠ 1), hprev1]; exact hd1
  have hr1' : (enlargeImage L cam 0 2 (initState L defaultParams imageFiles)).resting 1 := by
    refine ⟨by rw [hmesh1]; exact hr1.1, ⟨d1, h11, by rw [hring1]; exact hp1, he1⟩, ?_⟩
    intro c hc
    rw [hcb1] at hc
    simp at hc
    rw [hc]; simp [Animation.imageData]
  -- the click on panel 1 at 100 ms
  have hc2 := onImageClick_resting_eq L cam 100 hr1'
  obtain ⟨hph, hring2, hmesh2⟩ := click_resting L cam 100 hr1' h11
  obtain ⟨_, _, _, _, sc1, sp1, sr1, ep1, fr1, hcb2⟩ :=
    enlargeImage_resting L cam (100 : ℚ) h11 he1 hr1'.2.2
  rw [hcb1, ← hc2] at hcb2
  have hprev2 := restorePrevious_none (100 : ℚ) 1 hei1
  have h20 : (onImageClick L cam 100 (some 1)
      (enlargeImage L cam 0 2 (initState L defaultParams imageFiles))).heap[0]? = some d0 := by
    rw [hc2, enlargeImage_heap_other L cam 100 _ (by norm_num : (1 : Nat) ≠ 0), hprev2]
    exact h10
  have h22 : (onImageClick L cam 100 (some 1)
      (enlargeImage L cam 0 2 (initState L defaultParams imageFiles))).heap[2]? = some d2' := by
    rw [hc2, enlargeImage_heap_other L cam 100 _ (by norm_num : (1 : Nat) ≠ 2), hprev2]
    exact hd2'
  have hall2 : ∀ c ∈ (onImageClick L cam 100 (some 1)
      (enlargeImage L cam 0 2 (initState L defaultParams imageFiles))).callbacks,
      c.isEnlarge = true ∧ c.imageData ≠ 0 := by
    intro c hc
    rw [hcb2] at hc
    simp at hc
    rcases hc with e | e <;> rw [e] <;> simp [Animation.isEnlarge, Animation.imageData]
  -- the frames at 600 ms and 700 ms
  have hph3 := frame_phaseEnlarging (t := 600) hph (by norm_num)
  have hsub3 := (frame_static (600 : ℚ) (onImageClick L cam 100 (some 1)
      (enlargeImage L cam 0 2 (initState L defaultParams imageFiles)))).2.2.2
  have he32 : (frame 600 (onImageClick L cam 100 (some 1)
      (enlargeImage L cam 0 2 (initState L defaultParams imageFiles)))).enlarged 2 = true :=
    frame_enlarge_member 600 0 sc2 sp2 sr2 ep2 fr2 (by rw [hcb2]; simp)
      (fun c hc _ => (hall2 c hc).1) h22 (by norm_num)
  obtain ⟨⟨hq41, d1'', hd41, hsaved41, he41, _⟩, hei4⟩ :=
    frame_phaseEnlarged_of_enlarging (t := 700) hph3 (by norm_num)
  have hsub4 := (frame_static (700 : ℚ) (frame 600 (onImageClick L cam 100 (some 1)
      (enlargeImage L cam 0 2 (initState L defaultParams imageFiles))))).2.2.2
  have hall4 : ∀ c ∈ (frame 700 (frame 600 (onImageClick L cam 100 (some 1)
      (enlargeImage L cam 0 2 (initState L defaultParams imageFiles))))).callbacks,
      c.isEnlarge = true ∧ c.imageData ≠ 0 :=
    fun c hc => hall2 c (hsub3 c (hsub4 c hc))
  have he42 : (frame 700 (frame 600 (onImageClick L cam 100 (some 1)
      (enlargeImage L cam 0 2 (initState L defaultParams imageFiles))))).enlarged 2 = true :=
    frame_enlarged_true (fun c hc _ => (hall2 c (hsub3 c hc)).1) he32
  have hq20 : (onImageClick L cam 100 (some 1)
      (enlargeImage L cam 0 2 (initState L defaultParams imageFiles))).quiet 0 :=
    fun c hc => (hall2 c hc).2
  obtain ⟨h30, hq30⟩ := frame_quiet (600 : ℚ) hq20
  obtain ⟨h40, hq40⟩ := frame_quiet (700 : ℚ) hq30
  have hrest4 : (frame 700 (frame 600 (onImageClick L cam 100 (some 1)
      (enlargeImage L cam 0 2 (initState L defaultParams imageFiles))))).resting 0 := by
    refine ⟨?_, ⟨d0, (h40.trans h30).trans h20, ?_, he0⟩, hq40⟩
    · rw [(frame_static _ _).2.1, (frame_static _ _).2.1, hmesh2, hmesh1]; exact hr0.1
    · rw [(frame_static _ _).1, (frame_static _ _).1, hring2, hring1]; exact hp0
  -- the click on panel 0 at 800 ms and the frame at 1400 ms
  have hc5 := onImageClick_resting_eq L cam 800 hrest4
  have hph5 := (click_resting L cam 800 hrest4 ((h40.trans h30).trans h20)).1
  obtain ⟨_, _, _, _, sc0, sp0, sr0, ep0, fr0, hcb5⟩ :=
    enlargeImage_resting L cam (800 : ℚ) ((h40.trans h30).trans h20) he0 hq40
  rw [← hc5] at hcb5
  have hprev5 : restorePrevious (800 : ℚ) 0 (frame 700 (frame 600 (onImageClick L cam 100 (some 1)
      (enlargeImage L cam 0 2 (initState L defaultParams imageFiles))))) =
      restoreImage 800 1 false (frame 700 (frame 600 (onImageClick L cam 100 (some 1)
      (enlargeImage L cam 0 2 (initState L defaultParams imageFiles))))) := by
    simp [restorePrevious, hei4]
  have he52 : (onImageClick L cam 800 (some 0) (frame 700 (frame 600 (onImageClick L cam 100
      (some 1) (enlargeImage L cam 0 2 (initState L defaultParams imageFiles)))))).enlarged 2 =
      true := by
    rw [hc5, enlarged_congr (enlargeImage_heap_other L cam 800 _ (by norm_num : (0 : Nat) ≠ 2)),
      hprev5, enlarged_congr (restoreImage_snap_other 800 1 2 _ (by norm_num)).1]
    exact he42
  have he62 : (frame 1400 (onImageClick L cam 800 (some 0) (frame 700 (frame 600
      (onImageClick L cam 100 (some 1) (enlargeImage L cam 0 2
        (initState L defaultParams imageFiles))))))).enlarged 2 = true := by
    apply frame_enlarged_true _ he52
    intro c hc _
    rw [hcb5] at hc
    rcases List.mem_append.1 hc with h' | h'
    · exact (hall4 c h').1
    · simp at h'; rw [h']; rfl
  obtain ⟨⟨_, d0'', hd60, _, he60, _⟩, hei6⟩ :=
    frame_phaseEnlarged_of_enlarging (t := 1400) hph5 (by norm_num)
  have hs4 : run L [Event.click 0 cam (some 2), Event.click 100 cam (some 1), Event.tick 600,
      Event.tick 700] (initState L defaultParams imageFiles) =
      frame 700 (frame 600 (onImageClick L cam 100 (some 1)
        (enlargeImage L cam 0 2 (initState L defaultParams imageFiles)))) := by
    simp only [run, List.foldl_cons, List.foldl_nil, Event.apply]
    rw [hc1]
  have hs6 : run L [Event.click 0 cam (some 2), Event.click 100 cam (some 1), Event.tick 600,
      Event.tick 700, Event.click 800 cam (some 0), Event.tick 1400]
      (initState L defaultParams imageFiles) =
      frame 1400 (onImageClick L cam 800 (some 0) (frame 700 (frame 600 (onImageClick L cam 100
        (some 1) (enlargeImage L cam 0 2 (initState L defaultParams imageFiles)))))) := by
    simp only [run, List.foldl_cons, List.foldl_nil, Event.apply]
    rw [hc1]
  rw [hs4, hs6]
  exact ⟨⟨(enlarged_of_heap hd41).trans he41, hei4, hrest4⟩,
    (enlarged_of_heap hd60).trans he60, hei6, he62⟩

/-! ## The theorems on concrete runs -/

/-- The theorem of C5 on panel 0 of the ring of the program: clicked at 0 ms,
frames at 100 ms and 300 ms, then the frame at 600 ms. -/
theorem enlarge_completes_at_duration_witness :
    (initState (flatLib : Lib ℚ) defaultParams imageFiles).resting 0 ∧
    (∀ t' ∈ [(100 : ℚ), 300], t' - 0 < 600) ∧
    (frame (600 : ℚ) (run (flatLib : Lib ℚ) (Event.click (0 : ℚ) frontCamera (some 0) :: ticks [100, 300])
      (initState (flatLib : Lib ℚ) defaultParams imageFiles))).enlarged 0 = true :=
  have h1 := initState_resting (flatLib : Lib ℚ) defaultParams imageFiles 0 (by decide)
  have h2 : ∀ t' ∈ [(100 : ℚ), 300], t' - 0 < 600 := by
    intro t' ht
    simp at ht
    rcases ht with e | e <;> rw [e] <;> norm_num
  ⟨h1, h2,
    ((enlarge_completes_at_duration (flatLib : Lib ℚ) frontCamera 0 _ 0 h1 [100, 300] h2 (600 : ℚ)).2.2
      (by norm_num)).1⟩

/-- The theorem of C6 on panel 0 of the ring of the program, clicked at 0 ms
with frames at 300 ms and 600 ms. -/
theorem enlarge_final_pose_witness :
    (initState (flatLib : Lib ℚ) defaultParams imageFiles).resting 0 ∧
    (∃ t ∈ [(300 : ℚ), 600], 600 ≤ t - 0) ∧
    ∃ d, (run (flatLib : Lib ℚ) (Event.click (0 : ℚ) frontCamera (some 0) :: ticks [300, 600])
        (initState (flatLib : Lib ℚ) defaultParams imageFiles)).heap[0]? = some d ∧
      d.group.scale = ⟨4, 4, 4⟩ :=
  have h1 := initState_resting (flatLib : Lib ℚ) defaultParams imageFiles 0 (by decide)
  have h2 : ∃ t ∈ [(300 : ℚ), 600], 600 ≤ t - 0 := ⟨600, by simp, by norm_num⟩
  ⟨h1, h2,
    let ⟨d, hd, _, _, _, hs⟩ := enlarge_final_pose (flatLib : Lib ℚ) frontCamera 0 _ 0 h1 [300, 600] h2
    ⟨d, hd, hs⟩⟩

/-- The theorem of C2 on panel 0 of the ring of the program: clicked at 0 ms,
frame at 600 ms, clicked at 700 ms, frame at 1300 ms. -/
theorem restore_reproduces_transform_witness :
    Reachable (flatLib : Lib ℚ) defaultParams imageFiles
      (initState (flatLib : Lib ℚ) defaultParams imageFiles) ∧
    (initState (flatLib : Lib ℚ) defaultParams imageFiles).resting 0 ∧
    (∃ t ∈ [(600 : ℚ)], 600 ≤ t - 0) ∧ (∃ t ∈ [(1300 : ℚ)], 600 ≤ t - 700) ∧
    ∃ d, (run (flatLib : Lib ℚ) (Event.click (0 : ℚ) frontCamera (some 0) :: ticks [600] ++
            Event.click (700 : ℚ) frontCamera (some 0) :: ticks [1300])
          (initState (flatLib : Lib ℚ) defaultParams imageFiles)).heap[0]? = some d ∧
      d.group.parent = Parent.ring 1 ∧
      d.group.scale = ⟨1, 1, 1⟩ :=
  have h0 : Reachable (flatLib : Lib ℚ) defaultParams imageFiles
      (initState (flatLib : Lib ℚ) defaultParams imageFiles) := ⟨[], rfl⟩
  have h1 := initState_resting (flatLib : Lib ℚ) defaultParams imageFiles 0 (by decide)
  have h2 : ∃ t ∈ [(600 : ℚ)], 600 ≤ t - 0 := ⟨600, by simp, by norm_num⟩
  have h3 : ∃ t ∈ [(1300 : ℚ)], 600 ≤ t - 700 := ⟨1300, by simp, by norm_num⟩
  ⟨h0, h1, h2, h3,
    let ⟨d, hd, hp, _, _, hs, _⟩ := restore_reproduces_transform (flatLib : Lib ℚ) defaultParams imageFiles
      _ h0 0 h1 _ (initState_getElem? (flatLib : Lib ℚ) defaultParams imageFiles 0 (by decide))
      frontCamera frontCamera 0 700 [600] [1300] h2 h3
    ⟨d, hd, hp, hs⟩⟩

/-- The theorem `click_while_other_enlarged` in the state where panel 1 of the ring of the program has
been clicked at 0 ms and enlarged by the frame at 600 ms, for a click on panel 0
at 700 ms and a frame at 1300 ms. -/
theorem click_while_other_enlarged_witness :
    ∃ (dB : ImageData ℚ) (p r : Vec3 ℚ),
      (0 : Nat) ≠ 1 ∧
      (run (flatLib : Lib ℚ) [Event.click (0 : ℚ) frontCamera (some 1), Event.tick 600]
        (initState (flatLib : Lib ℚ) defaultParams imageFiles)).resting 0 ∧
      (run (flatLib : Lib ℚ) [Event.click (0 : ℚ) frontCamera (some 1), Event.tick 600]
        (initState (flatLib : Lib ℚ) defaultParams imageFiles)).heap[1]? = some dB ∧
      dB.isEnlarged = true ∧
      (run (flatLib : Lib ℚ) [Event.click (0 : ℚ) frontCamera (some 1), Event.tick 600]
        (initState (flatLib : Lib ℚ) defaultParams imageFiles)).enlargedImage = some 1 ∧
      dB.originalLocalPosition = some p ∧ dB.originalLocalRotation = some r ∧
      (∀ j, j ≠ 1 → (run (flatLib : Lib ℚ) [Event.click (0 : ℚ) frontCamera (some 1), Event.tick 600]
        (initState (flatLib : Lib ℚ) defaultParams imageFiles)).enlarged j = false) ∧
      (∀ c ∈ (run (flatLib : Lib ℚ) [Event.click (0 : ℚ) frontCamera (some 1), Event.tick 600]
        (initState (flatLib : Lib ℚ) defaultParams imageFiles)).callbacks, c.isEnlarge = false) ∧
      (∃ t ∈ [(1300 : ℚ)], 600 ≤ t - 700) ∧
      (run (flatLib : Lib ℚ) (Event.click (700 : ℚ) frontCamera (some 0) :: ticks [1300])
        (run (flatLib : Lib ℚ) [Event.click (0 : ℚ) frontCamera (some 1), Event.tick 600]
          (initState (flatLib : Lib ℚ) defaultParams imageFiles))).enlarged 0 = true ∧
      (run (flatLib : Lib ℚ) (Event.click (700 : ℚ) frontCamera (some 0) :: ticks [1300])
        (run (flatLib : Lib ℚ) [Event.click (0 : ℚ) frontCamera (some 1), Event.tick 600]
          (initState (flatLib : Lib ℚ) defaultParams imageFiles))).enlarged 1 = false := by
  have hr0 := initState_resting (flatLib : Lib ℚ) defaultParams imageFiles 0 (by decide)
  have hr1 := initState_resting (flatLib : Lib ℚ) defaultParams imageFiles 1 (by decide)
  have hd0 := initState_getElem? (flatLib : Lib ℚ) defaultParams imageFiles 0 (by decide)
  have hd1 := initState_getElem? (flatLib : Lib ℚ) defaultParams imageFiles 1 (by decide)
  have hprev : restorePrevious (0 : ℚ) 1 (initState (flatLib : Lib ℚ) defaultParams imageFiles) =
      initState (flatLib : Lib ℚ) defaultParams imageFiles := by
    simp [restorePrevious, initState, createImageRing]
  -- the click on panel 1 and the frame that completes its animation
  obtain ⟨hph, hring, hmesh⟩ := click_resting (flatLib : Lib ℚ) frontCamera (0 : ℚ) hr1 hd1
  have hclick := onImageClick_resting_eq (flatLib : Lib ℚ) frontCamera (0 : ℚ) hr1
  obtain ⟨_, _, _, _, sc, sp, sr, ep, fr, hcb⟩ :=
    enlargeImage_resting (flatLib : Lib ℚ) frontCamera (0 : ℚ) hd1 rfl hr1.2.2
  rw [← hclick] at hcb
  have honly := click_resting_onlyEnlarging (flatLib : Lib ℚ) frontCamera (0 : ℚ) hr1
    (fun j _ => by rw [hprev]; exact initState_enlarged _ _ _ j)
    (fun c hc => by simp [initState, createImageRing] at hc)
  obtain ⟨⟨hq, dB, hdB, hsaved, heB, _⟩, hei⟩ :=
    frame_phaseEnlarged_of_enlarging (t := 600) hph (by norm_num)
  have honly' := frame_onlyEnlarging (600 : ℚ) honly
  have hq0 : (onImageClick (flatLib : Lib ℚ) frontCamera (0 : ℚ) (some 1)
      (initState (flatLib : Lib ℚ) defaultParams imageFiles)).quiet 0 := by
    intro c hc
    rw [hcb] at hc
    simp [initState, createImageRing] at hc
    rw [hc]; simp [Animation.imageData]
  obtain ⟨hh0, hq0'⟩ := frame_quiet (600 : ℚ) hq0
  have hheap0 : (onImageClick (flatLib : Lib ℚ) frontCamera (0 : ℚ) (some 1)
      (initState (flatLib : Lib ℚ) defaultParams imageFiles)).heap[0]? =
      some (createImageData flatLib defaultParams 1 (min imageFiles.length 20) 0) := by
    rw [hclick, enlargeImage_heap_other (flatLib : Lib ℚ) frontCamera 0 _
      (by norm_num : (1 : Nat) ≠ 0), hprev]
    exact hd0
  have hrest : (frame (600 : ℚ) (onImageClick (flatLib : Lib ℚ) frontCamera (0 : ℚ) (some 1)
      (initState (flatLib : Lib ℚ) defaultParams imageFiles))).resting 0 := by
    refine ⟨?_, ⟨_, hh0.trans hheap0, ?_, rfl⟩, hq0'⟩
    · rw [(frame_static _ _).2.1, hmesh]; exact hr0.1
    · rw [(frame_static _ _).1, hring]; rfl
  have hno : ∀ c ∈ (frame (600 : ℚ) (onImageClick (flatLib : Lib ℚ) frontCamera (0 : ℚ) (some 1)
      (initState (flatLib : Lib ℚ) defaultParams imageFiles))).callbacks, c.isEnlarge = false := by
    intro c hc
    cases hce : c.isEnlarge with
    | false => rfl
    | true => exact absurd (honly'.1 c hc hce) (hq c hc)
  have hts : ∃ t ∈ [(1300 : ℚ)], 600 ≤ t - 700 := ⟨1300, by simp, by norm_num⟩
  obtain ⟨_, k1, _, k3⟩ := click_while_other_enlarged (flatLib : Lib ℚ) frontCamera 700 _ 0 1
    (by norm_num) hrest dB _ _ hdB heB hei hsaved.1 hsaved.2.1 honly'.2 hno [1300] hts
  exact ⟨dB, _, _, by norm_num, hrest, hdB, heB, hei, hsaved.1, hsaved.2.1, honly'.2, hno, hts,
    k1, k3 1 (by norm_num)⟩

/-! ## The colours of the tree -/

section TreeColours
variable {α : Type} [LinearOrderedField α]

theorem lerp_mem_unit {a b t : α} (ha : 0 ≤ a ∧ a ≤ 1) (hb : 0 ≤ b ∧ b ≤ 1)
    (ht : 0 ≤ t ∧ t ≤ 1) : 0 ≤ a + (b - a) * t ∧ a + (b - a) * t ≤ 1 := by
  have h1 : a + (b - a) * t = a * (1 - t) + b * t := by ring
  rw [h1]
  have h2 : 0 ≤ 1 - t := by linarith [ht.2]
  constructor
  · exact add_nonneg (mul_nonneg ha.1 h2) (mul_nonneg hb.1 ht.1)
  · have h3 : a * (1 - t) ≤ 1 * (1 - t) := mul_le_mul_of_nonneg_right ha.2 h2
    have h4 : b * t ≤ 1 * t := mul_le_mul_of_nonneg_right hb.2 ht.1
    linarith

theorem canopyStep_colors [FloorRing α] (L : Lib α) (P : Params α) (rnd : Nat → α) (i : Nat)
    (t : TreeArrays α) (hcol : L.unitColors) (hr : 0 ≤ rnd (8 * i) ∧ rnd (8 * i) < 1)
    (ht : ∀ c ∈ t.colors, 0 ≤ c ∧ c ≤ 1) :
    ∀ c ∈ (canopyStep L P rnd i t).colors, 0 ≤ c ∧ c ≤ 1 := by
  have hl : 0 ≤ rnd (8 * i) ∧ rnd (8 * i) ≤ 1 := ⟨hr.1, le_of_lt hr.2⟩
  have hx := lerp_mem_unit (hcol 0x0066ff).1 (hcol 0x4a9eff).1 hl
  have hy := lerp_mem_unit (hcol 0x0066ff).2.1 (hcol 0x4a9eff).2.1 hl
  have hz := lerp_mem_unit (hcol 0x0066ff).2.2 (hcol 0x4a9eff).2.2 hl
  intro c hc
  simp only [canopyStep, List.mem_append, List.mem_cons, List.mem_singleton, List.not_mem_nil,
    or_false] at hc
  rcases hc with hc | hc
  · exact ht c hc
  · by_cases h7 : rnd (8 * i) > 0.7
    · have ha : 0 ≤ (rnd (8 * i) - 0.7) / 0.3 ∧ (rnd (8 * i) - 0.7) / 0.3 ≤ 1 := by
        constructor
        · apply div_nonneg _ (by norm_num)
          linarith
        · rw [div_le_one (by norm_num)]
          have := hr.2
          norm_num at this ⊢
          linarith
      simp only [h7, if_true, lerpVectors] at hc
      rcases hc with hc | hc | hc <;> rw [hc]
      · exact lerp_mem_unit hx (hcol 0x00d4ff).1 ha
      · exact lerp_mem_unit hy (hcol 0x00d4ff).2.1 ha
      · exact lerp_mem_unit hz (hcol 0x00d4ff).2.2 ha
    · simp only [h7, if_false, lerpVectors] at hc
      rcases hc with hc | hc | hc <;> rw [hc]
      · exact hx
      · exact hy
      · exact hz

theorem canopyLoop_colors [FloorRing α] (L : Lib α) (P : Params α) (rnd : Nat → α)
    (hcol : L.unitColors) (hr : ∀ k, 0 ≤ rnd k ∧ rnd k < 1) (n : Nat) :
    ∀ c ∈ (canopyLoop L P rnd n).colors, 0 ≤ c ∧ c ≤ 1 := by
  induction n with
  | zero => intro c hc; simp [canopyLoop] at hc
  | succ n ih => exact canopyStep_colors L P rnd n _ hcol (hr _) ih

theorem trunkLoop_colors (L : Lib α) (P : Params α) (rnd : Nat → α) (t : TreeArrays α)
    (ht : ∀ c ∈ t.colors, 0 ≤ c ∧ c ≤ 1) (n : Nat) :
    ∀ c ∈ (trunkLoop L P rnd t n).colors, 0 ≤ c ∧ c ≤ 1 := by
  induction n with
  | zero => exact ht
  | succ n ih =>
    intro c hc
    simp only [trunkLoop, trunkStep, List.mem_append, List.mem_cons, List.mem_singleton,
      List.not_mem_nil, or_false] at hc
    rcases hc with hc | hc | hc | hc
    · exact ih c hc
    all_goals rw [hc]; norm_num

/-- C11: when every channel of a colour of the library is in `[0, 1]` and every
draw of `Math.random()` is in `[0, 1)`, each colour channel pushed for a canopy
particle (the lerp from the bottom to the top colour by the draw `layer`, then
for `layer > 0.7` the lerp toward the third colour by `(layer - 0.7) / 0.3`) is
in `[0, 1]`, each trunk particle gets the colour `(0.2, 0.1, 0.05)`, and so
every entry of the colour array of `createParticleTree` is in `[0, 1]`. -/
theorem tree_colors_in_unit_interval [FloorRing α] (L : Lib α) (P : Params α) (rnd : Nat → α)
    (hcol : L.unitColors) (hr : ∀ k, 0 ≤ rnd k ∧ rnd k < 1) :
    (∀ c ∈ (canopyLoop L P rnd P.particleCount).colors, 0 ≤ c ∧ c ≤ 1) ∧
    (∀ t : TreeArrays α, ∀ i : Nat,
      (trunkStep L P rnd i t).colors = t.colors ++ [0.2, 0.1, 0.05]) ∧
    ∀ c ∈ (createParticleTree L P rnd).colors, 0 ≤ c ∧ c ≤ 1 :=
  ⟨canopyLoop_colors L P rnd hcol hr _, fun _ _ => rfl,
    trunkLoop_colors L P rnd _ (canopyLoop_colors L P rnd hcol hr _) _⟩
end TreeColours

/-- The theorem of C11 for the default parameters, a library whose colours are
black and all draws equal to 1/2. -/
theorem tree_colors_in_unit_interval_witness :
    (flatLib : Lib ℚ).unitColors ∧ (∀ k : Nat, (0 : ℚ) ≤ (fun _ => 1 / 2) k ∧
      (fun _ => (1 / 2 : ℚ)) k < 1) ∧
    ∀ c ∈ (createParticleTree (flatLib : Lib ℚ) defaultParams (fun _ => 1 / 2)).colors,
      0 ≤ c ∧ c ≤ 1 :=
  have h1 : (flatLib : Lib ℚ).unitColors := fun _ => by simp [flatLib]
  have h2 : ∀ k : Nat, (0 : ℚ) ≤ (fun _ => 1 / 2) k ∧ (fun _ => (1 / 2 : ℚ)) k < 1 :=
    fun _ => by norm_num
  ⟨h1, h2, (tree_colors_in_unit_interval flatLib defaultParams (fun _ => 1 / 2) h1 h2).2.2⟩

/-! ## The bands of the tree -/

section Bands
variable {α : Type} [LinearOrderedField α]

theorem layerWidth_eq (P : Params α) (j : α) :
    layerWidth P j = P.treeWidth - (0.8 * P.treeWidth / P.layers) * j := by
  simp only [layerWidth]
  ring_nf

theorem canopyStep_positions [FloorRing α] (L : Lib α) (P : Params α) (rnd : Nat → α) (i : Nat)
    (t : TreeArrays α) :
    (canopyStep L P rnd i t).positions = t.positions ++
      [L.cos (rnd (8 * i + 1) * L.PI * 2) *
          (L.sqrt (rnd (8 * i + 2)) * layerWidth P (⌊rnd (8 * i) * P.layers⌋ : α)) +
        (rnd (8 * i + 3) - 0.5) * 0.3,
       ((⌊rnd (8 * i) * P.layers⌋ : α) / P.layers) * P.treeHeight +
        mod1 (rnd (8 * i) * P.layers) * (P.treeHeight / P.layers),
       L.sin (rnd (8 * i + 1) * L.PI * 2) *
          (L.sqrt (rnd (8 * i + 2)) * layerWidth P (⌊rnd (8 * i) * P.layers⌋ : α)) +
        (rnd (8 * i + 3) - 0.5) * 0.3] := rfl

/-- C12, amended: the band width `layerWidth` is an affine, decreasing function
of the band index.  It is the base width `treeWidth` at the lowest band, and at
the highest band `layers - 1` it is `treeWidth * (0.2 + 0.8 / layers)`; the top
width `0.2 * treeWidth` is the value at the index `layers`, which no band has.
A canopy particle of the band `floor(layer * layers)` is pushed at the radius
`sqrt(U) * layerWidth` around the axis, plus the noise added to `x` and `z`. -/
theorem layer_width_affine [FloorRing α] (L : Lib α) (P : Params α) (rnd : Nat → α) (i : Nat)
    (t : TreeArrays α) (hL : 0 < P.layers) (hW : 0 ≤ P.treeWidth) :
    (∀ j : α, layerWidth P j = P.treeWidth - (0.8 * P.treeWidth / P.layers) * j) ∧
    layerWidth P 0 = P.treeWidth ∧
    layerWidth P (P.layers - 1) = P.treeWidth * (0.2 + 0.8 / P.layers) ∧
    layerWidth P P.layers = 0.2 * P.treeWidth ∧
    (∀ j k : α, j ≤ k → layerWidth P k ≤ layerWidth P j) ∧
    ∃ y : α, (canopyStep L P rnd i t).positions = t.positions ++
      [L.cos (rnd (8 * i + 1) * L.PI * 2) *
          (L.sqrt (rnd (8 * i + 2)) * layerWidth P (⌊rnd (8 * i) * P.layers⌋ : α)) +
        (rnd (8 * i + 3) - 0.5) * 0.3,
       y,
       L.sin (rnd (8 * i + 1) * L.PI * 2) *
          (L.sqrt (rnd (8 * i + 2)) * layerWidth P (⌊rnd (8 * i) * P.layers⌋ : α)) +
        (rnd (8 * i + 3) - 0.5) * 0.3] := by
  have hne : P.layers ≠ 0 := ne_of_gt hL
  refine ⟨layerWidth_eq P, ?_, ?_, ?_, ?_, _, canopyStep_positions L P rnd i t⟩
  · rw [layerWidth_eq]; ring
  · rw [layerWidth_eq]; field_simp; ring
  · rw [layerWidth_eq]; field_simp; ring
  · intro j k hjk
    rw [layerWidth_eq, layerWidth_eq]
    have hc : 0 ≤ 0.8 * P.treeWidth / P.layers :=
      div_nonneg (mul_nonneg (by norm_num) hW) (le_of_lt hL)
    have := mul_le_mul_of_nonneg_left hjk hc
    linarith

/-- C13: for a draw `layer` in `[0, 1)` and `layers >= 1`, a canopy particle
gets the band `floor(layer * layers)`, which is in `[0, layers)`; its height
`y` is `layer * treeHeight`, it lies in the band, `i * H / L <= y < (i + 1) * H / L`,
and `0 <= y < treeHeight`. -/
theorem canopy_height_in_band [FloorRing α] (L : Lib α) (P : Params α) (rnd : Nat → α)
    (i : Nat) (t : TreeArrays α) (hr : 0 ≤ rnd (8 * i) ∧ rnd (8 * i) < 1)
    (hL : 1 ≤ P.layers) (hH : 0 < P.treeHeight) :
    0 ≤ ⌊rnd (8 * i) * P.layers⌋ ∧ ((⌊rnd (8 * i) * P.layers⌋ : ℤ) : α) < P.layers ∧
    ∃ x y z : α, (canopyStep L P rnd i t).positions = t.positions ++ [x, y, z] ∧
      y = rnd (8 * i) * P.treeHeight ∧
      (⌊rnd (8 * i) * P.layers⌋ : α) * (P.treeHeight / P.layers) ≤ y ∧
      y < ((⌊rnd (8 * i) * P.layers⌋ : α) + 1) * (P.treeHeight / P.layers) ∧
      0 ≤ y ∧ y < P.treeHeight := by
  have hLpos : 0 < P.layers := lt_of_lt_of_le zero_lt_one hL
  have hne : P.layers ≠ 0 := ne_of_gt hLpos
  have hprod : 0 ≤ rnd (8 * i) * P.layers := mul_nonneg hr.1 (le_of_lt hLpos)
  have hfl := Int.floor_le (rnd (8 * i) * P.layers)
  have hfl' := Int.lt_floor_add_one (rnd (8 * i) * P.layers)
  have hstep : 0 < P.treeHeight / P.layers := div_pos hH hLpos
  have hy : ((⌊rnd (8 * i) * P.layers⌋ : α) / P.layers) * P.treeHeight +
        mod1 (rnd (8 * i) * P.layers) * (P.treeHeight / P.layers) =
      rnd (8 * i) * P.treeHeight := by
    simp only [mod1, if_pos hprod]
    generalize ((⌊rnd (8 * i) * P.layers⌋ : ℤ) : α) = f
    field_simp
    ring
  have hy' : rnd (8 * i) * P.treeHeight =
      (rnd (8 * i) * P.layers) * (P.treeHeight / P.layers) := by
    field_simp
    ring
  refine ⟨Int.floor_nonneg.2 hprod, ?_, _, _, _, canopyStep_positions L P rnd i t, hy, ?_, ?_,
    ?_, ?_⟩
  · calc ((⌊rnd (8 * i) * P.layers⌋ : ℤ) : α) ≤ rnd (8 * i) * P.layers := hfl
      _ < 1 * P.layers := mul_lt_mul_of_pos_right hr.2 hLpos
      _ = P.layers := one_mul _
  · rw [hy, hy']
    exact mul_le_mul_of_nonneg_right hfl (le_of_lt hstep)
  · rw [hy, hy']
    exact mul_lt_mul_of_pos_right hfl' hstep
  · rw [hy]; exact mul_nonneg hr.1 (le_of_lt hH)
  · rw [hy]
    calc rnd (8 * i) * P.treeHeight < 1 * P.treeHeight := mul_lt_mul_of_pos_right hr.2 hH
      _ = P.treeHeight := one_mul _
end Bands

/-- C12, counterexample: with the default parameters (`treeWidth = 8`,
`layers = 8`) the highest band, index 7, has the width `12 / 5`, not the top
width `0.2 * treeWidth = 8 / 5`. -/
theorem top_band_wider_than_top_width :
    layerWidth (defaultParams : Params ℚ) ((defaultParams : Params ℚ).layers - 1) = 12 / 5 ∧
    0.2 * (defaultParams : Params ℚ).treeWidth = 8 / 5 ∧
    layerWidth (defaultParams : Params ℚ) ((defaultParams : Params ℚ).layers - 1) ≠
      0.2 * (defaultParams : Params ℚ).treeWidth := by
  have h1 : layerWidth (defaultParams : Params ℚ) ((defaultParams : Params ℚ).layers - 1)
      = 12 / 5 := by
    simp only [layerWidth, defaultParams]; norm_num
  have h2 : 0.2 * (defaultParams : Params ℚ).treeWidth = 8 / 5 := by
    simp only [defaultParams]; norm_num
  refine ⟨h1, h2, ?_⟩
  rw [h1, h2]; norm_num

/-- The amended theorem of C12 at the default parameters. -/
theorem layer_width_affine_witness :
    (0 : ℚ) < (defaultParams : Params ℚ).layers ∧ (0 : ℚ) ≤ (defaultParams : Params ℚ).treeWidth ∧
    layerWidth (defaultParams : Params ℚ) ((defaultParams : Params ℚ).layers - 1) =
      (defaultParams : Params ℚ).treeWidth * (0.2 + 0.8 / (defaultParams : Params ℚ).layers) :=
  have h1 : (0 : ℚ) < (defaultParams : Params ℚ).layers := by simp [defaultParams]
  have h2 : (0 : ℚ) ≤ (defaultParams : Params ℚ).treeWidth := by simp [defaultParams]
  ⟨h1, h2, (layer_width_affine (flatLib : Lib ℚ) defaultParams (fun _ => 1 / 2) 0
    ⟨[], [], [], []⟩ h1 h2).2.2.1⟩

/-- The theorem of C13 at the first canopy particle of the default tree with all
draws equal to 1/2. -/
theorem canopy_height_in_band_witness :
    ((0 : ℚ) ≤ (fun _ => (1 / 2 : ℚ)) (8 * 0) ∧ (fun _ => (1 / 2 : ℚ)) (8 * 0) < 1) ∧
    (1 : ℚ) ≤ (defaultParams : Params ℚ).layers ∧ (0 : ℚ) < (defaultParams : Params ℚ).treeHeight ∧
    ∃ x y z : ℚ, (canopyStep (flatLib : Lib ℚ) defaultParams (fun _ => 1 / 2) 0
        ⟨[], [], [], []⟩).positions = [] ++ [x, y, z] ∧
      y = (fun _ => (1 / 2 : ℚ)) (8 * 0) * (defaultParams : Params ℚ).treeHeight :=
  have h0 : (0 : ℚ) ≤ (fun _ => (1 / 2 : ℚ)) (8 * 0) ∧ (fun _ => (1 / 2 : ℚ)) (8 * 0) < 1 := by
    norm_num
  have h1 : (1 : ℚ) ≤ (defaultParams : Params ℚ).layers := by simp [defaultParams]
  have h2 : (0 : ℚ) < (defaultParams : Params ℚ).treeHeight := by simp [defaultParams]
  ⟨h0, h1, h2,
    let ⟨x, y, z, hp, hy, _⟩ := (canopy_height_in_band (flatLib : Lib ℚ) defaultParams
      (fun _ => 1 / 2) 0 ⟨[], [], [], []⟩ h0 h1 h2).2.2
    ⟨x, y, z, hp, hy⟩⟩

/-! ## The ground -/

/-! ## Lists of triples -/

theorem getElem?_of_append_triple {β : Type} {l l' r : List β} {x y z : β} {m : Nat}
    (hl : l.length = m) (hp : l' = l ++ [x, y, z] ++ r) :
    l'[m]? = some x ∧ l'[m + 1]? = some y ∧ l'[m + 2]? = some z := by
  subst hp
  subst hl
  refine ⟨?_, ?_, ?_⟩
  · rw [List.append_assoc, List.getElem?_append_right (le_refl _)]; simp
  · rw [List.append_assoc, List.getElem?_append_right (Nat.le_add_right _ _)]; simp
  · rw [List.append_assoc, List.getElem?_append_right (Nat.le_add_right _ _)]; simp

section Ground
variable {α : Type} [LinearOrderedField α] [FloorRing α]

theorem groundStep_spiral (L : Lib α) (P : Params α) (rnd : Nat → α) (i : Nat) (t : DiskArrays α)
    (hi : (i : α) < (P.groundParticleCount : α) * 0.9) :
    (groundStep L P rnd i t).positions = t.positions ++
      [L.cos ((i : α) / ((P.groundParticleCount : α) * 0.9) * (8 * L.PI * 2)
            + (rnd (t.draws + 1) - 0.5) * 0.2)
          * max 0 ((i : α) / ((P.groundParticleCount : α) * 0.9) * (50 * 0.5)
            + (rnd t.draws - 0.5) * 1.0),
       0 + (rnd (t.draws + 2) - 0.5) * 0.3,
       L.sin ((i : α) / ((P.groundParticleCount : α) * 0.9) * (8 * L.PI * 2)
            + (rnd (t.draws + 1) - 0.5) * 0.2)
          * max 0 ((i : α) / ((P.groundParticleCount : α) * 0.9) * (50 * 0.5)
            + (rnd t.draws - 0.5) * 1.0)] ∧
    (groundStep L P rnd i t).draws = t.draws + 6 := by
  constructor <;> simp only [groundStep, if_pos hi]

theorem groundStep_random (L : Lib α) (P : Params α) (rnd : Nat → α) (i : Nat) (t : DiskArrays α)
    (hi : ¬ (i : α) < (P.groundParticleCount : α) * 0.9) :
    (groundStep L P rnd i t).positions = t.positions ++
      [L.cos (rnd t.draws * L.PI * 2) * (rnd (t.draws + 1) * (50 * 0.5))
          + (rnd (t.draws + 2) - 0.5) * 10,
       0 + (rnd (t.draws + 3) - 0.5) * 0.3,
       L.sin (rnd t.draws * L.PI * 2) * (rnd (t.draws + 1) * (50 * 0.5))
          + (rnd (t.draws + 2) - 0.5) * 10] ∧
    (groundStep L P rnd i t).draws = t.draws + 7 := by
  constructor <;> simp only [groundStep, if_neg hi]

theorem groundStep_positions (L : Lib α) (P : Params α) (rnd : Nat → α) (i : Nat)
    (t : DiskArrays α) :
    ∃ x y z, (groundStep L P rnd i t).positions = t.positions ++ [x, y, z] := by
  by_cases hi : (i : α) < (P.groundParticleCount : α) * 0.9
  · exact ⟨_, _, _, (groundStep_spiral L P rnd i t hi).1⟩
  · exact ⟨_, _, _, (groundStep_random L P rnd i t hi).1⟩

theorem groundLoop_length (L : Lib α) (P : Params α) (rnd : Nat → α) (n : Nat) :
    (groundLoop L P rnd n).positions.length = 3 * n := by
  induction n with
  | zero => rfl
  | succ n ih =>
    obtain ⟨x, y, z, h⟩ := groundStep_positions L P rnd n (groundLoop L P rnd n)
    simp only [groundLoop, h, List.length_append, ih]
    simp
    omega

theorem groundLoop_extends (L : Lib α) (P : Params α) (rnd : Nat → α) (i n : Nat) (h : i ≤ n) :
    ∃ r, (groundLoop L P rnd n).positions = (groundLoop L P rnd i).positions ++ r := by
  induction n with
  | zero =>
    have : i = 0 := by omega
    subst this
    exact ⟨[], (List.append_nil _).symm⟩
  | succ n ih =>
    rcases Nat.lt_or_ge i (n + 1) with h' | h'
    · obtain ⟨x, y, z, hs⟩ := groundStep_positions L P rnd n (groundLoop L P rnd n)
      obtain ⟨r, hr⟩ := ih (by omega)
      refine ⟨r ++ [x, y, z], ?_⟩
      simp only [groundLoop, hs, hr, List.append_assoc]
    · have : i = n + 1 := by omega
      subst this
      exact ⟨[], (List.append_nil _).symm⟩

/-- The particle that the iteration `i` pushes is the particle `i` of the
finished position array. -/
theorem ground_particle (L : Lib α) (P : Params α) (rnd : Nat → α) (i : Nat)
    (hi : i < P.groundParticleCount) {x y z : α}
    (hs : (groundStep L P rnd i (groundLoop L P rnd i)).positions =
      (groundLoop L P rnd i).positions ++ [x, y, z]) :
    (createGroundParticles L P rnd).positions[3 * i]? = some x ∧
    (createGroundParticles L P rnd).positions[3 * i + 1]? = some y ∧
    (createGroundParticles L P rnd).positions[3 * i + 2]? = some z := by
  obtain ⟨r, hp⟩ := groundLoop_extends L P rnd (i + 1) P.groundParticleCount hi
  simp only [groundLoop] at hp
  rw [hs] at hp
  exact getElem?_of_append_triple (groundLoop_length L P rnd i) hp
end Ground

/-! ## Distances on the ground -/

theorem sqrt_two_sq : Real.sqrt 2 * Real.sqrt 2 = 2 :=
  Real.mul_self_sqrt (by norm_num)

theorem spiral_distance (c s r : ℝ) (hcs : c ^ 2 + s ^ 2 = 1) (hr : 0 ≤ r) :
    Real.sqrt ((c * r) ^ 2 + (s * r) ^ 2) = r := by
  have : (c * r) ^ 2 + (s * r) ^ 2 = r ^ 2 := by
    have : (c * r) ^ 2 + (s * r) ^ 2 = (c ^ 2 + s ^ 2) * r ^ 2 := by ring
    rw [this, hcs, one_mul]
  rw [this, Real.sqrt_sq hr]

theorem offset_sq_bound (c s r o : ℝ) (hcs : c ^ 2 + s ^ 2 = 1) (hr : 0 ≤ r) (hr' : r ≤ 25)
    (ho : -5 ≤ o) (ho' : o ≤ 5) :
    (c * r + o) ^ 2 + (s * r + o) ^ 2 ≤ (25 + 5 * Real.sqrt 2) ^ 2 := by
  have h2 := sqrt_two_sq
  have hs2 : 0 ≤ Real.sqrt 2 := Real.sqrt_nonneg 2
  -- (c + s)^2 ≤ 2
  have hcs2 : (c + s) ^ 2 ≤ 2 := by nlinarith [sq_nonneg (c - s)]
  have habs : (c + s) * o ≤ Real.sqrt 2 * 5 := by
    have h1 : |c + s| ≤ Real.sqrt 2 := by
      apply Real.abs_le_sqrt hcs2
    have h3 : |o| ≤ 5 := abs_le.2 ⟨ho, ho'⟩
    calc (c + s) * o ≤ |(c + s) * o| := le_abs_self _
      _ = |c + s| * |o| := abs_mul _ _
      _ ≤ Real.sqrt 2 * 5 := mul_le_mul h1 h3 (abs_nonneg _) hs2
  have ho2 : o ^ 2 ≤ 25 := by nlinarith
  have hr2 : r ^ 2 ≤ 625 := by nlinarith
  have hexp : (c * r + o) ^ 2 + (s * r + o) ^ 2 = r ^ 2 + 2 * r * ((c + s) * o) + 2 * o ^ 2 := by
    have : (c * r + o) ^ 2 + (s * r + o) ^ 2 =
        (c ^ 2 + s ^ 2) * r ^ 2 + 2 * r * ((c + s) * o) + 2 * o ^ 2 := by ring
    rw [this, hcs, one_mul]
  rw [hexp]
  have h4 : 2 * r * ((c + s) * o) ≤ 2 * 25 * (Real.sqrt 2 * 5) := by
    have h5 : 2 * r * ((c + s) * o) ≤ 2 * r * (Real.sqrt 2 * 5) :=
      mul_le_mul_of_nonneg_left habs (by linarith)
    have h6 : 2 * r * (Real.sqrt 2 * 5) ≤ 2 * 25 * (Real.sqrt 2 * 5) :=
      mul_le_mul_of_nonneg_right (by linarith) (by positivity)
    linarith
  nlinarith

theorem offset_distance (c s r o : ℝ) (hcs : c ^ 2 + s ^ 2 = 1) (hr : 0 ≤ r) (hr' : r ≤ 25)
    (ho : -5 ≤ o) (ho' : o ≤ 5) :
    Real.sqrt ((c * r + o) ^ 2 + (s * r + o) ^ 2) ≤ 25 + 5 * Real.sqrt 2 := by
  have hpos : 0 ≤ 25 + 5 * Real.sqrt 2 := by positivity
  rw [← Real.sqrt_sq hpos]
  exact Real.sqrt_le_sqrt (offset_sq_bound c s r o hcs hr hr' ho ho')

theorem cos_sq_add_sin_sq_real (a : ℝ) : Real.cos a ^ 2 + Real.sin a ^ 2 = 1 :=
  Real.cos_sq_add_sin_sq a

theorem spiral_distance_lib (L : Lib ℝ) (a r : ℝ) (hr : 0 ≤ r) :
    Real.sqrt (((realMath L).cos a * r) ^ 2 + ((realMath L).sin a * r) ^ 2) = r :=
  spiral_distance (Real.cos a) (Real.sin a) r (Real.cos_sq_add_sin_sq a) hr

theorem offset_distance_lib (L : Lib ℝ) (a r o : ℝ) (hr : 0 ≤ r) (hr' : r ≤ 25)
    (ho : -5 ≤ o) (ho' : o ≤ 5) :
    Real.sqrt (((realMath L).cos a * r + o) ^ 2 + ((realMath L).sin a * r + o) ^ 2)
      ≤ 25 + 5 * Real.sqrt 2 :=
  offset_distance (Real.cos a) (Real.sin a) r o (Real.cos_sq_add_sin_sq a) hr hr' ho ho'

/-- C14: for every `groundParticleCount`, every particle index `i` below it and
all draws in `[0, 1)`, the particle `i` of the ground has its horizontal
distance `sqrt(x^2 + z^2)` from the origin at most `25 + 5 * sqrt 2`, and at
most `25 + 0.5` when it is a spiral particle (`i < 0.9 * N`); here 25 is
`maxRadius`. -/
theorem ground_distance_bound (L : Lib ℝ) (P : Params ℝ) (rnd : Nat → ℝ)
    (hr : ∀ k, 0 ≤ rnd k ∧ rnd k < 1) (i : Nat) (hi : i < P.groundParticleCount) :
    ∃ x y z : ℝ,
      (createGroundParticles (realMath L) P rnd).positions[3 * i]? = some x ∧
      (createGroundParticles (realMath L) P rnd).positions[3 * i + 1]? = some y ∧
      (createGroundParticles (realMath L) P rnd).positions[3 * i + 2]? = some z ∧
      Real.sqrt (x ^ 2 + z ^ 2) ≤ 25 + 5 * Real.sqrt 2 ∧
      ((i : ℝ) < 0.9 * P.groundParticleCount → Real.sqrt (x ^ 2 + z ^ 2) ≤ 25 + 0.5) := by
  have hs2 : 1 ≤ Real.sqrt 2 := by
    have h : Real.sqrt 1 ≤ Real.sqrt 2 := Real.sqrt_le_sqrt (by norm_num)
    rwa [Real.sqrt_one] at h
  by_cases hsp : (i : ℝ) < (P.groundParticleCount : ℝ) * 0.9
  · obtain ⟨hpos, _⟩ := groundStep_spiral (realMath L) P rnd i (groundLoop (realMath L) P rnd i) hsp
    obtain ⟨h1, h2, h3⟩ := ground_particle (realMath L) P rnd i hi hpos
    refine ⟨_, _, _, h1, h2, h3, ?_⟩
    have hN : (0 : ℝ) < (P.groundParticleCount : ℝ) * 0.9 :=
      lt_of_le_of_lt (Nat.cast_nonneg i) hsp
    have hp1 : (i : ℝ) / ((P.groundParticleCount : ℝ) * 0.9) < 1 := (div_lt_one hN).2 hsp
    have hp0 : 0 ≤ (i : ℝ) / ((P.groundParticleCount : ℝ) * 0.9) :=
      div_nonneg (Nat.cast_nonneg i) (le_of_lt hN)
    have hk := hr (groundLoop (realMath L) P rnd i).draws
    have hfr : max 0 ((i : ℝ) / ((P.groundParticleCount : ℝ) * 0.9) * (50 * 0.5)
        + (rnd (groundLoop (realMath L) P rnd i).draws - 0.5) * 1.0) ≤ 25 + 0.5 := by
      apply max_le (by norm_num)
      nlinarith [hk.1, hk.2]
    rw [spiral_distance_lib L _ _ (le_max_left _ _)]
    exact ⟨le_trans hfr (by linarith), fun _ => hfr⟩
  · obtain ⟨hpos, _⟩ := groundStep_random (realMath L) P rnd i (groundLoop (realMath L) P rnd i) hsp
    obtain ⟨h1, h2, h3⟩ := ground_particle (realMath L) P rnd i hi hpos
    refine ⟨_, _, _, h1, h2, h3, ?_, ?_⟩
    · have hk1 := hr ((groundLoop (realMath L) P rnd i).draws + 1)
      have hk2 := hr ((groundLoop (realMath L) P rnd i).draws + 2)
      apply offset_distance_lib
      · nlinarith [hk1.1]
      · nlinarith [hk1.2]
      · nlinarith [hk2.1]
      · nlinarith [hk2.2]
    · intro h
      exact absurd (by rw [mul_comm]; exact h) hsp

/-! ## The spiral of the ground -/

theorem spiral_count (N : Nat) :
    (Finset.filter (fun j : Nat => (j : ℝ) < 0.9 * (N : ℝ)) (Finset.range N)).card
      = ⌈(0.9 : ℝ) * (N : ℝ)⌉₊ := by
  have hN : (0 : ℝ) ≤ (N : ℝ) := Nat.cast_nonneg N
  have hceil : ⌈(0.9 : ℝ) * (N : ℝ)⌉₊ ≤ N := Nat.ceil_le.2 (by nlinarith)
  have hset : Finset.filter (fun j : Nat => (j : ℝ) < 0.9 * (N : ℝ)) (Finset.range N)
      = Finset.range ⌈(0.9 : ℝ) * (N : ℝ)⌉₊ := by
    ext j
    simp only [Finset.mem_filter, Finset.mem_range, Nat.lt_ceil]
    constructor
    · exact fun h => h.2
    · exact fun h => ⟨lt_of_lt_of_le (Nat.lt_ceil.2 h) hceil, h⟩
  rw [hset, Finset.card_range]

theorem groundStep_draws_iff (L : Lib ℝ) (P : Params ℝ) (rnd : Nat → ℝ) (i : Nat)
    (t : DiskArrays ℝ) :
    (groundStep L P rnd i t).draws = t.draws + 6 ↔ (i : ℝ) < 0.9 * (P.groundParticleCount : ℝ) := by
  rw [mul_comm]
  by_cases hi : (i : ℝ) < (P.groundParticleCount : ℝ) * 0.9
  · simp only [(groundStep_spiral L P rnd i t hi).2, hi]
  · simp only [(groundStep_random L P rnd i t hi).2, hi, iff_false]
    omega

/-- C15: for `groundParticleCount = N > 0`, the indices below `N` with
`i < 0.9 * N` are `ceil(0.9 * N)` many, and the iteration `i` takes the spiral
branch (it makes six draws, not seven) exactly when `i < 0.9 * N`.  For such an
`i` the progress `p = i / (0.9 * N)` is in `[0, 1)`, the pushed `x` and `z` are
the polar point of the angle `p * 16 pi` and the radius `p * 25`, each with its
jitter added, and `radius = 25 / (16 pi) * angle`. -/
theorem spiral_branch_linear (L : Lib ℝ) (P : Params ℝ) (rnd : Nat → ℝ) (i : Nat)
    (t : DiskArrays ℝ) (hN : 0 < P.groundParticleCount) :
    (Finset.filter (fun j : Nat => (j : ℝ) < 0.9 * (P.groundParticleCount : ℝ))
        (Finset.range P.groundParticleCount)).card
      = ⌈(0.9 : ℝ) * (P.groundParticleCount : ℝ)⌉₊ ∧
    ((groundStep (realMath L) P rnd i t).draws = t.draws + 6 ↔
      (i : ℝ) < 0.9 * (P.groundParticleCount : ℝ)) ∧
    ((i : ℝ) < 0.9 * (P.groundParticleCount : ℝ) →
      0 ≤ (i : ℝ) / (0.9 * (P.groundParticleCount : ℝ)) ∧
      (i : ℝ) / (0.9 * (P.groundParticleCount : ℝ)) < 1 ∧
      (groundStep (realMath L) P rnd i t).positions = t.positions ++
        [Real.cos ((i : ℝ) / (0.9 * (P.groundParticleCount : ℝ)) * (16 * Real.pi)
              + (rnd (t.draws + 1) - 0.5) * 0.2)
            * max 0 ((i : ℝ) / (0.9 * (P.groundParticleCount : ℝ)) * 25
              + (rnd t.draws - 0.5) * 1.0),
         0 + (rnd (t.draws + 2) - 0.5) * 0.3,
         Real.sin ((i : ℝ) / (0.9 * (P.groundParticleCount : ℝ)) * (16 * Real.pi)
              + (rnd (t.draws + 1) - 0.5) * 0.2)
            * max 0 ((i : ℝ) / (0.9 * (P.groundParticleCount : ℝ)) * 25
              + (rnd t.draws - 0.5) * 1.0)] ∧
      (i : ℝ) / (0.9 * (P.groundParticleCount : ℝ)) * 25
        = 25 / (16 * Real.pi) * ((i : ℝ) / (0.9 * (P.groundParticleCount : ℝ)) * (16 * Real.pi))) := by
  refine ⟨spiral_count _, groundStep_draws_iff _ P rnd i t, fun hi => ?_⟩
  have hpos : (0 : ℝ) < 0.9 * (P.groundParticleCount : ℝ) := by
    have : (0 : ℝ) < (P.groundParticleCount : ℝ) := Nat.cast_pos.2 hN
    nlinarith
  refine ⟨div_nonneg (Nat.cast_nonneg i) (le_of_lt hpos), (div_lt_one hpos).2 hi, ?_, ?_⟩
  · have hi' : (i : ℝ) < (P.groundParticleCount : ℝ) * 0.9 := by rw [mul_comm]; exact hi
    rw [(groundStep_spiral (realMath L) P rnd i t hi').1]
    have e1 : (P.groundParticleCount : ℝ) * 0.9 = 0.9 * (P.groundParticleCount : ℝ) := mul_comm _ _
    have e2 : (8 : ℝ) * (realMath L).PI * 2 = 16 * Real.pi := by
      show (8 : ℝ) * Real.pi * 2 = 16 * Real.pi
      ring
    have e3 : (50 : ℝ) * 0.5 = 25 := by norm_num
    rw [e1, e2, e3]
    rfl
  · have hpi : (16 : ℝ) * Real.pi ≠ 0 := by
      have := Real.pi_pos
      nlinarith
    field_simp
    ring

/-- The theorem of C15 at the particle 0 of the default ground. -/
theorem spiral_branch_linear_witness :
    0 < (defaultParams : Params ℝ).groundParticleCount ∧
    ((0 : Nat) : ℝ) < 0.9 * ((defaultParams : Params ℝ).groundParticleCount : ℝ) ∧
    (Finset.filter (fun j : Nat => (j : ℝ) < 0.9 * ((defaultParams : Params ℝ).groundParticleCount : ℝ))
        (Finset.range (defaultParams : Params ℝ).groundParticleCount)).card
      = ⌈(0.9 : ℝ) * ((defaultParams : Params ℝ).groundParticleCount : ℝ)⌉₊ ∧
    (0 ≤ ((0 : Nat) : ℝ) / (0.9 * ((defaultParams : Params ℝ).groundParticleCount : ℝ)) ∧
      ((0 : Nat) : ℝ) / (0.9 * ((defaultParams : Params ℝ).groundParticleCount : ℝ)) < 1) :=
  have hN : 0 < (defaultParams : Params ℝ).groundParticleCount := by simp [defaultParams]
  have h0 : ((0 : Nat) : ℝ) < 0.9 * ((defaultParams : Params ℝ).groundParticleCount : ℝ) := by
    norm_num [defaultParams]
  have h := spiral_branch_linear flatLib defaultParams (fun _ => 1 / 2) 0 ⟨[], [], [], [], 0⟩ hN
  ⟨hN, h0, h.1, (h.2.2 h0).1, (h.2.2 h0).2.1⟩

/-! ## The random branch of the ground -/

theorem groundLoop_draws_spiral (L : Lib ℝ) (P : Params ℝ) (rnd : Nat → ℝ) (n : Nat)
    (hn : (n : ℝ) ≤ (P.groundParticleCount : ℝ) * 0.9) :
    (groundLoop L P rnd n).draws = 6 * n := by
  induction n with
  | zero => rfl
  | succ n ih =>
    have hlt : (n : ℝ) < (P.groundParticleCount : ℝ) * 0.9 := by
      have : ((n + 1 : Nat) : ℝ) = (n : ℝ) + 1 := by push_cast; ring
      rw [this] at hn
      linarith
    have h := (groundStep_spiral L P rnd n (groundLoop L P rnd n) hlt).2
    simp only [groundLoop, h, ih (le_of_lt hlt)]
    omega

/-- C16, amended: a ground particle of the remainder (`i >= 0.9 * N`) is the
point `(cos a * r + o, sin a * r + o)` with the radius `r` in `[0, 25)` and one
offset `o` in `[-5, 5)` added to both `x` and `z`.  So the point before the
offset is in the disk of radius 25, and the pushed point satisfies
`x^2 + z^2 <= (25 + 5 * sqrt 2)^2`. -/
theorem random_branch_offset_disk (L : Lib ℝ) (P : Params ℝ) (rnd : Nat → ℝ) (i : Nat)
    (t : DiskArrays ℝ) (hr : ∀ k, 0 ≤ rnd k ∧ rnd k < 1)
    (hi : 0.9 * (P.groundParticleCount : ℝ) ≤ (i : ℝ)) :
    (groundStep (realMath L) P rnd i t).positions = t.positions ++
        [Real.cos (rnd t.draws * Real.pi * 2) * (rnd (t.draws + 1) * 25)
            + (rnd (t.draws + 2) - 0.5) * 10,
         0 + (rnd (t.draws + 3) - 0.5) * 0.3,
         Real.sin (rnd t.draws * Real.pi * 2) * (rnd (t.draws + 1) * 25)
            + (rnd (t.draws + 2) - 0.5) * 10] ∧
    (0 ≤ rnd (t.draws + 1) * 25 ∧ rnd (t.draws + 1) * 25 < 25) ∧
    (-5 ≤ (rnd (t.draws + 2) - 0.5) * 10 ∧ (rnd (t.draws + 2) - 0.5) * 10 < 5) ∧
    (Real.cos (rnd t.draws * Real.pi * 2) * (rnd (t.draws + 1) * 25)) ^ 2
      + (Real.sin (rnd t.draws * Real.pi * 2) * (rnd (t.draws + 1) * 25)) ^ 2 ≤ 25 ^ 2 ∧
    (Real.cos (rnd t.draws * Real.pi * 2) * (rnd (t.draws + 1) * 25)
        + (rnd (t.draws + 2) - 0.5) * 10) ^ 2
      + (Real.sin (rnd t.draws * Real.pi * 2) * (rnd (t.draws + 1) * 25)
        + (rnd (t.draws + 2) - 0.5) * 10) ^ 2 ≤ (25 + 5 * Real.sqrt 2) ^ 2 := by
  have hi' : ¬ (i : ℝ) < (P.groundParticleCount : ℝ) * 0.9 := by
    rw [mul_comm]; exact not_lt.2 hi
  have hk1 := hr (t.draws + 1)
  have hk2 := hr (t.draws + 2)
  have hr0 : 0 ≤ rnd (t.draws + 1) * 25 := by nlinarith [hk1.1]
  have hr1 : rnd (t.draws + 1) * 25 < 25 := by nlinarith [hk1.2]
  have ho0 : -5 ≤ (rnd (t.draws + 2) - 0.5) * 10 := by nlinarith [hk2.1]
  have ho1 : (rnd (t.draws + 2) - 0.5) * 10 < 5 := by nlinarith [hk2.2]
  refine ⟨?_, ⟨hr0, hr1⟩, ⟨ho0, ho1⟩, ?_, ?_⟩
  · rw [(groundStep_random (realMath L) P rnd i t hi').1]
    have e3 : (50 : ℝ) * 0.5 = 25 := by norm_num
    rw [e3]
    rfl
  · have h : (Real.cos (rnd t.draws * Real.pi * 2) * (rnd (t.draws + 1) * 25)) ^ 2
        + (Real.sin (rnd t.draws * Real.pi * 2) * (rnd (t.draws + 1) * 25)) ^ 2
        = (rnd (t.draws + 1) * 25) ^ 2 := by
      have h' := Real.cos_sq_add_sin_sq (rnd t.draws * Real.pi * 2)
      have : (Real.cos (rnd t.draws * Real.pi * 2) * (rnd (t.draws + 1) * 25)) ^ 2
        + (Real.sin (rnd t.draws * Real.pi * 2) * (rnd (t.draws + 1) * 25)) ^ 2
        = (Real.cos (rnd t.draws * Real.pi * 2) ^ 2 + Real.sin (rnd t.draws * Real.pi * 2) ^ 2)
          * (rnd (t.draws + 1) * 25) ^ 2 := by ring
      rw [this, h', one_mul]
    rw [h]
    nlinarith
  · exact offset_sq_bound _ _ _ _ (Real.cos_sq_add_sin_sq _) hr0 (le_of_lt hr1) ho0 (le_of_lt ho1)

/-! ## Runs of the ground generator -/

/-- The theorem of C14 at the particle 0 of the default ground with all draws
equal to 1/2. -/
theorem ground_distance_bound_witness :
    (∀ k : Nat, 0 ≤ (fun _ : Nat => (1 / 2 : ℝ)) k ∧ (fun _ : Nat => (1 / 2 : ℝ)) k < 1) ∧
    0 < (defaultParams : Params ℝ).groundParticleCount ∧
    ∃ x y z : ℝ,
      (createGroundParticles (realMath flatLib) defaultParams (fun _ => 1 / 2)).positions[3 * 0]?
        = some x ∧
      (createGroundParticles (realMath flatLib) defaultParams (fun _ => 1 / 2)).positions[3 * 0 + 1]?
        = some y ∧
      (createGroundParticles (realMath flatLib) defaultParams (fun _ => 1 / 2)).positions[3 * 0 + 2]?
        = some z ∧
      Real.sqrt (x ^ 2 + z ^ 2) ≤ 25 + 5 * Real.sqrt 2 ∧
      (((0 : Nat) : ℝ) < 0.9 * (defaultParams : Params ℝ).groundParticleCount →
        Real.sqrt (x ^ 2 + z ^ 2) ≤ 25 + 0.5) :=
  have hr : ∀ k : Nat, 0 ≤ (fun _ : Nat => (1 / 2 : ℝ)) k ∧ (fun _ : Nat => (1 / 2 : ℝ)) k < 1 :=
    fun _ => by norm_num
  have hN : 0 < (defaultParams : Params ℝ).groundParticleCount := by simp [defaultParams]
  ⟨hr, hN, ground_distance_bound flatLib defaultParams (fun _ => 1 / 2) hr 0 hN⟩

theorem offsetDraws_unit (k : Nat) : 0 ≤ (offsetDraws k : ℝ) ∧ (offsetDraws k : ℝ) < 1 := by
  unfold offsetDraws
  split_ifs <;> norm_num

/-- C16, counterexample: with the default 16000 ground particles and the draws
`offsetDraws`, all in `[0, 1)`, the particle 14400 (the first of the remainder,
`0.9 * 16000 <= 14400`) is pushed at `x = 28`, `z = 4`, outside the disk of
radius 25. -/
theorem remainder_particle_outside_disk :
    (∀ k : Nat, 0 ≤ (offsetDraws k : ℝ) ∧ (offsetDraws k : ℝ) < 1) ∧
    (0.9 : ℝ) * ((defaultParams : Params ℝ).groundParticleCount : ℝ) ≤ ((14400 : Nat) : ℝ) ∧
    (createGroundParticles (realMath flatLib) defaultParams offsetDraws).positions[3 * 14400]?
      = some (28 : ℝ) ∧
    (createGroundParticles (realMath flatLib) defaultParams offsetDraws).positions[3 * 14400 + 2]?
      = some (4 : ℝ) ∧
    ¬ ((28 : ℝ) ^ 2 + 4 ^ 2 ≤ 25 ^ 2) := by
  have hd : (groundLoop (realMath flatLib) (defaultParams : Params ℝ) offsetDraws 14400).draws
      = 86400 := by
    rw [groundLoop_draws_spiral _ _ _ 14400 (by norm_num [defaultParams])]
  have hsp : ¬ ((14400 : Nat) : ℝ) < ((defaultParams : Params ℝ).groundParticleCount : ℝ) * 0.9 := by
    norm_num [defaultParams]
  have hpos := (groundStep_random (realMath flatLib) (defaultParams : Params ℝ) offsetDraws 14400
    (groundLoop (realMath flatLib) defaultParams offsetDraws 14400) hsp).1
  have hi : 14400 < (defaultParams : Params ℝ).groundParticleCount := by simp [defaultParams]
  obtain ⟨h1, _, h3⟩ := ground_particle (realMath flatLib) (defaultParams : Params ℝ) offsetDraws
    14400 hi hpos
  rw [hd] at h1 h3
  have hx : (realMath flatLib).cos ((offsetDraws 86400 : ℝ) * (realMath flatLib).PI * 2)
      * ((offsetDraws (86400 + 1) : ℝ) * (50 * 0.5)) + ((offsetDraws (86400 + 2) : ℝ) - 0.5) * 10
      = 28 := by
    show Real.cos ((offsetDraws 86400 : ℝ) * Real.pi * 2)
      * ((offsetDraws (86400 + 1) : ℝ) * (50 * 0.5)) + ((offsetDraws (86400 + 2) : ℝ) - 0.5) * 10
      = 28
    simp only [offsetDraws]
    norm_num
  have hz : (realMath flatLib).sin ((offsetDraws 86400 : ℝ) * (realMath flatLib).PI * 2)
      * ((offsetDraws (86400 + 1) : ℝ) * (50 * 0.5)) + ((offsetDraws (86400 + 2) : ℝ) - 0.5) * 10
      = 4 := by
    show Real.sin ((offsetDraws 86400 : ℝ) * Real.pi * 2)
      * ((offsetDraws (86400 + 1) : ℝ) * (50 * 0.5)) + ((offsetDraws (86400 + 2) : ℝ) - 0.5) * 10
      = 4
    simp only [offsetDraws]
    norm_num
  rw [hx] at h1
  rw [hz] at h3
  refine ⟨offsetDraws_unit, by norm_num [defaultParams], h1, h3, by norm_num⟩

/-- The amended theorem of C16 at the particle 14400 of the default ground with
all draws equal to 1/2. -/
theorem random_branch_offset_disk_witness :
    (∀ k : Nat, 0 ≤ (fun _ : Nat => (1 / 2 : ℝ)) k ∧ (fun _ : Nat => (1 / 2 : ℝ)) k < 1) ∧
    (0.9 : ℝ) * ((defaultParams : Params ℝ).groundParticleCount : ℝ) ≤ ((14400 : Nat) : ℝ) ∧
    (Real.cos ((1 / 2 : ℝ) * Real.pi * 2) * ((1 / 2 : ℝ) * 25) + ((1 / 2 : ℝ) - 0.5) * 10) ^ 2
      + (Real.sin ((1 / 2 : ℝ) * Real.pi * 2) * ((1 / 2 : ℝ) * 25) + ((1 / 2 : ℝ) - 0.5) * 10) ^ 2
      ≤ (25 + 5 * Real.sqrt 2) ^ 2 :=
  have hr : ∀ k : Nat, 0 ≤ (fun _ : Nat => (1 / 2 : ℝ)) k ∧ (fun _ : Nat => (1 / 2 : ℝ)) k < 1 :=
    fun _ => by norm_num
  have hi : (0.9 : ℝ) * ((defaultParams : Params ℝ).groundParticleCount : ℝ) ≤ ((14400 : Nat) : ℝ) := by
    norm_num [defaultParams]
  ⟨hr, hi, (random_branch_offset_disk flatLib defaultParams (fun _ => 1 / 2) 14400
    ⟨[], [], [], [], 0⟩ hr hi).2.2.2.2⟩

/-! ## The star -/

section Star
variable {α : Type} [LinearOrderedField α] [FloorRing α]

theorem star_weights (u v : α) (hu : 0 ≤ u ∧ u < 1) (hv : 0 ≤ v ∧ v < 1) :
    0 ≤ 1 - u - (if u + v > 1 then 1 - u else v) ∧ 0 ≤ u ∧
    0 ≤ (if u + v > 1 then 1 - u else v) ∧
    (1 - u - (if u + v > 1 then 1 - u else v)) + u + (if u + v > 1 then 1 - u else v) = 1 := by
  refine ⟨?_, hu.1, ?_, by ring⟩
  · split_ifs with h
    · simp
    · have := not_lt.1 h
      linarith
  · split_ifs with h
    · linarith [hu.2]
    · exact hv.1

theorem starStep_wedge (L : Lib α) (P : Params α) (rnd : Nat → α) (t : DiskArrays α)
    (hw : rnd t.draws < 0.6) :
    (starStep L P rnd t).positions = t.positions ++
      [(rnd (t.draws + 4) - 0.5) * 0.3,
       (P.treeHeight + 2.0) +
        ((starWedge L (rnd (t.draws + 1))).1.y
            * (1 - rnd (t.draws + 2)
                - (if rnd (t.draws + 2) + rnd (t.draws + 3) > 1 then 1 - rnd (t.draws + 2)
                    else rnd (t.draws + 3)))
          + (starWedge L (rnd (t.draws + 1))).2.1.y * rnd (t.draws + 2)
          + (starWedge L (rnd (t.draws + 1))).2.2.y
            * (if rnd (t.draws + 2) + rnd (t.draws + 3) > 1 then 1 - rnd (t.draws + 2)
                else rnd (t.draws + 3))),
       (starWedge L (rnd (t.draws + 1))).1.z
            * (1 - rnd (t.draws + 2)
                - (if rnd (t.draws + 2) + rnd (t.draws + 3) > 1 then 1 - rnd (t.draws + 2)
                    else rnd (t.draws + 3)))
          + (starWedge L (rnd (t.draws + 1))).2.1.z * rnd (t.draws + 2)
          + (starWedge L (rnd (t.draws + 1))).2.2.z
            * (if rnd (t.draws + 2) + rnd (t.draws + 3) > 1 then 1 - rnd (t.draws + 2)
                else rnd (t.draws + 3))] := by
  simp only [starStep, if_pos hw]

theorem convex_triple_mem (a b c : α × α) (t1 t2 t3 : α) (h1 : 0 ≤ t1) (h2 : 0 ≤ t2)
    (h3 : 0 ≤ t3) (hs : t1 + t2 + t3 = 1) :
    (a.1 * t1 + b.1 * t2 + c.1 * t3, a.2 * t1 + b.2 * t2 + c.2 * t3)
      ∈ convexHull α ({a, b, c} : Set (α × α)) := by
  have hc := convex_convexHull α ({a, b, c} : Set (α × α))
  have ha : a ∈ convexHull α ({a, b, c} : Set (α × α)) := subset_convexHull α _ (by simp)
  have hb : b ∈ convexHull α ({a, b, c} : Set (α × α)) := subset_convexHull α _ (by simp)
  have hcc : c ∈ convexHull α ({a, b, c} : Set (α × α)) := subset_convexHull α _ (by simp)
  have h := hc.sum_mem (t := (Finset.univ : Finset (Fin 3))) (w := ![t1, t2, t3])
    (z := ![a, b, c])
    (by intro i _; fin_cases i <;> simp [h1, h2, h3])
    (by simp [Fin.sum_univ_three, hs])
    (by intro i _; fin_cases i <;> simp [ha, hb, hcc])
  have he : (∑ i : Fin 3, (![t1, t2, t3] : Fin 3 → α) i • (![a, b, c] : Fin 3 → α × α) i)
      = (a.1 * t1 + b.1 * t2 + c.1 * t3, a.2 * t1 + b.2 * t2 + c.2 * t3) := by
    simp [Fin.sum_univ_three, Prod.ext_iff]
    constructor <;> ring
  rw [he] at h
  exact h

theorem floor_ten (r : α) (hr : 0 ≤ r ∧ r < 1) : 0 ≤ ⌊r * 10⌋ ∧ ⌊r * 10⌋ < 10 := by
  constructor
  · exact Int.floor_nonneg.2 (by nlinarith [hr.1])
  · rw [Int.floor_lt]
    push_cast
    nlinarith [hr.2]
end Star

/-- C17: in the wedge branch of the star generator (`rand < 0.6`), for draws in
`[0, 1)` the weights `t1 = 1 - u - w`, `t2 = u`, `t3 = w` (with `w = 1 - u` when
`u + v > 1` and `w = v` otherwise) are non-negative and sum to 1, the segment
`floor(r * 10)` is one of the ten wedges, and the pushed `(y, z)` (before the
star height is added to `y`) is that combination of the wedge vertices `p1`,
`p2`, `p3`: a point of their convex hull, the triangle. -/
theorem star_wedge_convex {α : Type} [LinearOrderedField α] [FloorRing α]
    (L : Lib α) (P : Params α) (rnd : Nat → α) (t : DiskArrays α)
    (hr : ∀ k, 0 ≤ rnd k ∧ rnd k < 1) (hw : rnd t.draws < 0.6) :
    ∃ t1 t2 t3 : α,
      t2 = rnd (t.draws + 2) ∧
      t3 = (if rnd (t.draws + 2) + rnd (t.draws + 3) > 1 then 1 - rnd (t.draws + 2)
              else rnd (t.draws + 3)) ∧
      t1 = 1 - rnd (t.draws + 2) - t3 ∧
      0 ≤ t1 ∧ 0 ≤ t2 ∧ 0 ≤ t3 ∧ t1 + t2 + t3 = 1 ∧
      (0 ≤ ⌊rnd (t.draws + 1) * 10⌋ ∧ ⌊rnd (t.draws + 1) * 10⌋ < 10) ∧
      ∃ y z : α,
        (starStep L P rnd t).positions = t.positions ++
          [(rnd (t.draws + 4) - 0.5) * 0.3, (P.treeHeight + 2.0) + y, z] ∧
        y = (starWedge L (rnd (t.draws + 1))).1.y * t1
              + (starWedge L (rnd (t.draws + 1))).2.1.y * t2
              + (starWedge L (rnd (t.draws + 1))).2.2.y * t3 ∧
        z = (starWedge L (rnd (t.draws + 1))).1.z * t1
              + (starWedge L (rnd (t.draws + 1))).2.1.z * t2
              + (starWedge L (rnd (t.draws + 1))).2.2.z * t3 ∧
        (y, z) ∈ convexHull α
          ({((starWedge L (rnd (t.draws + 1))).1.y, (starWedge L (rnd (t.draws + 1))).1.z),
            ((starWedge L (rnd (t.draws + 1))).2.1.y, (starWedge L (rnd (t.draws + 1))).2.1.z),
            ((starWedge L (rnd (t.draws + 1))).2.2.y, (starWedge L (rnd (t.draws + 1))).2.2.z)}
            : Set (α × α)) := by
  obtain ⟨h1, h2, h3, hs⟩ := star_weights (rnd (t.draws + 2)) (rnd (t.draws + 3))
    (hr (t.draws + 2)) (hr (t.draws + 3))
  refine ⟨_, _, _, rfl, rfl, rfl, h1, h2, h3, hs, floor_ten _ (hr (t.draws + 1)), _, _,
    starStep_wedge L P rnd t hw, rfl, rfl, ?_⟩
  exact convex_triple_mem
    ((starWedge L (rnd (t.draws + 1))).1.y, (starWedge L (rnd (t.draws + 1))).1.z)
    ((starWedge L (rnd (t.draws + 1))).2.1.y, (starWedge L (rnd (t.draws + 1))).2.1.z)
    ((starWedge L (rnd (t.draws + 1))).2.2.y, (starWedge L (rnd (t.draws + 1))).2.2.z)
    _ _ _ h1 h2 h3 hs

/-- The theorem of C17 at the first star particle with all draws equal to 1/2. -/
theorem star_wedge_convex_witness :
    (∀ k : Nat, 0 ≤ (fun _ : Nat => (1 / 2 : ℚ)) k ∧ (fun _ : Nat => (1 / 2 : ℚ)) k < 1) ∧
    (fun _ : Nat => (1 / 2 : ℚ)) (0 : Nat) < 0.6 ∧
    ∃ t1 t2 t3 : ℚ, t2 = 1 / 2 ∧ 0 ≤ t1 ∧ 0 ≤ t2 ∧ 0 ≤ t3 ∧ t1 + t2 + t3 = 1 :=
  have hr : ∀ k : Nat, 0 ≤ (fun _ : Nat => (1 / 2 : ℚ)) k ∧ (fun _ : Nat => (1 / 2 : ℚ)) k < 1 :=
    fun _ => by norm_num
  have hw : (fun _ : Nat => (1 / 2 : ℚ)) (0 : Nat) < 0.6 := by norm_num
  ⟨hr, hw,
    match star_wedge_convex (flatLib : Lib ℚ) defaultParams (fun _ => 1 / 2)
      ⟨[], [], [], [], 0⟩ hr hw with
    | ⟨t1, t2, t3, e2, _, _, h1, h2, h3, hs, _⟩ => ⟨t1, t2, t3, e2, h1, h2, h3, hs⟩⟩

/-! ## The wrap of the snow -/

section Snow
variable {α : Type} [LinearOrderedField α] [FloorRing α]

theorem glslMod_range (x y : α) (hy : 0 < y) : 0 ≤ glslMod x y ∧ glslMod x y < y := by
  have h1 : ((⌊x / y⌋ : ℤ) : α) ≤ x / y := Int.floor_le _
  have h2 : x / y < ((⌊x / y⌋ : ℤ) : α) + 1 := Int.lt_floor_add_one _
  have hx : x = y * (x / y) := by field_simp
  unfold glslMod
  constructor
  · have : y * ((⌊x / y⌋ : ℤ) : α) ≤ y * (x / y) := mul_le_mul_of_nonneg_left h1 (le_of_lt hy)
    linarith
  · have : y * (x / y) < y * (((⌊x / y⌋ : ℤ) : α) + 1) := mul_lt_mul_of_pos_left h2 hy
    linarith

theorem snowStep_arrays (L : Lib α) (P : Params α) (rnd : Nat → α) (i : Nat) (t : SnowArrays α) :
    (snowStep L P rnd i t).positions = t.positions ++
      [(rnd (9 * i) - 0.5) * 40, rnd (9 * i + 1) * 30, (rnd (9 * i + 2) - 0.5) * 40] ∧
    (snowStep L P rnd i t).velocities = t.velocities ++
      [(rnd (9 * i + 5) - 0.5) * 0.05, -(rnd (9 * i + 6)) * 0.1 - 0.05,
        (rnd (9 * i + 7) - 0.5) * 0.05] :=
  ⟨rfl, rfl⟩

theorem snowLoop_extends (L : Lib α) (P : Params α) (rnd : Nat → α) (i n : Nat) (h : i ≤ n) :
    (∃ r, (snowLoop L P rnd n).positions = (snowLoop L P rnd i).positions ++ r) ∧
    ∃ r, (snowLoop L P rnd n).velocities = (snowLoop L P rnd i).velocities ++ r := by
  induction n with
  | zero =>
    have : i = 0 := by omega
    subst this
    exact ⟨⟨[], (List.append_nil _).symm⟩, ⟨[], (List.append_nil _).symm⟩⟩
  | succ n ih =>
    rcases Nat.lt_or_ge i (n + 1) with h' | h'
    · obtain ⟨⟨r1, ih1⟩, r2, ih2⟩ := ih (by omega)
      obtain ⟨hs1, hs2⟩ := snowStep_arrays L P rnd n (snowLoop L P rnd n)
      refine ⟨⟨r1 ++ [(rnd (9 * n) - 0.5) * 40, rnd (9 * n + 1) * 30, (rnd (9 * n + 2) - 0.5) * 40],
          ?_⟩,
        ⟨r2 ++ [(rnd (9 * n + 5) - 0.5) * 0.05, -(rnd (9 * n + 6)) * 0.1 - 0.05,
          (rnd (9 * n + 7) - 0.5) * 0.05], ?_⟩⟩
      · simp only [snowLoop, hs1, ih1, List.append_assoc]
      · simp only [snowLoop, hs2, ih2, List.append_assoc]
    · have : i = n + 1 := by omega
      subst this
      exact ⟨⟨[], (List.append_nil _).symm⟩, ⟨[], (List.append_nil _).symm⟩⟩

/-- The first particle of the snow: its position and its velocity come from
the draws 0 to 7. -/
theorem snow_first_particle (L : Lib α) (P : Params α) (rnd : Nat → α)
    (hN : 0 < P.snowParticleCount) :
    ((createSnowParticles L P rnd).positions[0]? = some ((rnd 0 - 0.5) * 40) ∧
     (createSnowParticles L P rnd).positions[1]? = some (rnd 1 * 30) ∧
     (createSnowParticles L P rnd).positions[2]? = some ((rnd 2 - 0.5) * 40)) ∧
    ((createSnowParticles L P rnd).velocities[0]? = some ((rnd 5 - 0.5) * 0.05) ∧
     (createSnowParticles L P rnd).velocities[1]? = some (-(rnd 6) * 0.1 - 0.05) ∧
     (createSnowParticles L P rnd).velocities[2]? = some ((rnd 7 - 0.5) * 0.05)) := by
  obtain ⟨⟨r1, hp⟩, r2, hv⟩ := snowLoop_extends L P rnd 1 P.snowParticleCount hN
  exact ⟨getElem?_of_append_triple (l := []) rfl hp,
    getElem?_of_append_triple (l := []) rfl hv⟩
end Snow

/-- C18, amended: for every time, start position and velocity, the position
after the wrap of the snow vertex shader (before the spin about the vertical
axis) has `x` and `z` in `[-20, 20)` and `y` in `[0, 35)`: the wrap period of the
height is 35, not the height 30 of the box of generation. -/
theorem snow_wrap_box {α : Type} [LinearOrderedField α] [FloorRing α]
    (time : α) (position velocity : Vec3 α) :
    (-20 ≤ (snowWrap time position velocity).x ∧ (snowWrap time position velocity).x < 20) ∧
    (0 ≤ (snowWrap time position velocity).y ∧ (snowWrap time position velocity).y < 35) ∧
    (-20 ≤ (snowWrap time position velocity).z ∧ (snowWrap time position velocity).z < 20) := by
  have h35 : (0 : α) < 35.0 := by norm_num
  have h40 : (0 : α) < 40.0 := by norm_num
  have e35 : (35.0 : α) = 35 := by norm_num
  have e40 : (40.0 : α) = 40 := by norm_num
  have e20 : (20.0 : α) = 20 := by norm_num
  simp only [snowWrap]
  refine ⟨?_, ?_, ?_⟩
  · have h := glslMod_range (position.x + velocity.x * glslMod (time * 10.0) 100.0 + 20.0) 40.0 h40
    rw [e20]
    rw [e40] at h ⊢
    constructor <;> linarith [h.1, h.2]
  · have h := glslMod_range (position.y + velocity.y * glslMod (time * 10.0) 100.0 + 35.0) 35.0 h35
    rw [e35] at h ⊢
    exact h
  · have h := glslMod_range (position.z + velocity.z * glslMod (time * 10.0) 100.0 + 20.0) 40.0 h40
    rw [e20]
    rw [e40] at h ⊢
    constructor <;> linarith [h.1, h.2]

theorem glslMod_eq {α : Type} [LinearOrderedField α] [FloorRing α] (x y : α) (n : ℤ)
    (h : (n : α) ≤ x / y ∧ x / y < (n : α) + 1) : glslMod x y = x - y * (n : α) := by
  unfold glslMod
  rw [Int.floor_eq_iff.2 h]

/-- C18, counterexample: with all draws 0 the first snow particle starts at
`(-20, 0, -20)` with the velocity `(-1/40, -1/20, -1/40)`; at the time 2 the
wrap puts it at the height 34, above the box of generation `[0, 30)`. -/
theorem snow_wrap_above_generation_box :
    (0 : ℚ) ≤ 2 ∧
    (∀ k : Nat, 0 ≤ (fun _ : Nat => (0 : ℚ)) k ∧ (fun _ : Nat => (0 : ℚ)) k < 1) ∧
    ((createSnowParticles (flatLib : Lib ℚ) defaultParams (fun _ => 0)).positions[0]? = some (-20 : ℚ) ∧
     (createSnowParticles (flatLib : Lib ℚ) defaultParams (fun _ => 0)).positions[1]? = some (0 : ℚ) ∧
     (createSnowParticles (flatLib : Lib ℚ) defaultParams (fun _ => 0)).positions[2]? = some (-20 : ℚ)) ∧
    ((createSnowParticles (flatLib : Lib ℚ) defaultParams (fun _ => 0)).velocities[0]?
        = some (-1 / 40 : ℚ) ∧
     (createSnowParticles (flatLib : Lib ℚ) defaultParams (fun _ => 0)).velocities[1]?
        = some (-1 / 20 : ℚ) ∧
     (createSnowParticles (flatLib : Lib ℚ) defaultParams (fun _ => 0)).velocities[2]?
        = some (-1 / 40 : ℚ)) ∧
    snowWrap (2 : ℚ) ⟨-20, 0, -20⟩ ⟨-1 / 40, -1 / 20, -1 / 40⟩ = ⟨39 / 2, 34, 39 / 2⟩ ∧
    ¬ ((34 : ℚ) < 30) := by
  have hN : 0 < (defaultParams : Params ℚ).snowParticleCount := by decide
  obtain ⟨⟨p0, p1, p2⟩, v0, v1, v2⟩ :=
    snow_first_particle (flatLib : Lib ℚ) defaultParams (fun _ => 0) hN
  have hm : glslMod ((2 : ℚ) * 10.0) 100.0 = 20 := by
    rw [glslMod_eq _ _ 0 (by norm_num)]; norm_num
  have hy : glslMod ((0 : ℚ) + -1 / 20 * 20 + 35.0) 35.0 = 34 := by
    rw [glslMod_eq _ _ 0 (by norm_num)]; norm_num
  have hx : glslMod ((-20 : ℚ) + -1 / 40 * 20 + 20.0) 40.0 = 79 / 2 := by
    rw [glslMod_eq _ _ (-1) (by norm_num)]; norm_num
  refine ⟨by norm_num, fun _ => by norm_num, ⟨?_, ?_, ?_⟩, ⟨?_, ?_, ?_⟩, ?_, by norm_num⟩
  · rw [p0]; norm_num
  · rw [p1]; norm_num
  · rw [p2]; norm_num
  · rw [v0]; norm_num
  · rw [v1]; norm_num
  · rw [v2]; norm_num
  · simp only [snowWrap, hm, hy, hx]
    norm_num

/-! ## The guard of restoreImage and the size sliders -/

/-- C19: when the panel `id` lacks a saved `originalLocalPosition` or
`originalLocalRotation`, `restoreImage` (with `animate` true or false) returns
the state it was called in: no animation is queued, and the heap (parent,
position, rotation, scale and `isEnlarged` of every panel) and `enlargedImage`
are unchanged. -/
theorem restore_without_saved_transform_aborts {α : Type} [LinearOrderedField α]
    (now : α) (id : Nat) (animate : Bool) (s : State α) (d : ImageData α)
    (hd : s.heap[id]? = some d)
    (h : d.originalLocalPosition = none ∨ d.originalLocalRotation = none) :
    restoreImage now id animate s = s ∧
    (restoreImage now id animate s).callbacks = s.callbacks ∧
    (restoreImage now id animate s).heap = s.heap ∧
    (restoreImage now id animate s).enlargedImage = s.enlargedImage := by
  have he : restoreImage now id animate s = s := by
    unfold restoreImage
    rw [hd]
    rcases h with h | h
    · simp only [h]
    · simp only [h]
      cases d.originalLocalPosition <;> rfl
  rw [he]
  exact ⟨rfl, rfl, rfl, rfl⟩

/-- The theorem of C19 in a state whose only panel has no saved local position. -/
theorem restore_without_saved_transform_aborts_witness :
    ({ heap := [{ createImageData (flatLib : Lib ℚ) defaultParams 0 1 0 with
                    originalLocalPosition := none }],
       imageMeshes := [0], imageRing := 0, ringRotationY := 0, enlargedImage := some 0,
       callbacks := [] } : State ℚ).heap[0]?
      = some { createImageData (flatLib : Lib ℚ) defaultParams 0 1 0 with
                originalLocalPosition := none } ∧
    restoreImage (0 : ℚ) 0 true
      { heap := [{ createImageData (flatLib : Lib ℚ) defaultParams 0 1 0 with
                    originalLocalPosition := none }],
        imageMeshes := [0], imageRing := 0, ringRotationY := 0, enlargedImage := some 0,
        callbacks := [] }
      = { heap := [{ createImageData (flatLib : Lib ℚ) defaultParams 0 1 0 with
                    originalLocalPosition := none }],
          imageMeshes := [0], imageRing := 0, ringRotationY := 0, enlargedImage := some 0,
          callbacks := [] } :=
  ⟨rfl, (restore_without_saved_transform_aborts (0 : ℚ) 0 true
    { heap := [{ createImageData (flatLib : Lib ℚ) defaultParams 0 1 0 with
                  originalLocalPosition := none }],
      imageMeshes := [0], imageRing := 0, ringRotationY := 0, enlargedImage := some 0,
      callbacks := [] }
    { createImageData (flatLib : Lib ℚ) defaultParams 0 1 0 with originalLocalPosition := none }
    rfl (Or.inl rfl)).1⟩

/-- C20: for every value `v`, the `input` listener of the tree size slider sets
`params.particleSize` and the `pointSize` uniform of the tree to `v`, and leaves
`params.particleCount`, the attribute arrays of the tree and the other groups
unchanged; the same holds for the ground, snow and star size sliders with their
parameter and their group. -/
theorem size_sliders_keep_geometry {α : Type} (v : α) (sc : Scene α) :
    ((sizeSliderInput v sc).params.particleSize = v ∧
     (sizeSliderInput v sc).params.particleCount = sc.params.particleCount ∧
     (sizeSliderInput v sc).particleSystem.map (fun p => p.pointSize)
        = sc.particleSystem.map (fun _ => v) ∧
     (sizeSliderInput v sc).particleSystem.map (fun p => p.geometry)
        = sc.particleSystem.map (fun p => p.geometry) ∧
     (sizeSliderInput v sc).groundParticles = sc.groundParticles ∧
     (sizeSliderInput v sc).snowParticles = sc.snowParticles ∧
     (sizeSliderInput v sc).starParticles = sc.starParticles) ∧
    ((groundSizeSliderInput v sc).params.groundParticleSize = v ∧
     (groundSizeSliderInput v sc).params.groundParticleCount = sc.params.groundParticleCount ∧
     (groundSizeSliderInput v sc).groundParticles.map (fun p => p.pointSize)
        = sc.groundParticles.map (fun _ => v) ∧
     (groundSizeSliderInput v sc).groundParticles.map (fun p => p.geometry)
        = sc.groundParticles.map (fun p => p.geometry) ∧
     (groundSizeSliderInput v sc).particleSystem = sc.particleSystem ∧
     (groundSizeSliderInput v sc).snowParticles = sc.snowParticles ∧
     (groundSizeSliderInput v sc).starParticles = sc.starParticles) ∧
    ((snowSizeSliderInput v sc).params.snowParticleSize = v ∧
     (snowSizeSliderInput v sc).params.snowParticleCount = sc.params.snowParticleCount ∧
     (snowSizeSliderInput v sc).snowParticles.map (fun p => p.pointSize)
        = sc.snowParticles.map (fun _ => v) ∧
     (snowSizeSliderInput v sc).snowParticles.map (fun p => p.geometry)
        = sc.snowParticles.map (fun p => p.geometry) ∧
     (snowSizeSliderInput v sc).particleSystem = sc.particleSystem ∧
     (snowSizeSliderInput v sc).groundParticles = sc.groundParticles ∧
     (snowSizeSliderInput v sc).starParticles = sc.starParticles) ∧
    ((starSizeSliderInput v sc).params.starParticleSize = v ∧
     (starSizeSliderInput v sc).params.starParticleCount = sc.params.starParticleCount ∧
     (starSizeSliderInput v sc).starParticles.map (fun p => p.pointSize)
        = sc.starParticles.map (fun _ => v) ∧
     (starSizeSliderInput v sc).starParticles.map (fun p => p.geometry)
        = sc.starParticles.map (fun p => p.geometry) ∧
     (starSizeSliderInput v sc).particleSystem = sc.particleSystem ∧
     (starSizeSliderInput v sc).groundParticles = sc.groundParticles ∧
     (starSizeSliderInput v sc).snowParticles = sc.snowParticles) := by
  rcases sc with ⟨params, tree, ground, snow, star⟩
  refine ⟨?_, ?_, ?_, ?_⟩
  · cases tree <;> simp [sizeSliderInput]
  · cases ground <;> simp [groundSizeSliderInput]
  · cases snow <;> simp [snowSizeSliderInput]
  · cases star <;> simp [starSizeSliderInput]

/-! ## The opacity of the vertex shaders -/

section Opacity
variable {α : Type} [LinearOrderedField α]

theorem smoothstep_far_inside (d : α) (h0 : 0 ≤ d) (h1 : d ≤ 50) :
    smoothstep 0.0 50.0 d = (d / 50) * (d / 50) * (3 - 2 * (d / 50)) := by
  have e0 : (0.0 : α) = 0 := by norm_num
  have e1 : (1.0 : α) = 1 := by norm_num
  have e50 : (50.0 : α) = 50 := by norm_num
  have e3 : (3.0 : α) = 3 := by norm_num
  have e2 : (2.0 : α) = 2 := by norm_num
  have ht0 : 0 ≤ d / 50 := div_nonneg h0 (by norm_num)
  have ht1 : d / 50 ≤ 1 := (div_le_one (by norm_num)).2 h1
  simp only [smoothstep, glslClamp, e0, e1, e50, e3, e2, sub_zero, max_eq_left ht0,
    min_eq_left ht1]

theorem smoothstep_beyond (d : α) (h : 50 ≤ d) : smoothstep 0.0 50.0 d = 1 := by
  have e0 : (0.0 : α) = 0 := by norm_num
  have e1 : (1.0 : α) = 1 := by norm_num
  have e50 : (50.0 : α) = 50 := by norm_num
  have e3 : (3.0 : α) = 3 := by norm_num
  have e2 : (2.0 : α) = 2 := by norm_num
  have ht1 : 1 ≤ d / 50 := (one_le_div (by norm_num)).2 h
  have ht0 : 0 ≤ d / 50 := le_trans zero_le_one ht1
  simp only [smoothstep, glslClamp, e0, e1, e50, e3, e2, sub_zero, max_eq_left ht0,
    min_eq_right ht1]
  norm_num

/-- C24, amended: the opacity of the vertex shaders is `1 - smoothstep(0, 50, d)`,
the cubic `1 - t^2 (3 - 2 t)` of `t = d / 50` for a view distance `d` in
`[0, 50]`, and 0 for a distance `e >= 50`.  It is 1 at the distance 0, stays in
`[0, 1]`, and differs from the linear ramp `1 - d / 50` by
`t (1 - t) (1 - 2 t)`: it is above the ramp before the distance 25 and below it
after.  The snow multiplies the same value by 0.8. -/
theorem vertex_alpha_smoothstep (d e : α) (h0 : 0 ≤ d) (h1 : d ≤ 50) (he : 50 ≤ e) :
    vertexAlpha d = 1 - (d / 50) * (d / 50) * (3 - 2 * (d / 50)) ∧
    vertexAlpha e = 0 ∧
    vertexAlpha (0 : α) = 1 ∧
    (0 ≤ vertexAlpha d ∧ vertexAlpha d ≤ 1) ∧
    vertexAlpha d - (1 - d / 50) = (d / 50) * (1 - d / 50) * (1 - 2 * (d / 50)) ∧
    snowVertexAlpha d = vertexAlpha d * 0.8 ∧ snowVertexAlpha e = 0 := by
  have e1 : (1.0 : α) = 1 := by norm_num
  have ht0 : 0 ≤ d / 50 := div_nonneg h0 (by norm_num)
  have ht1 : d / 50 ≤ 1 := (div_le_one (by norm_num)).2 h1
  have hd : vertexAlpha d = 1 - (d / 50) * (d / 50) * (3 - 2 * (d / 50)) := by
    simp only [vertexAlpha, smoothstep_far_inside d h0 h1, e1]
  have hE : vertexAlpha e = 0 := by
    simp only [vertexAlpha, smoothstep_beyond e he, e1]
    norm_num
  refine ⟨hd, hE, ?_, ⟨?_, ?_⟩, ?_, rfl, ?_⟩
  · have hz := smoothstep_far_inside (0 : α) (le_refl 0) (by norm_num)
    show 1.0 - smoothstep 0.0 50.0 (0 : α) = 1
    rw [hz]
    norm_num
  · rw [hd]
    nlinarith [mul_nonneg ht0 ht0, mul_nonneg (mul_nonneg ht0 ht0) (sub_nonneg.2 ht1),
      mul_nonneg (sub_nonneg.2 ht1) (sub_nonneg.2 ht1)]
  · rw [hd]
    nlinarith [mul_nonneg ht0 ht0]
  · rw [hd]; ring
  · simp only [snowVertexAlpha, smoothstep_beyond e he, e1]
    norm_num
end Opacity

/-- The amended theorem of C24 at the distances 25/2 and 60. -/
theorem vertex_alpha_smoothstep_witness :
    (0 : ℚ) ≤ 25 / 2 ∧ (25 / 2 : ℚ) ≤ 50 ∧ (50 : ℚ) ≤ 60 ∧
    vertexAlpha (25 / 2 : ℚ) = 1 - (25 / 2 / 50) * (25 / 2 / 50) * (3 - 2 * (25 / 2 / 50)) ∧
    vertexAlpha (60 : ℚ) = 0 :=
  have h := vertex_alpha_smoothstep (25 / 2 : ℚ) 60 (by norm_num) (by norm_num) (by norm_num)
  ⟨by norm_num, by norm_num, by norm_num, h.1, h.2.1⟩

/-- C24, counterexample: at the view distance 25/2 the opacity of the vertex
shaders is 27/32 (and 27/40 for the snow), not the value 3/4 of the linear
ramp `1 - d / 50` (3/5 for the snow). -/
theorem vertex_alpha_not_linear :
    vertexAlpha (25 / 2 : ℚ) = 27 / 32 ∧ 1 - (25 / 2 : ℚ) / 50 = 3 / 4 ∧
    vertexAlpha (25 / 2 : ℚ) ≠ 1 - (25 / 2 : ℚ) / 50 ∧
    snowVertexAlpha (25 / 2 : ℚ) = 27 / 40 ∧
    snowVertexAlpha (25 / 2 : ℚ) ≠ (1 - (25 / 2 : ℚ) / 50) * 0.8 := by
  have e1 : (1.0 : ℚ) = 1 := by norm_num
  have h : vertexAlpha (25 / 2 : ℚ) = 27 / 32 := by
    simp only [vertexAlpha, smoothstep_far_inside (25 / 2 : ℚ) (by norm_num) (by norm_num), e1]
    norm_num
  have hs : snowVertexAlpha (25 / 2 : ℚ) = 27 / 40 := by
    simp only [snowVertexAlpha, smoothstep_far_inside (25 / 2 : ℚ) (by norm_num) (by norm_num),
      e1]
    norm_num
  refine ⟨h, by norm_num, ?_, hs, ?_⟩
  · rw [h]; norm_num
  · rw [hs]; norm_num

/-! ## The fragment shaders of the ground, the snow and the star -/

theorem rotated_length (x y r : ℝ) :
    (x * Real.cos r - y * Real.sin r + 0.5 - 0.5) * (x * Real.cos r - y * Real.sin r + 0.5 - 0.5)
      + (x * Real.sin r + y * Real.cos r + 0.5 - 0.5) * (x * Real.sin r + y * Real.cos r + 0.5 - 0.5)
      = x * x + y * y := by
  have h := Real.cos_sq_add_sin_sq r
  have e : (x * Real.cos r - y * Real.sin r + 0.5 - 0.5)
        * (x * Real.cos r - y * Real.sin r + 0.5 - 0.5)
      + (x * Real.sin r + y * Real.cos r + 0.5 - 0.5) * (x * Real.sin r + y * Real.cos r + 0.5 - 0.5)
      = (x * x + y * y) * (Real.cos r ^ 2 + Real.sin r ^ 2) := by ring
  rw [e, h, mul_one]

theorem pointFragment_dist {α : Type} [LinearOrderedField α] (L : Lib α) (pow : α → α → α)
    (exponent gain : α) (pointCoord : α × α) (vColor : Vec3 α) (vAlpha r : α) :
    pointFragment L pow exponent gain pointCoord vColor vAlpha r =
      (fun distance : α =>
        if distance > 0.5 then none
        else some
          ((⟨vColor.x * (1.0 + (1.0 - distance * 2.0) * gain),
            vColor.y * (1.0 + (1.0 - distance * 2.0) * gain),
            vColor.z * (1.0 + (1.0 - distance * 2.0) * gain)⟩ : Vec3 α),
           pow ((1.0 - distance * 2.0) * vAlpha) exponent))
        (L.sqrt
          (((pointCoord.1 - 0.5) * L.cos r - (pointCoord.2 - 0.5) * L.sin r + 0.5 - 0.5)
            * ((pointCoord.1 - 0.5) * L.cos r - (pointCoord.2 - 0.5) * L.sin r + 0.5 - 0.5)
          + ((pointCoord.1 - 0.5) * L.sin r + (pointCoord.2 - 0.5) * L.cos r + 0.5 - 0.5)
            * ((pointCoord.1 - 0.5) * L.sin r + (pointCoord.2 - 0.5) * L.cos r + 0.5 - 0.5))) :=
  rfl

theorem pointFragment_rotation (L : Lib ℝ) (pow : ℝ → ℝ → ℝ) (exponent gain : ℝ)
    (pointCoord : ℝ × ℝ) (vColor : Vec3 ℝ) (vAlpha r : ℝ) :
    pointFragment (realMath L) pow exponent gain pointCoord vColor vAlpha r =
      if Real.sqrt ((pointCoord.1 - 0.5) * (pointCoord.1 - 0.5)
            + (pointCoord.2 - 0.5) * (pointCoord.2 - 0.5)) > 0.5 then none
      else some
        (⟨vColor.x * (1.0 + (1.0 - Real.sqrt ((pointCoord.1 - 0.5) * (pointCoord.1 - 0.5)
              + (pointCoord.2 - 0.5) * (pointCoord.2 - 0.5)) * 2.0) * gain),
          vColor.y * (1.0 + (1.0 - Real.sqrt ((pointCoord.1 - 0.5) * (pointCoord.1 - 0.5)
              + (pointCoord.2 - 0.5) * (pointCoord.2 - 0.5)) * 2.0) * gain),
          vColor.z * (1.0 + (1.0 - Real.sqrt ((pointCoord.1 - 0.5) * (pointCoord.1 - 0.5)
              + (pointCoord.2 - 0.5) * (pointCoord.2 - 0.5)) * 2.0) * gain)⟩,
         pow ((1.0 - Real.sqrt ((pointCoord.1 - 0.5) * (pointCoord.1 - 0.5)
              + (pointCoord.2 - 0.5) * (pointCoord.2 - 0.5)) * 2.0) * vAlpha) exponent) := by
  have hs : (realMath L).sqrt
      (((pointCoord.1 - 0.5) * (realMath L).cos r - (pointCoord.2 - 0.5) * (realMath L).sin r
            + 0.5 - 0.5)
          * ((pointCoord.1 - 0.5) * (realMath L).cos r - (pointCoord.2 - 0.5) * (realMath L).sin r
            + 0.5 - 0.5)
        + ((pointCoord.1 - 0.5) * (realMath L).sin r + (pointCoord.2 - 0.5) * (realMath L).cos r
            + 0.5 - 0.5)
          * ((pointCoord.1 - 0.5) * (realMath L).sin r + (pointCoord.2 - 0.5) * (realMath L).cos r
            + 0.5 - 0.5))
      = Real.sqrt ((pointCoord.1 - 0.5) * (pointCoord.1 - 0.5)
            + (pointCoord.2 - 0.5) * (pointCoord.2 - 0.5)) := by
    show Real.sqrt _ = _
    exact congrArg Real.sqrt (rotated_length (pointCoord.1 - 0.5) (pointCoord.2 - 0.5) r)
  rw [pointFragment_dist, hs]

/-- C26: in the fragment shaders of the ground, the snow and the star, with the
real cosine, sine and square root, the outcome for a point coordinate (discard,
or the colour and the alpha written to `gl_FragColor`) is the same for every
two values of `vRotation`: the turned coordinate has the length of the centred
one. -/
theorem fragment_independent_of_rotation (L : Lib ℝ) (pow : ℝ → ℝ → ℝ) (pointCoord : ℝ × ℝ)
    (vColor : Vec3 ℝ) (vAlpha r1 r2 : ℝ) :
    groundFragment (realMath L) pow pointCoord vColor vAlpha r1 =
      groundFragment (realMath L) pow pointCoord vColor vAlpha r2 ∧
    snowFragment (realMath L) pow pointCoord vColor vAlpha r1 =
      snowFragment (realMath L) pow pointCoord vColor vAlpha r2 ∧
    starFragment (realMath L) pow pointCoord vColor vAlpha r1 =
      starFragment (realMath L) pow pointCoord vColor vAlpha r2 ∧
    ((groundFragment (realMath L) pow pointCoord vColor vAlpha r1).isNone ↔
      Real.sqrt ((pointCoord.1 - 0.5) * (pointCoord.1 - 0.5)
        + (pointCoord.2 - 0.5) * (pointCoord.2 - 0.5)) > 0.5) := by
  refine ⟨?_, ?_, ?_, ?_⟩
  · simp only [groundFragment, pointFragment_rotation]
  · simp only [snowFragment, pointFragment_rotation]
  · simp only [starFragment, pointFragment_rotation]
  · simp only [groundFragment, pointFragment_rotation]
    split_ifs with h
    · simp [h]
    · simp [h]

/-! ## The parent of a panel while it is enlarged -/

section Reparent
variable {α : Type} [LinearOrderedField α]

theorem click_ticks_phaseEnlarging (L : Lib α) (cam : Camera α) (t0 : α) {s : State α} {id : Nat}
    {d : ImageData α} (hrest : s.resting id) (hd : s.heap[id]? = some d) (ts : List α)
    (hts : ∀ t ∈ ts, t - t0 < 600) :
    (run L (Event.click t0 cam (some id) :: ticks ts) s).phaseEnlarging id d.group.position
      d.group.rotation d.group.scale
      ⟨cam.position.x + cam.direction.x * 8, cam.position.y + cam.direction.y * 8,
       cam.position.z + cam.direction.z * 8⟩
      ⟨0, L.atan2 cam.direction.x cam.direction.z + L.PI, 0⟩ t0 ∧
    (run L (Event.click t0 cam (some id) :: ticks ts) s).imageRing = s.imageRing := by
  obtain ⟨h1, hring, _⟩ := click_resting L cam t0 hrest hd
  rw [run_cons]
  exact ⟨run_ticks_phaseEnlarging L ts h1 hts, ((run_ticks_static L ts _).1).trans hring⟩

/-- C21, amended: a click at `t0` on a panel that rests in the ring (a child of
the ring group) moves its group under the scene root at once, before the first
step of the animation; after the click and any frames that come before
`t0 + 600` the panel is ENLARGING, not yet flagged enlarged, and its group is a
child of the scene, not of the ring. -/
theorem reparented_at_click (L : Lib α) (cam : Camera α) (t0 : α) (s : State α) (id : Nat)
    (hrest : s.resting id) (ts : List α) (hts : ∀ t ∈ ts, t - t0 < 600) :
    (∃ d, s.heap[id]? = some d ∧ d.group.parent = Parent.ring s.imageRing) ∧
    (run L (Event.click t0 cam (some id) :: ticks ts) s).enlarging id = true ∧
    (run L (Event.click t0 cam (some id) :: ticks ts) s).imageRing = s.imageRing ∧
    ∃ d', (run L (Event.click t0 cam (some id) :: ticks ts) s).heap[id]? = some d' ∧
      d'.isEnlarged = false ∧ d'.group.parent = Parent.scene ∧
      d'.group.parent ≠ Parent.ring s.imageRing := by
  obtain ⟨d, hd, hp, _⟩ := hrest.2.1
  obtain ⟨⟨he, d', hd', _, hf, hpar⟩, hring⟩ := click_ticks_phaseEnlarging L cam t0 hrest hd ts hts
  refine ⟨⟨d, hd, hp⟩, enlarging_of_enlargingTo he, hring, d', hd', hf, hpar, ?_⟩
  rw [hpar]
  exact fun h => Parent.noConfusion h
end Reparent

/-- The amended theorem of C21 on panel 0 of the ring of the program: clicked at
0 ms, frames at 100 ms and 300 ms. -/
theorem reparented_at_click_witness :
    (initState (flatLib : Lib ℚ) defaultParams imageFiles).resting 0 ∧
    (∀ t ∈ [(100 : ℚ), 300], t - 0 < 600) ∧
    ∃ d', (run (flatLib : Lib ℚ) (Event.click (0 : ℚ) frontCamera (some 0) :: ticks [100, 300])
        (initState (flatLib : Lib ℚ) defaultParams imageFiles)).heap[0]? = some d' ∧
      d'.isEnlarged = false ∧ d'.group.parent = Parent.scene :=
  have h1 := initState_resting (flatLib : Lib ℚ) defaultParams imageFiles 0 (by decide)
  have h2 : ∀ t ∈ [(100 : ℚ), 300], t - 0 < 600 := by
    intro t ht
    simp at ht
    rcases ht with e | e <;> rw [e] <;> norm_num
  ⟨h1, h2,
    let ⟨d', hd', hf, hp, _⟩ :=
      (reparented_at_click (flatLib : Lib ℚ) frontCamera 0 _ 0 h1 [100, 300] h2).2.2.2
    ⟨d', hd', hf, hp⟩⟩

/-- C21, counterexample: on the ring of the program, after a click on panel 0
at 0 ms and a frame at 300 ms the enlarge animation is in progress
(`300 - 0 < 600`, the closure is queued and the panel is not flagged enlarged),
and the group of the panel is a child of the scene, not of the ring. -/
theorem enlarging_panel_not_in_ring :
    (300 : ℚ) - 0 < 600 ∧
    (run (flatLib : Lib ℚ) [Event.click (0 : ℚ) frontCamera (some 0), Event.tick 300]
        (initState (flatLib : Lib ℚ) defaultParams imageFiles)).enlarging 0 = true ∧
    ∃ d', (run (flatLib : Lib ℚ) [Event.click (0 : ℚ) frontCamera (some 0), Event.tick 300]
        (initState (flatLib : Lib ℚ) defaultParams imageFiles)).heap[0]? = some d' ∧
      d'.isEnlarged = false ∧ d'.group.parent = Parent.scene ∧
      d'.group.parent ≠ Parent.ring
        (run (flatLib : Lib ℚ) [Event.click (0 : ℚ) frontCamera (some 0), Event.tick 300]
          (initState (flatLib : Lib ℚ) defaultParams imageFiles)).imageRing := by
  have h1 := initState_resting (flatLib : Lib ℚ) defaultParams imageFiles 0 (by decide)
  have h2 : ∀ t ∈ [(300 : ℚ)], t - 0 < 600 := by
    intro t ht
    simp at ht
    rw [ht]; norm_num
  obtain ⟨d, hd, _, _⟩ := h1.2.1
  obtain ⟨⟨he, d', hd', _, hf, hp⟩, _⟩ :=
    click_ticks_phaseEnlarging (flatLib : Lib ℚ) frontCamera 0 h1 hd [300] h2
  refine ⟨by norm_num, enlarging_of_enlargingTo he, d', hd', hf, hp, ?_⟩
  rw [hp]
  exact fun h => Parent.noConfusion h

/-! ## Frames: what depends on the clock and what on the number of frames -/

section Clock
variable {α : Type} [LinearOrderedField α]

theorem foldl_call_ringRotationY (now : α) (cs : List (Animation α)) (st : State α) :
    (cs.foldl (fun st a => a.call now st) st).ringRotationY = st.ringRotationY := by
  induction cs generalizing st with
  | nil => rfl
  | cons a cs ih =>
    simp only [List.foldl_cons]
    rw [ih]
    exact (call_static a now st).2.2.1

theorem frame_ringRotationY (now : α) (s : State α) :
    (frame now s).ringRotationY = s.ringRotationY + 0.001 := by
  unfold frame
  rw [foldl_call_ringRotationY]

theorem run_ticks_ringRotationY (L : Lib α) (ts : List α) (s : State α) :
    (run L (ticks ts) s).ringRotationY = s.ringRotationY + (ts.length : α) * 0.001 := by
  induction ts generalizing s with
  | nil => simp [run_nil, ticks]
  | cons t ts ih =>
    rw [run_ticks_cons, ih, frame_ringRotationY]
    simp only [List.length_cons]
    push_cast
    ring

theorem run_ticks_append (L : Lib α) (ts ts' : List α) (s : State α) :
    run L (ticks (ts ++ ts')) s = run L (ticks ts') (run L (ticks ts) s) := by
  simp [ticks, run_append]

/-! ### The closure of `enlargeImage` -/

theorem call_enlarge_congr (id : Nat) (sc : α) (sp sr ep fr : Vec3 α) (t0 T : α)
    {st st' : State α} {d : ImageData α} {g : Group α} (h : st.heap[id]? = some d)
    (h' : st'.heap[id]? = some { d with group := g }) (hg : g.parent = d.group.parent) :
    ((Animation.enlarge id sc sp sr ep fr t0).call T st').heap[id]? =
      ((Animation.enlarge id sc sp sr ep fr t0).call T st).heap[id]? := by
  obtain ⟨gp, gpos, grot, gsc⟩ := g
  simp only at hg
  subst hg
  simp only [Animation.call, h, h']
  by_cases hp : progress (T - t0) < 1
  · simp only [hp, if_true]
    show (st'.setData id _).heap[id]? = (st.setData id _).heap[id]?
    rw [setData_get_same _ h', setData_get_same _ h]
  · simp only [hp, if_false]
    show (st'.setData id _).heap[id]? = (st.setData id _).heap[id]?
    rw [setData_get_same _ h', setData_get_same _ h]

theorem frame_enlarge_keep {t t0 : α} {s : State α} {id : Nat} {sc : α} {sp sr ep fr : Vec3 α}
    {cs : List (Animation α)} {d : ImageData α}
    (hcs : s.callbacks = cs ++ [Animation.enlarge id sc sp sr ep fr t0])
    (hq : ∀ c ∈ cs, c.imageData ≠ id) (hd : s.heap[id]? = some d) (ht : t - t0 < 600) :
    ∃ cs1 : List (Animation α), ∃ g : Group α,
      (frame t s).callbacks = cs1 ++ [Animation.enlarge id sc sp sr ep fr t0] ∧
      (∀ c ∈ cs1, c.imageData ≠ id) ∧ g.parent = d.group.parent ∧
      (frame t s).heap[id]? = some { d with group := g } := by
  obtain ⟨st, hf, hh, _, hc⟩ := frame_last t cs hcs hq
  simp only [Animation.imageData] at hh
  rw [← hh] at hd
  obtain ⟨⟨g, hg, hheap⟩, hcb, _⟩ := call_enlarge_running sc sp sr ep fr hd ht
  rw [hf]
  exact ⟨st.callbacks, g, hcb, fun c hcm => hq c (hc c hcm), hg, hheap⟩

theorem frame_enlarge_absorb {t t0 T : α} {s : State α} {id : Nat} {sc : α}
    {sp sr ep fr : Vec3 α} {cs : List (Animation α)} {d : ImageData α}
    (hcs : s.callbacks = cs ++ [Animation.enlarge id sc sp sr ep fr t0])
    (hq : ∀ c ∈ cs, c.imageData ≠ id) (hd : s.heap[id]? = some d) (ht : t - t0 < 600) :
    (frame T (frame t s)).heap[id]? = (frame T s).heap[id]? := by
  obtain ⟨cs1, g, hcs1, hq1, hg, hd1⟩ := frame_enlarge_keep hcs hq hd ht
  obtain ⟨st, hf, hh, _, _⟩ := frame_last T cs hcs hq
  obtain ⟨st1, hf1, hh1, _, _⟩ := frame_last T cs1 hcs1 hq1
  simp only [Animation.imageData] at hh hh1
  rw [hf, hf1]
  exact call_enlarge_congr id sc sp sr ep fr t0 T (hh.trans hd) (hh1.trans hd1) hg

theorem run_ticks_enlarge_clock (L : Lib α) (T : α) (ts : List α) (hts : ∀ t ∈ ts, t ≤ T)
    {t0 : α} {s : State α} {id : Nat} {sc : α} {sp sr ep fr : Vec3 α}
    {cs : List (Animation α)} {d : ImageData α}
    (hcs : s.callbacks = cs ++ [Animation.enlarge id sc sp sr ep fr t0])
    (hq : ∀ c ∈ cs, c.imageData ≠ id) (hd : s.heap[id]? = some d) :
    (run L (ticks (ts ++ [T])) s).heap[id]? = (frame T s).heap[id]? := by
  induction ts generalizing s cs d with
  | nil => rfl
  | cons t ts ih =>
    have htT : t ≤ T := hts t (List.mem_cons_self _ _)
    have hts1 : ∀ t1 ∈ ts, t1 ≤ T := fun t1 h1 => hts t1 (List.mem_cons_of_mem _ h1)
    rw [List.cons_append, run_ticks_cons]
    by_cases ht : t - t0 < 600
    · obtain ⟨cs1, g, hcs1, hq1, _, hd1⟩ := frame_enlarge_keep hcs hq hd ht
      rw [ih hts1 hcs1 hq1 hd1]
      exact frame_enlarge_absorb hcs hq hd ht
    · have ht6 : 600 ≤ t - t0 := not_lt.1 ht
      have hT6 : 600 ≤ T - t0 := by linarith
      have he : s.enlargingTo id ep fr t0 := ⟨cs, sc, sp, sr, hcs, hq⟩
      obtain ⟨k1, _, k3⟩ := frame_enlarging_done he hd ht6
      obtain ⟨_, _, m3⟩ := frame_enlarging_done he hd hT6
      rw [(run_ticks_quiet L (ts ++ [T]) k1).1, k3, m3]

end Clock

section Clock
variable {α : Type} [LinearOrderedField α]

/-! ### The closure of `restoreImage` -/

theorem call_restore_congr (id : Nat) (sc : α) (sp sr : Vec3 α) (t0 T : α)
    {st st' : State α} {d : ImageData α} {g : Group α} {olp olr : Vec3 α}
    (h : st.heap[id]? = some d)
    (h' : st'.heap[id]? = some { d with group := g }) (hg : g.parent = d.group.parent)
    (hp : d.originalLocalPosition = some olp) (hr : d.originalLocalRotation = some olr)
    (hring : st'.imageRing = st.imageRing) :
    ((Animation.restore id sc sp sr t0).call T st').heap[id]? =
      ((Animation.restore id sc sp sr t0).call T st).heap[id]? := by
  obtain ⟨gp, gpos, grot, gsc⟩ := g
  simp only at hg
  subst hg
  simp only [Animation.call, h, h', hp, hr]
  by_cases hlt : progress (T - t0) < 1
  · simp only [hlt, if_true]
    show (st'.setData id _).heap[id]? = (st.setData id _).heap[id]?
    rw [setData_get_same _ h', setData_get_same _ h]
  · simp only [hlt, if_false]
    show (st'.setData id _).heap[id]? = (st.setData id _).heap[id]?
    rw [setData_get_same _ h', setData_get_same _ h, hring]

theorem frame_restore_keep {t t0 : α} {s : State α} {id : Nat} {sc : α} {sp sr : Vec3 α}
    {cs : List (Animation α)} {d : ImageData α} {olp olr : Vec3 α}
    (hcs : s.callbacks = cs ++ [Animation.restore id sc sp sr t0])
    (hq : ∀ c ∈ cs, c.imageData ≠ id) (hd : s.heap[id]? = some d)
    (hp : d.originalLocalPosition = some olp) (hr : d.originalLocalRotation = some olr)
    (ht : t - t0 < 600) :
    ∃ cs1 : List (Animation α), ∃ g : Group α,
      (frame t s).callbacks = cs1 ++ [Animation.restore id sc sp sr t0] ∧
      (∀ c ∈ cs1, c.imageData ≠ id) ∧ g.parent = d.group.parent ∧
      (frame t s).heap[id]? = some { d with group := g } := by
  obtain ⟨st, hf, hh, _, hc⟩ := frame_last t cs hcs hq
  simp only [Animation.imageData] at hh
  rw [← hh] at hd
  obtain ⟨⟨g, hg, hheap⟩, hcb, _⟩ := call_restore_running sc sp sr hd hp hr ht
  rw [hf]
  exact ⟨st.callbacks, g, hcb, fun c hcm => hq c (hc c hcm), hg, hheap⟩

theorem frame_restore_absorb {t t0 T : α} {s : State α} {id : Nat} {sc : α}
    {sp sr : Vec3 α} {cs : List (Animation α)} {d : ImageData α} {olp olr : Vec3 α}
    (hcs : s.callbacks = cs ++ [Animation.restore id sc sp sr t0])
    (hq : ∀ c ∈ cs, c.imageData ≠ id) (hd : s.heap[id]? = some d)
    (hp : d.originalLocalPosition = some olp) (hr : d.originalLocalRotation = some olr)
    (ht : t - t0 < 600) :
    (frame T (frame t s)).heap[id]? = (frame T s).heap[id]? := by
  obtain ⟨cs1, g, hcs1, hq1, hg, hd1⟩ := frame_restore_keep hcs hq hd hp hr ht
  obtain ⟨st, hf, hh, hring, _⟩ := frame_last T cs hcs hq
  obtain ⟨st1, hf1, hh1, hring1, _⟩ := frame_last T cs1 hcs1 hq1
  simp only [Animation.imageData] at hh hh1
  rw [hf, hf1]
  exact call_restore_congr id sc sp sr t0 T (hh.trans hd) (hh1.trans hd1) hg hp hr
    (hring1.trans ((frame_static t s).1.trans hring.symm))

theorem run_ticks_restore_clock (L : Lib α) (T : α) (ts : List α) (hts : ∀ t ∈ ts, t ≤ T)
    {t0 : α} {s : State α} {id : Nat} {sc : α} {sp sr : Vec3 α}
    {cs : List (Animation α)} {d : ImageData α} {p r scl : Vec3 α}
    (hcs : s.callbacks = cs ++ [Animation.restore id sc sp sr t0])
    (hq : ∀ c ∈ cs, c.imageData ≠ id) (hd : s.heap[id]? = some d) (hs : d.saved p r scl) :
    (run L (ticks (ts ++ [T])) s).heap[id]? = (frame T s).heap[id]? := by
  induction ts generalizing s cs d with
  | nil => rfl
  | cons t ts ih =>
    have htT : t ≤ T := hts t (List.mem_cons_self _ _)
    have hts1 : ∀ t1 ∈ ts, t1 ≤ T := fun t1 h1 => hts t1 (List.mem_cons_of_mem _ h1)
    rw [List.cons_append, run_ticks_cons]
    by_cases ht : t - t0 < 600
    · obtain ⟨cs1, g, hcs1, hq1, _, hd1⟩ := frame_restore_keep hcs hq hd hs.1 hs.2.1 ht
      rw [ih hts1 hcs1 hq1 hd1 hs]
      exact frame_restore_absorb hcs hq hd hs.1 hs.2.1 ht
    · have ht6 : 600 ≤ t - t0 := not_lt.1 ht
      have hT6 : 600 ≤ T - t0 := by linarith
      have he : s.restoringSince id t0 := ⟨cs, sc, sp, sr, hcs, hq⟩
      obtain ⟨k1, k3⟩ := frame_restoring_done he hd hs ht6
      obtain ⟨_, m3⟩ := frame_restoring_done he hd hs hT6
      rw [(run_ticks_quiet L (ts ++ [T]) k1).1, k3, m3]
end Clock

section Groups
variable {α : Type} [LinearOrderedField α]

theorem runFrames_cons (t : α) (ts : List α) (sc : Scene α) :
    runFrames (t :: ts) sc = runFrames ts (animateParticles t sc) := rfl

theorem runFrames_params (ts : List α) (sc : Scene α) : (runFrames ts sc).params = sc.params := by
  induction ts generalizing sc with
  | nil => rfl
  | cons t ts ih => rw [runFrames_cons, ih]; rfl

theorem runFrames_rotation (ts : List α) (sc : Scene α) :
    (runFrames ts sc).particleSystem.map (fun g => g.rotationY) =
      sc.particleSystem.map
        (fun g => g.rotationY + (ts.length : α) * (0.001 * sc.params.rotationSpeed)) ∧
    (runFrames ts sc).groundParticles.map (fun g => g.rotationY) =
      sc.groundParticles.map (fun g => g.rotationY) ∧
    (runFrames ts sc).snowParticles.map (fun g => g.rotationY) =
      sc.snowParticles.map (fun g => g.rotationY + (ts.length : α) * 0.0002) ∧
    (runFrames ts sc).starParticles.map (fun g => g.rotationY) =
      sc.starParticles.map (fun g => g.rotationY + (ts.length : α) * 0.0005) := by
  induction ts generalizing sc with
  | nil => simp [runFrames]
  | cons t ts ih =>
    obtain ⟨h1, h2, h3, h4⟩ := ih (animateParticles t sc)
    rw [runFrames_cons, h1, h2, h3, h4]
    simp only [animateParticles, Option.map_map, List.length_cons]
    refine ⟨?_, ?_, ?_, ?_⟩
    · congr 1
      funext g
      simp only [Function.comp]
      push_cast
      ring
    · rfl
    · congr 1
      funext g
      simp only [Function.comp]
      push_cast
      ring
    · congr 1
      funext g
      simp only [Function.comp]
      push_cast
      ring

theorem runFrames_geometry (ts : List α) (sc : Scene α) :
    (runFrames ts sc).particleSystem.map (fun g => g.geometry) =
      sc.particleSystem.map (fun g => g.geometry) := by
  induction ts generalizing sc with
  | nil => rfl
  | cons t ts ih =>
    rw [runFrames_cons, ih]
    rcases sc with ⟨P, a, b, c, d⟩
    cases a <;> simp [animateParticles]

theorem runFrames_append (ts ts' : List α) (sc : Scene α) :
    runFrames (ts ++ ts') sc = runFrames ts' (runFrames ts sc) := by
  simp [runFrames, List.foldl_append]

theorem runFrames_time (ts : List α) (T : α) (sc : Scene α) :
    (runFrames (ts ++ [T]) sc).particleSystem.map (fun g => g.time) =
      sc.particleSystem.map (fun _ => T * 0.001) ∧
    (runFrames (ts ++ [T]) sc).groundParticles.map (fun g => g.time) =
      sc.groundParticles.map (fun _ => T * 0.001) ∧
    (runFrames (ts ++ [T]) sc).snowParticles.map (fun g => g.time) =
      sc.snowParticles.map (fun _ => T * 0.001) ∧
    (runFrames (ts ++ [T]) sc).starParticles.map (fun g => g.time) =
      sc.starParticles.map (fun _ => T * 0.001) := by
  induction ts generalizing sc with
  | nil =>
    rcases sc with ⟨P, a, b, c, d⟩
    cases a <;> cases b <;> cases c <;> cases d <;> simp [runFrames, animateParticles]
  | cons t ts ih =>
    obtain ⟨h1, h2, h3, h4⟩ := ih (animateParticles t sc)
    rw [List.cons_append, runFrames_cons, h1, h2, h3, h4]
    rcases sc with ⟨P, a, b, c, d⟩
    cases a <;> cases b <;> cases c <;> cases d <;> simp [animateParticles]
end Groups

/-! ## The state after the constructor -/

section AfterConstructor

variable {α : Type} [LinearOrderedField α]

/-- The constructor's own frame finds no queued closure: it turns the ring by
0.001 and leaves the panels as `init()` built them. -/
theorem afterConstructor_ringRotationY (L : Lib α) (P : Params α) (files : List String)
    (now : α) : (afterConstructor L P files now).ringRotationY = 0.001 := by
  have h := frame_ringRotationY now (initState L P files)
  have h0 : (initState L P files).ringRotationY = 0 := rfl
  rw [h0, zero_add] at h
  exact h

theorem afterConstructor_getElem? (L : Lib α) (P : Params α) (files : List String) (now : α)
    (i : Nat) (hi : i < min files.length 20) :
    (afterConstructor L P files now).heap[i]? =
      some (createImageData L P 1 (min files.length 20) i) := by
  have hq : (initState L P files).quiet i := (initState_resting L P files i hi).2.2
  have h := (frame_quiet now hq).1
  rw [initState_getElem? L P files i hi] at h
  exact h

theorem afterConstructor_resting (L : Lib α) (P : Params α) (files : List String) (now : α)
    (i : Nat) (hi : i < min files.length 20) : (afterConstructor L P files now).resting i := by
  obtain ⟨hm, ⟨d, hd, hp, he⟩, hq⟩ := initState_resting L P files i hi
  obtain ⟨s1, s2, _, s4⟩ := frame_static now (initState L P files)
  refine ⟨?_, ⟨d, ?_, ?_, he⟩, ?_⟩
  · show i ∈ (frame now (initState L P files)).imageMeshes
    rw [s2]; exact hm
  · show (frame now (initState L P files)).heap[i]? = some d
    rw [(frame_quiet now hq).1]; exact hd
  · show d.group.parent = Parent.ring (frame now (initState L P files)).imageRing
    rw [s1]; exact hp
  · intro c hc
    exact hq c (s4 c hc)

/-- The constructor's own frame turns the tree, the snow and the star by one
increment each and leaves the ground where it is. -/
theorem sceneAfterConstructor_rotation (P : Params α) (tree : TreeArrays α)
    (ground : DiskArrays α) (snow : SnowArrays α) (star : DiskArrays α) (now : α) :
    (sceneAfterConstructor P tree ground snow star now).params = P ∧
    (sceneAfterConstructor P tree ground snow star now).particleSystem.map
        (fun g => g.rotationY) = some (0.001 * P.rotationSpeed) ∧
    (sceneAfterConstructor P tree ground snow star now).groundParticles.map
        (fun g => g.rotationY) = some 0 ∧
    (sceneAfterConstructor P tree ground snow star now).snowParticles.map
        (fun g => g.rotationY) = some 0.0002 ∧
    (sceneAfterConstructor P tree ground snow star now).starParticles.map
        (fun g => g.rotationY) = some 0.0005 := by
  simp [sceneAfterConstructor, animateParticles, initScene]

end AfterConstructor

theorem run_ticks_phase_clock {α : Type} [LinearOrderedField α] (L : Lib α) (T : α)
    (ts : List α) (hts : ∀ t ∈ ts, t ≤ T) {s : State α} {id : Nat} {p r sc ep fr : Vec3 α}
    {t0 : α} (h : s.phaseEnlarging id p r sc ep fr t0 ∨ s.phaseRestoring id p r sc t0) :
    (run L (ticks (ts ++ [T])) s).heap[id]? = (frame T s).heap[id]? := by
  rcases h with ⟨⟨cs, sc1, sp, sr, hcs, hq⟩, d, hd, _⟩ | ⟨⟨cs, sc1, sp, sr, hcs, hq⟩, d, hd, hs⟩
  · exact run_ticks_enlarge_clock L T ts hts hcs hq hd
  · exact run_ticks_restore_clock L T ts hts hcs hq hd hs

/-- C25, amended: the enlarge and the restore animation are sampled against the
clock: for a panel that is ENLARGING or RESTORING, two chronological schedules
of frames that end with a frame at the same time `T` leave the same panel data
(transform, parent and flags), however many frames they hold.  The rotations
are not: every frame adds a constant to `rotation.y` of the image ring (0.001),
of the tree (0.001 times `rotationSpeed`), of the snow (0.0002) and of the star
(0.0005), so these angles are the start value plus the number of frames times
the constant; only the uniform `time` of the groups comes from the clock. -/
theorem animation_by_clock_rotation_by_frames {α : Type} [LinearOrderedField α] (L : Lib α)
    (T : α) (ts ts' : List α) (hts : ∀ t ∈ ts, t ≤ T) (hts' : ∀ t ∈ ts', t ≤ T)
    (s : State α) (id : Nat) (p r sc ep fr : Vec3 α) (t0 : α)
    (h : s.phaseEnlarging id p r sc ep fr t0 ∨ s.phaseRestoring id p r sc t0)
    (scene : Scene α) :
    (run L (ticks (ts ++ [T])) s).heap[id]? = (run L (ticks (ts' ++ [T])) s).heap[id]? ∧
    (run L (ticks (ts ++ [T])) s).ringRotationY =
      s.ringRotationY + ((ts.length : α) + 1) * 0.001 ∧
    (runFrames (ts ++ [T]) scene).particleSystem.map (fun g => (g.time, g.rotationY)) =
      scene.particleSystem.map (fun g =>
        (T * 0.001, g.rotationY + ((ts.length : α) + 1) * (0.001 * scene.params.rotationSpeed))) ∧
    (runFrames (ts ++ [T]) scene).groundParticles.map (fun g => (g.time, g.rotationY)) =
      scene.groundParticles.map (fun g => (T * 0.001, g.rotationY)) ∧
    (runFrames (ts ++ [T]) scene).snowParticles.map (fun g => (g.time, g.rotationY)) =
      scene.snowParticles.map (fun g =>
        (T * 0.001, g.rotationY + ((ts.length : α) + 1) * 0.0002)) ∧
    (runFrames (ts ++ [T]) scene).starParticles.map (fun g => (g.time, g.rotationY)) =
      scene.starParticles.map (fun g =>
        (T * 0.001, g.rotationY + ((ts.length : α) + 1) * 0.0005)) := by
  have hlen : (((ts ++ [T]).length : Nat) : α) = (ts.length : α) + 1 := by
    simp
  obtain ⟨r1, r2, r3, r4⟩ := runFrames_rotation (ts ++ [T]) scene
  obtain ⟨m1, m2, m3, m4⟩ := runFrames_time ts T scene
  rw [hlen] at r1 r3 r4
  have pair : ∀ {A : Type} (o o' : Option (Points A α)) (f g : Points A α → α),
      o.map (fun x => x.time) = o'.map f → o.map (fun x => x.rotationY) = o'.map g →
      o.map (fun x => (x.time, x.rotationY)) = o'.map (fun x => (f x, g x)) := by
    intro A o o' f g h1 h2
    cases o <;> cases o' <;> simp_all
  refine ⟨?_, ?_, pair _ _ _ _ m1 r1, pair _ _ _ _ m2 r2, pair _ _ _ _ m3 r3,
    pair _ _ _ _ m4 r4⟩
  · rw [run_ticks_phase_clock L T ts hts h, run_ticks_phase_clock L T ts' hts' h]
  · rw [run_ticks_ringRotationY, hlen]

/-- The amended theorem of C25 on panel 0 of the ring of the program: the
constructor runs its own frame at 50 ms, the panel is clicked at 100 ms, and
the schedule with frames at 400 ms and 700 ms is set against the single frame
at 700 ms. -/
theorem animation_by_clock_rotation_by_frames_witness :
    (∀ t ∈ [(400 : ℚ)], t ≤ 700) ∧ (∀ t ∈ ([] : List ℚ), t ≤ 700) ∧
    (∃ p r sc ep fr : Vec3 ℚ,
      (onImageClick (flatLib : Lib ℚ) frontCamera 100 (some 0)
        (afterConstructor (flatLib : Lib ℚ) defaultParams imageFiles 50)).phaseEnlarging
          0 p r sc ep fr 100) ∧
    (run (flatLib : Lib ℚ) (ticks ([400] ++ [700]))
        (onImageClick (flatLib : Lib ℚ) frontCamera 100 (some 0)
          (afterConstructor (flatLib : Lib ℚ) defaultParams imageFiles 50))).heap[0]? =
      (run (flatLib : Lib ℚ) (ticks ([] ++ [700]))
        (onImageClick (flatLib : Lib ℚ) frontCamera 100 (some 0)
          (afterConstructor (flatLib : Lib ℚ) defaultParams imageFiles 50))).heap[0]? ∧
    (run (flatLib : Lib ℚ) (ticks ([400] ++ [700]))
        (onImageClick (flatLib : Lib ℚ) frontCamera 100 (some 0)
          (afterConstructor (flatLib : Lib ℚ) defaultParams imageFiles 50))).ringRotationY =
      (onImageClick (flatLib : Lib ℚ) frontCamera 100 (some 0)
          (afterConstructor (flatLib : Lib ℚ) defaultParams imageFiles 50)).ringRotationY +
        (((([400] : List ℚ).length : Nat) : ℚ) + 1) * 0.001 :=
  have h1 : ∀ t ∈ [(400 : ℚ)], t ≤ 700 := by
    intro t ht
    simp at ht
    rw [ht]; norm_num
  have h2 : ∀ t ∈ ([] : List ℚ), t ≤ 700 := fun t ht => absurd ht (List.not_mem_nil t)
  have hrest := afterConstructor_resting (flatLib : Lib ℚ) defaultParams imageFiles 50 0
    (by decide)
  have hph := (click_resting (flatLib : Lib ℚ) frontCamera 100 hrest
    (afterConstructor_getElem? (flatLib : Lib ℚ) defaultParams imageFiles 50 0 (by decide))).1
  have hthm := animation_by_clock_rotation_by_frames (flatLib : Lib ℚ) 700 [400] [] h1 h2 _ 0
    _ _ _ _ _ 100 (Or.inl hph)
    (sceneAfterConstructor defaultParams
      (createParticleTree (flatLib : Lib ℚ) defaultParams (fun _ => 0))
      (createGroundParticles (flatLib : Lib ℚ) defaultParams (fun _ => 0))
      (createSnowParticles (flatLib : Lib ℚ) defaultParams (fun _ => 0))
      (createStar (flatLib : Lib ℚ) defaultParams (fun _ => 0)) 50)
  ⟨h1, h2, ⟨_, _, _, _, _, hph⟩, hthm.1, hthm.2.1⟩

/-- C25, counterexample: the constructor runs its own frame at 50 ms, which
leaves the image ring at 1/1000, the tree at 1/1000 (`rotationSpeed` is 1), the
snow at 2/10000 and the star at 5/10000.  Two schedules of frames from that state that both end at
600 ms, one with the single frame at 600 ms and one with frames at 300 ms and
600 ms, leave the image ring at the angles 2/1000 and 3/1000, the tree at
2/1000 and 3/1000, the snow at 4/10000 and 6/10000, and the star at 10/10000
and 15/10000: the angles follow the number of frames, not the time elapsed. -/
theorem rotation_depends_on_frame_count :
    (afterConstructor (flatLib : Lib ℚ) defaultParams imageFiles 50).ringRotationY = 1 / 1000 ∧
    (sceneAfterConstructor defaultParams
        (createParticleTree (flatLib : Lib ℚ) defaultParams (fun _ => 0))
        (createGroundParticles (flatLib : Lib ℚ) defaultParams (fun _ => 0))
        (createSnowParticles (flatLib : Lib ℚ) defaultParams (fun _ => 0))
        (createStar (flatLib : Lib ℚ) defaultParams (fun _ => 0)) 50).particleSystem.map
      (fun g => g.rotationY) = some (1 / 1000) ∧
    (sceneAfterConstructor defaultParams
        (createParticleTree (flatLib : Lib ℚ) defaultParams (fun _ => 0))
        (createGroundParticles (flatLib : Lib ℚ) defaultParams (fun _ => 0))
        (createSnowParticles (flatLib : Lib ℚ) defaultParams (fun _ => 0))
        (createStar (flatLib : Lib ℚ) defaultParams (fun _ => 0)) 50).snowParticles.map
      (fun g => g.rotationY) = some (2 / 10000) ∧
    (sceneAfterConstructor defaultParams
        (createParticleTree (flatLib : Lib ℚ) defaultParams (fun _ => 0))
        (createGroundParticles (flatLib : Lib ℚ) defaultParams (fun _ => 0))
        (createSnowParticles (flatLib : Lib ℚ) defaultParams (fun _ => 0))
        (createStar (flatLib : Lib ℚ) defaultParams (fun _ => 0)) 50).starParticles.map
      (fun g => g.rotationY) = some (5 / 10000) ∧
    (run (flatLib : Lib ℚ) (ticks [600])
        (afterConstructor (flatLib : Lib ℚ) defaultParams imageFiles 50)).ringRotationY =
      2 / 1000 ∧
    (run (flatLib : Lib ℚ) (ticks [300, 600])
        (afterConstructor (flatLib : Lib ℚ) defaultParams imageFiles 50)).ringRotationY =
      3 / 1000 ∧
    (run (flatLib : Lib ℚ) (ticks [600])
        (afterConstructor (flatLib : Lib ℚ) defaultParams imageFiles 50)).ringRotationY ≠
      (run (flatLib : Lib ℚ) (ticks [300, 600])
        (afterConstructor (flatLib : Lib ℚ) defaultParams imageFiles 50)).ringRotationY ∧
    (runFrames [(600 : ℚ)]
        (sceneAfterConstructor defaultParams
          (createParticleTree (flatLib : Lib ℚ) defaultParams (fun _ => 0))
          (createGroundParticles (flatLib : Lib ℚ) defaultParams (fun _ => 0))
          (createSnowParticles (flatLib : Lib ℚ) defaultParams (fun _ => 0))
          (createStar (flatLib : Lib ℚ) defaultParams (fun _ => 0)) 50)).particleSystem.map
      (fun g => g.rotationY) = some (2 / 1000) ∧
    (runFrames [(300 : ℚ), 600]
        (sceneAfterConstructor defaultParams
          (createParticleTree (flatLib : Lib ℚ) defaultParams (fun _ => 0))
          (createGroundParticles (flatLib : Lib ℚ) defaultParams (fun _ => 0))
          (createSnowParticles (flatLib : Lib ℚ) defaultParams (fun _ => 0))
          (createStar (flatLib : Lib ℚ) defaultParams (fun _ => 0)) 50)).particleSystem.map
      (fun g => g.rotationY) = some (3 / 1000) ∧
    (runFrames [(600 : ℚ)]
        (sceneAfterConstructor defaultParams
          (createParticleTree (flatLib : Lib ℚ) defaultParams (fun _ => 0))
          (createGroundParticles (flatLib : Lib ℚ) defaultParams (fun _ => 0))
          (createSnowParticles (flatLib : Lib ℚ) defaultParams (fun _ => 0))
          (createStar (flatLib : Lib ℚ) defaultParams (fun _ => 0)) 50)).snowParticles.map
      (fun g => g.rotationY) = some (4 / 10000) ∧
    (runFrames [(300 : ℚ), 600]
        (sceneAfterConstructor defaultParams
          (createParticleTree (flatLib : Lib ℚ) defaultParams (fun _ => 0))
          (createGroundParticles (flatLib : Lib ℚ) defaultParams (fun _ => 0))
          (createSnowParticles (flatLib : Lib ℚ) defaultParams (fun _ => 0))
          (createStar (flatLib : Lib ℚ) defaultParams (fun _ => 0)) 50)).snowParticles.map
      (fun g => g.rotationY) = some (6 / 10000) ∧
    (runFrames [(600 : ℚ)]
        (sceneAfterConstructor defaultParams
          (createParticleTree (flatLib : Lib ℚ) defaultParams (fun _ => 0))
          (createGroundParticles (flatLib : Lib ℚ) defaultParams (fun _ => 0))
          (createSnowParticles (flatLib : Lib ℚ) defaultParams (fun _ => 0))
          (createStar (flatLib : Lib ℚ) defaultParams (fun _ => 0)) 50)).starParticles.map
      (fun g => g.rotationY) = some (10 / 10000) ∧
    (runFrames [(300 : ℚ), 600]
        (sceneAfterConstructor defaultParams
          (createParticleTree (flatLib : Lib ℚ) defaultParams (fun _ => 0))
          (createGroundParticles (flatLib : Lib ℚ) defaultParams (fun _ => 0))
          (createSnowParticles (flatLib : Lib ℚ) defaultParams (fun _ => 0))
          (createStar (flatLib : Lib ℚ) defaultParams (fun _ => 0)) 50)).starParticles.map
      (fun g => g.rotationY) = some (15 / 10000) := by
  have h0 := afterConstructor_ringRotationY (flatLib : Lib ℚ) defaultParams imageFiles 50
  have h1 := run_ticks_ringRotationY (flatLib : Lib ℚ) [600]
    (afterConstructor (flatLib : Lib ℚ) defaultParams imageFiles 50)
  have h2 := run_ticks_ringRotationY (flatLib : Lib ℚ) [300, 600]
    (afterConstructor (flatLib : Lib ℚ) defaultParams imageFiles 50)
  rw [h0] at h1 h2
  have e1 : (run (flatLib : Lib ℚ) (ticks [600])
      (afterConstructor (flatLib : Lib ℚ) defaultParams imageFiles 50)).ringRotationY =
      2 / 1000 := by
    rw [h1]; norm_num
  have e2 : (run (flatLib : Lib ℚ) (ticks [300, 600])
      (afterConstructor (flatLib : Lib ℚ) defaultParams imageFiles 50)).ringRotationY =
      3 / 1000 := by
    rw [h2]; norm_num
  obtain ⟨cP, c1, _, c3, c4⟩ := sceneAfterConstructor_rotation (defaultParams : Params ℚ)
    (createParticleTree (flatLib : Lib ℚ) defaultParams (fun _ => 0))
    (createGroundParticles (flatLib : Lib ℚ) defaultParams (fun _ => 0))
    (createSnowParticles (flatLib : Lib ℚ) defaultParams (fun _ => 0))
    (createStar (flatLib : Lib ℚ) defaultParams (fun _ => 0)) 50
  have hsp : (defaultParams : Params ℚ).rotationSpeed = 1 := by
    show (1.0 : ℚ) = 1
    norm_num
  obtain ⟨a1, _, a3, a4⟩ := runFrames_rotation [(600 : ℚ)]
    (sceneAfterConstructor defaultParams
      (createParticleTree (flatLib : Lib ℚ) defaultParams (fun _ => 0))
      (createGroundParticles (flatLib : Lib ℚ) defaultParams (fun _ => 0))
      (createSnowParticles (flatLib : Lib ℚ) defaultParams (fun _ => 0))
      (createStar (flatLib : Lib ℚ) defaultParams (fun _ => 0)) 50)
  obtain ⟨b1, _, b3, b4⟩ := runFrames_rotation [(300 : ℚ), 600]
    (sceneAfterConstructor defaultParams
      (createParticleTree (flatLib : Lib ℚ) defaultParams (fun _ => 0))
      (createGroundParticles (flatLib : Lib ℚ) defaultParams (fun _ => 0))
      (createSnowParticles (flatLib : Lib ℚ) defaultParams (fun _ => 0))
      (createStar (flatLib : Lib ℚ) defaultParams (fun _ => 0)) 50)
  have opt : ∀ {A : Type} (o : Option (Points A ℚ)) (v c w : ℚ),
      o.map (fun g => g.rotationY) = some v → v + c = w →
      o.map (fun g => g.rotationY + c) = some w := by
    intro A o v c w h hw
    cases o with
    | none => simp at h
    | some g =>
      simp only [Option.map_some', Option.some.injEq] at h ⊢
      rw [h, hw]
  rw [cP, hsp] at a1 b1
  rw [hsp] at c1
  refine ⟨?_, ?_, ?_, ?_, e1, e2, ?_, ?_, ?_, ?_, ?_, ?_, ?_⟩
  · rw [h0]; norm_num
  · rw [c1]; norm_num
  · rw [c3]; norm_num
  · rw [c4]; norm_num
  · rw [e1, e2]; norm_num
  · rw [a1]; exact opt _ _ _ _ c1 (by norm_num)
  · rw [b1]; exact opt _ _ _ _ c1 (by norm_num)
  · rw [a3]; exact opt _ _ _ _ c3 (by norm_num)
  · rw [b3]; exact opt _ _ _ _ c3 (by norm_num)
  · rw [a4]; exact opt _ _ _ _ c4 (by norm_num)
  · rw [b4]; exact opt _ _ _ _ c4 (by norm_num)

/-! ## The reference `enlargedImage` -/

section Valid
variable {α : Type} [LinearOrderedField α]

theorem enlarged_setData_same {s : State α} {id : Nat} {d d1 : ImageData α}
    (h : s.heap[id]? = some d) (he : d1.isEnlarged = d.isEnlarged) (j : Nat) :
    (s.setData id d1).enlarged j = s.enlarged j := by
  by_cases hj : id = j
  · subst hj
    simp [State.enlarged, setData_get_same d1 h, h, he]
  · simp [State.enlarged, setData_get_other s d1 hj]

theorem enlarged_setData_other (s : State α) {id j : Nat} (d1 : ImageData α) (hj : id ≠ j) :
    (s.setData id d1).enlarged j = s.enlarged j := by
  simp [State.enlarged, setData_get_other s d1 hj]

theorem enlarged_congr_heap {s s1 : State α} (h : s1.heap = s.heap) (j : Nat) :
    s1.enlarged j = s.enlarged j := by
  simp [State.enlarged, h]

theorem valid_of_same {s s1 : State α} (h : s.enlargedImageValid)
    (h1 : s1.enlargedImage = s.enlargedImage) (h2 : s1.imageMeshes = s.imageMeshes)
    (h3 : ∀ j, s1.enlarged j = s.enlarged j) : s1.enlargedImageValid := by
  intro j hj
  rw [h1] at hj
  rw [h2, h3]
  exact h j hj

theorem valid_of_cleared {s s1 : State α} {id : Nat} (h : s.enlargedImageValid)
    (h1 : s1.enlargedImage = if s.enlargedImage = some id then none else s.enlargedImage)
    (h2 : s1.imageMeshes = s.imageMeshes)
    (h3 : ∀ j, j ≠ id → s1.enlarged j = s.enlarged j) : s1.enlargedImageValid := by
  intro j hj
  rw [h1] at hj
  by_cases he : s.enlargedImage = some id
  · simp [he] at hj
  · simp only [he, if_false] at hj
    have hne : j ≠ id := by
      intro e
      subst e
      exact he hj
    rw [h2, h3 j hne]
    exact h j hj

theorem call_valid (a : Animation α) (now : α) {s : State α} (h : s.enlargedImageValid)
    (hm : a.isEnlarge = true → a.imageData ∈ s.imageMeshes) :
    (a.call now s).enlargedImageValid := by
  cases a with
  | enlarge id sc sp sr ep fr t0 =>
    have hmem : id ∈ s.imageMeshes := hm rfl
    simp only [Animation.call]
    cases hd : s.heap[id]? with
    | none => exact h
    | some d =>
      simp only
      by_cases hp : progress (now - t0) < 1
      · simp only [hp, if_true]
        refine valid_of_same h rfl rfl (fun j => ?_)
        show (s.setData id _).enlarged j = s.enlarged j
        exact enlarged_setData_same hd (by rfl) j
      · simp only [hp, if_false]
        intro j hj
        have e : j = id := by
          have : some id = some j := hj
          exact (Option.some.inj this).symm
        subst e
        refine ⟨hmem, ?_⟩
        show (s.setData j _).enlarged j = true
        simp [State.enlarged, setData_get_same _ hd]
  | restore id sc sp sr t0 =>
    simp only [Animation.call]
    cases hd : s.heap[id]? with
    | none => exact h
    | some d =>
      simp only
      cases hp : d.originalLocalPosition with
      | none =>
        simp only
        refine valid_of_same h rfl rfl (fun j => ?_)
        exact enlarged_setData_same hd (by rfl) j
      | some olp =>
        simp only
        cases hr : d.originalLocalRotation with
        | none =>
          simp only
          refine valid_of_same h rfl rfl (fun j => ?_)
          exact enlarged_setData_same hd (by rfl) j
        | some olr =>
          simp only
          by_cases hlt : progress (now - t0) < 1
          · simp only [hlt, if_true]
            refine valid_of_same h rfl rfl (fun j => ?_)
            show (s.setData id _).enlarged j = s.enlarged j
            exact enlarged_setData_same hd (by rfl) j
          · simp only [hlt, if_false]
            refine valid_of_cleared h rfl rfl (fun j hj => ?_)
            show (s.setData id _).enlarged j = s.enlarged j
            exact enlarged_setData_other s _ (Ne.symm hj)
end Valid

section Valid2
variable {α : Type} [LinearOrderedField α]

theorem call_closuresCurrent (a : Animation α) (now : α) {s : State α}
    (h : s.enlargeClosuresCurrent) (hm : a.isEnlarge = true → a.imageData ∈ s.imageMeshes) :
    (a.call now s).enlargeClosuresCurrent := by
  intro c hc hce
  rw [(call_static a now s).2.1]
  rcases call_callbacks a now s with e | e
  · rw [e] at hc
    exact h c hc hce
  · rw [e] at hc
    rcases List.mem_append.1 hc with h1 | h1
    · exact h c h1 hce
    · simp only [List.mem_singleton] at h1
      subst h1
      exact hm hce

theorem foldl_call_valid (now : α) (cs : List (Animation α)) (st : State α)
    (h : st.enlargedImageValid)
    (hm : ∀ c ∈ cs, c.isEnlarge = true → c.imageData ∈ st.imageMeshes) :
    (cs.foldl (fun st a => a.call now st) st).enlargedImageValid := by
  induction cs generalizing st with
  | nil => exact h
  | cons a cs ih =>
    simp only [List.foldl_cons]
    apply ih _ (call_valid a now h (hm a (List.mem_cons_self _ _)))
    intro c hc hce
    rw [(call_static a now st).2.1]
    exact hm c (List.mem_cons_of_mem _ hc) hce

theorem frame_valid (now : α) {s : State α} (h : s.enlargedImageValid)
    (hc : s.enlargeClosuresCurrent) :
    (frame now s).enlargedImageValid ∧ (frame now s).enlargeClosuresCurrent := by
  constructor
  · unfold frame
    exact foldl_call_valid now s.callbacks _ (valid_of_same h rfl rfl (fun _ => rfl)) hc
  · intro c hcm hce
    rw [(frame_static now s).2.1]
    exact hc c ((frame_static now s).2.2.2 c hcm) hce

theorem restoreImage_valid (now : α) (id : Nat) (animate : Bool) {s : State α}
    (h : s.enlargedImageValid) (hc : s.enlargeClosuresCurrent) :
    (restoreImage now id animate s).enlargedImageValid ∧
    (restoreImage now id animate s).enlargeClosuresCurrent ∧
    (restoreImage now id animate s).imageMeshes = s.imageMeshes := by
  unfold restoreImage
  cases hd : s.heap[id]? with
  | none => exact ⟨h, hc, rfl⟩
  | some d =>
    simp only
    cases hp : d.originalLocalPosition with
    | none => exact ⟨h, hc, rfl⟩
    | some olp =>
      cases hr : d.originalLocalRotation with
      | none => exact ⟨h, hc, rfl⟩
      | some olr =>
        simp only
        cases animate with
        | false =>
          simp only [Bool.not_false, if_true]
          refine ⟨?_, hc, rfl⟩
          refine valid_of_cleared h rfl rfl (fun j hj => ?_)
          show (s.setData id _).enlarged j = s.enlarged j
          exact enlarged_setData_other s _ (Ne.symm hj)
        | true =>
          simp only [Bool.not_true, Bool.false_eq_true, if_false]
          exact ⟨call_valid _ now h (fun e => by simp [Animation.isEnlarge] at e),
            call_closuresCurrent _ now hc (fun e => by simp [Animation.isEnlarge] at e),
            (call_static _ now s).2.1⟩

end Valid2

section Valid2
variable {α : Type} [LinearOrderedField α]

theorem restorePrevious_cases (now : α) (id : Nat) (s : State α) :
    restorePrevious now id s = s ∨
      ∃ other, restorePrevious now id s = restoreImage now other false s := by
  unfold restorePrevious
  cases s.enlargedImage with
  | none => exact Or.inl rfl
  | some other =>
    by_cases ho : other ≠ id
    · exact Or.inr ⟨other, by simp [ho]⟩
    · exact Or.inl (by simp [ho])

theorem restorePrevious_valid (now : α) (id : Nat) {s : State α}
    (h : s.enlargedImageValid) (hc : s.enlargeClosuresCurrent) :
    (restorePrevious now id s).enlargedImageValid ∧
    (restorePrevious now id s).enlargeClosuresCurrent ∧
    (restorePrevious now id s).imageMeshes = s.imageMeshes := by
  rcases restorePrevious_cases now id s with e | ⟨other, e⟩
  · rw [e]; exact ⟨h, hc, rfl⟩
  · rw [e]; exact restoreImage_valid now other false h hc

theorem enlargeImage_valid (L : Lib α) (cam : Camera α) (now : α) {id : Nat} {s : State α}
    (h : s.enlargedImageValid) (hc : s.enlargeClosuresCurrent) (hm : id ∈ s.imageMeshes) :
    (enlargeImage L cam now id s).enlargedImageValid ∧
    (enlargeImage L cam now id s).enlargeClosuresCurrent ∧
    (enlargeImage L cam now id s).imageMeshes = s.imageMeshes := by
  obtain ⟨h1, hc1, hm1⟩ := restorePrevious_valid now id h hc
  have hv2 : ∀ d d2 : ImageData α, (restorePrevious now id s).heap[id]? = some d →
      d2.isEnlarged = d.isEnlarged →
      ((restorePrevious now id s).setData id d2).enlargedImageValid ∧
      ((restorePrevious now id s).setData id d2).enlargeClosuresCurrent ∧
      ((restorePrevious now id s).setData id d2).imageMeshes = s.imageMeshes :=
    fun d d2 hd he =>
      ⟨valid_of_same h1 rfl rfl (fun j => enlarged_setData_same hd he j), hc1, hm1⟩
  have hcall : ∀ (a : Animation α) (st : State α), st.enlargedImageValid →
      st.enlargeClosuresCurrent → st.imageMeshes = s.imageMeshes → a.imageData = id →
      (a.call now st).enlargedImageValid ∧ (a.call now st).enlargeClosuresCurrent ∧
      (a.call now st).imageMeshes = s.imageMeshes := by
    intro a st k1 k2 k3 ka
    have hmem : a.isEnlarge = true → a.imageData ∈ st.imageMeshes := by
      intro _
      rw [ka, k3]; exact hm
    exact ⟨call_valid a now k1 hmem, call_closuresCurrent a now k2 hmem,
      ((call_static a now st).2.1).trans k3⟩
  unfold enlargeImage
  simp only
  cases hd : (restorePrevious now id s).heap[id]? with
  | none => exact ⟨h1, hc1, hm1⟩
  | some d =>
    simp only
    have he : (if (!d.isEnlarged) = true then
          ({ d with
            originalWorldPosition :=
              L.getWorldPosition (ringYaw (restorePrevious now id s) d.group) d.group.position
            originalWorldQuaternion :=
              some (L.getWorldQuaternion (ringYaw (restorePrevious now id s) d.group)
                d.group.rotation)
            originalScale := d.group.scale
            originalLocalPosition := some d.group.position
            originalLocalRotation := some d.group.rotation } : ImageData α)
        else d).isEnlarged = d.isEnlarged := by
      split_ifs <;> rfl
    split
    · refine hv2 d _ hd ?_
      exact he
    · have k : ∀ d2 : ImageData α, d2.isEnlarged = d.isEnlarged → ∀ a : Animation α,
          a.imageData = id →
          (a.call now ((restorePrevious now id s).setData id d2)).enlargedImageValid ∧
          (a.call now ((restorePrevious now id s).setData id d2)).enlargeClosuresCurrent ∧
          (a.call now ((restorePrevious now id s).setData id d2)).imageMeshes = s.imageMeshes :=
        fun d2 h2 a ka =>
          hcall a _ (hv2 d d2 hd h2).1 (hv2 d d2 hd h2).2.1 (hv2 d d2 hd h2).2.2 ka
      refine k _ ?_ _ rfl
      exact he

theorem onImageClick_valid (L : Lib α) (cam : Camera α) (now : α) (hit : Option Nat)
    {s : State α} (h : s.enlargedImageValid) (hc : s.enlargeClosuresCurrent) :
    (onImageClick L cam now hit s).enlargedImageValid ∧
    (onImageClick L cam now hit s).enlargeClosuresCurrent := by
  unfold onImageClick
  split_ifs with h0
  · exact ⟨h, hc⟩
  · cases hit with
    | none => exact ⟨h, hc⟩
    | some id =>
      simp only
      split_ifs with hm
      · cases hd : s.heap[id]? with
        | none => exact ⟨h, hc⟩
        | some d =>
          simp only
          split_ifs
          · exact ⟨(restoreImage_valid now id true h hc).1, (restoreImage_valid now id true h hc).2.1⟩
          · exact ⟨(enlargeImage_valid L cam now h hc hm).1,
              (enlargeImage_valid L cam now h hc hm).2.1⟩
      · exact ⟨h, hc⟩

theorem run_valid (L : Lib α) (es : List (Event α)) {s : State α} (h : s.enlargedImageValid)
    (hc : s.enlargeClosuresCurrent) :
    (run L es s).enlargedImageValid ∧ (run L es s).enlargeClosuresCurrent := by
  induction es generalizing s with
  | nil => exact ⟨h, hc⟩
  | cons e es ih =>
    rw [run_cons]
    cases e with
    | click now cam hit =>
      obtain ⟨k1, k2⟩ := onImageClick_valid L cam now hit h hc
      exact ih k1 k2
    | tick now =>
      obtain ⟨k1, k2⟩ := frame_valid now h hc
      exact ih k1 k2

theorem initState_valid (L : Lib α) (P : Params α) (files : List String) :
    (initState L P files).enlargedImageValid ∧ (initState L P files).enlargeClosuresCurrent := by
  constructor
  · intro id hid
    simp [initState, createImageRing] at hid
  · intro c hc
    simp [initState, createImageRing] at hc
end Valid2

section ReloadLemmas
variable {α : Type} [LinearOrderedField α]

theorem reloadImages_callbacks (L : Lib α) (P : Params α) (files : List String) (s : State α) :
    (reloadImages L P files s).callbacks = s.callbacks := by
  unfold reloadImages
  split_ifs <;> rfl

theorem reloadImages_heap (L : Lib α) (P : Params α) (files : List String) (s : State α)
    {id : Nat} {d : ImageData α} (h : s.heap[id]? = some d) :
    (reloadImages L P files s).heap[id]? = some d := by
  have hlt := heap_lt h
  unfold reloadImages
  split_ifs
  · show (s.heap ++ _)[id]? = some d
    rw [List.getElem?_append_left hlt, h]
  · show (s.heap ++ _)[id]? = some d
    rw [List.getElem?_append_left hlt, h]

theorem reloadImages_imageMeshes (L : Lib α) (P : Params α) (files : List String)
    (s : State α) :
    (reloadImages L P files s).imageMeshes =
      (List.range (files.take 20).length).map (fun index => s.heap.length + index) := by
  unfold reloadImages
  split_ifs <;> rfl

theorem reloadImages_enlargedImage (L : Lib α) (P : Params α) (files : List String)
    (s : State α) (h : s.imageRing ≠ 0) : (reloadImages L P files s).enlargedImage = none := by
  unfold reloadImages
  simp [h, createImageRing]

theorem click_resting_length (L : Lib α) (cam : Camera α) (t0 : α) {s : State α} {id : Nat}
    (h : s.resting id) : (onImageClick L cam t0 (some id) s).heap.length = s.heap.length := by
  rw [onImageClick_resting_eq L cam t0 h]
  exact enlargeImage_length L cam t0 id s
end ReloadLemmas

/-- C27: for every sequence of clicks and frames from the state left by
`init()`, `enlargedImage`, when set, refers to a panel of the current
`imageMeshes` whose `isEnlarged` flag is set; with `reloadImages` this fails.
After a click on panel 0 at 0 ms, a call of `reloadImages` and the frame at
600 ms, the closure of the old panel 0 completes and makes it `enlargedImage`,
while `imageMeshes` holds the new panels 20 to 39 only. -/
theorem enlargedImage_stale_after_reload (L : Lib ℚ) (cam : Camera ℚ) :
    (∀ es : List (Event ℚ),
      (run L es (initState L defaultParams imageFiles)).enlargedImageValid) ∧
    (runActions L defaultParams
        [Action.event (Event.click 0 cam (some 0)), Action.reload imageFiles,
         Action.event (Event.tick 600)]
        (initState L defaultParams imageFiles)).enlargedImage = some 0 ∧
    (runActions L defaultParams
        [Action.event (Event.click 0 cam (some 0)), Action.reload imageFiles,
         Action.event (Event.tick 600)]
        (initState L defaultParams imageFiles)).imageMeshes
      = (List.range 20).map (fun index => 20 + index) ∧
    0 ∉ (runActions L defaultParams
        [Action.event (Event.click 0 cam (some 0)), Action.reload imageFiles,
         Action.event (Event.tick 600)]
        (initState L defaultParams imageFiles)).imageMeshes ∧
    (runActions L defaultParams
        [Action.event (Event.click 0 cam (some 0)), Action.reload imageFiles,
         Action.event (Event.tick 600)]
        (initState L defaultParams imageFiles)).enlarged 0 = true ∧
    ¬ (runActions L defaultParams
        [Action.event (Event.click 0 cam (some 0)), Action.reload imageFiles,
         Action.event (Event.tick 600)]
        (initState L defaultParams imageFiles)).enlargedImageValid := by
  have hrest := initState_resting L (defaultParams : Params ℚ) imageFiles 0 (by decide)
  have hd0 := initState_getElem? L (defaultParams : Params ℚ) imageFiles 0 (by decide)
  obtain ⟨⟨he, d1, hd1, _, _, _⟩, _, _⟩ := click_resting L cam 0 hrest hd0
  have hlen : (onImageClick L cam 0 (some 0) (initState L defaultParams imageFiles)).heap.length
      = 20 := by
    rw [click_resting_length L cam 0 hrest, initState_heap]
    simp [imageFiles_length]
  have he2 : (reloadImages L defaultParams imageFiles
      (onImageClick L cam 0 (some 0) (initState L defaultParams imageFiles))).enlargingTo 0
      ⟨cam.position.x + cam.direction.x * 8, cam.position.y + cam.direction.y * 8,
       cam.position.z + cam.direction.z * 8⟩
      ⟨0, L.atan2 cam.direction.x cam.direction.z + L.PI, 0⟩ 0 := by
    obtain ⟨cs, sc, sp, sr, hcs, hq⟩ := he
    exact ⟨cs, sc, sp, sr, (reloadImages_callbacks L defaultParams imageFiles _).trans hcs, hq⟩
  have hd2 := reloadImages_heap L (defaultParams : Params ℚ) imageFiles _ hd1
  have hm2 := reloadImages_imageMeshes L (defaultParams : Params ℚ) imageFiles
    (onImageClick L cam 0 (some 0) (initState L defaultParams imageFiles))
  rw [hlen] at hm2
  have ht : (600 : ℚ) ≤ 600 - 0 := by norm_num
  obtain ⟨_, k2, k3⟩ := frame_enlarging_done he2 hd2 ht
  have hm3 := (frame_static (600 : ℚ) (reloadImages L defaultParams imageFiles
      (onImageClick L cam 0 (some 0) (initState L defaultParams imageFiles)))).2.1
  have hrun : runActions L defaultParams
        [Action.event (Event.click 0 cam (some 0)), Action.reload imageFiles,
         Action.event (Event.tick 600)]
        (initState L defaultParams imageFiles)
      = frame 600 (reloadImages L defaultParams imageFiles
          (onImageClick L cam 0 (some 0) (initState L defaultParams imageFiles))) := rfl
  have hmesh : (frame (600 : ℚ) (reloadImages L defaultParams imageFiles
      (onImageClick L cam 0 (some 0) (initState L defaultParams imageFiles)))).imageMeshes
      = (List.range 20).map (fun index => 20 + index) := by
    rw [hm3, hm2]
    rfl
  have hnot : 0 ∉ (List.range 20).map (fun index => 20 + index) := by decide
  rw [hrun]
  refine ⟨fun es => (run_valid L es (initState_valid L defaultParams imageFiles).1
      (initState_valid L defaultParams imageFiles).2).1, k2, hmesh, ?_, ?_, ?_⟩
  · rw [hmesh]; exact hnot
  · simp [State.enlarged, k3]
  · intro hv
    have := (hv 0 k2).1
    rw [hmesh] at this
    exact hnot this

/-! ## The trunk -/

section Trunk
variable {α : Type} [LinearOrderedField α] [FloorRing α]

theorem trunkStep_positions (L : Lib α) (P : Params α) (rnd : Nat → α) (i : Nat)
    (t : TreeArrays α) :
    (trunkStep L P rnd i t).positions = t.positions ++
      [L.cos (rnd (8 * P.particleCount + 3 * i + 1) * L.PI * 2)
          * (rnd (8 * P.particleCount + 3 * i + 2) * (P.treeWidth * 0.1)),
       (rnd (8 * P.particleCount + 3 * i) - 0.5) * (P.treeHeight * 0.15),
       L.sin (rnd (8 * P.particleCount + 3 * i + 1) * L.PI * 2)
          * (rnd (8 * P.particleCount + 3 * i + 2) * (P.treeWidth * 0.1))] := rfl

theorem trunkLoop_extends (L : Lib α) (P : Params α) (rnd : Nat → α) (t : TreeArrays α)
    (i n : Nat) (h : i ≤ n) :
    ∃ r, (trunkLoop L P rnd t n).positions = (trunkLoop L P rnd t i).positions ++ r := by
  induction n with
  | zero =>
    have : i = 0 := by omega
    subst this
    exact ⟨[], (List.append_nil _).symm⟩
  | succ n ih =>
    rcases Nat.lt_or_ge i (n + 1) with h1 | h1
    · obtain ⟨r, hr⟩ := ih (by omega)
      refine ⟨r ++ [L.cos (rnd (8 * P.particleCount + 3 * n + 1) * L.PI * 2)
            * (rnd (8 * P.particleCount + 3 * n + 2) * (P.treeWidth * 0.1)),
          (rnd (8 * P.particleCount + 3 * n) - 0.5) * (P.treeHeight * 0.15),
          L.sin (rnd (8 * P.particleCount + 3 * n + 1) * L.PI * 2)
            * (rnd (8 * P.particleCount + 3 * n + 2) * (P.treeWidth * 0.1))], ?_⟩
      simp only [trunkLoop, trunkStep_positions, hr, List.append_assoc]
    · have : i = n + 1 := by omega
      subst this
      exact ⟨[], (List.append_nil _).symm⟩

/-- The particle that the iteration `i` of the trunk loop pushes is the
particle `particleCount + i` of the finished position array. -/
theorem trunk_particle (L : Lib α) (P : Params α) (rnd : Nat → α) (i : Nat)
    (hi : i < (trunkParticles P).toNat) :
    (createParticleTree L P rnd).positions[3 * (P.particleCount + i)]? =
      some (L.cos (rnd (8 * P.particleCount + 3 * i + 1) * L.PI * 2)
          * (rnd (8 * P.particleCount + 3 * i + 2) * (P.treeWidth * 0.1))) ∧
    (createParticleTree L P rnd).positions[3 * (P.particleCount + i) + 1]? =
      some ((rnd (8 * P.particleCount + 3 * i) - 0.5) * (P.treeHeight * 0.15)) ∧
    (createParticleTree L P rnd).positions[3 * (P.particleCount + i) + 2]? =
      some (L.sin (rnd (8 * P.particleCount + 3 * i + 1) * L.PI * 2)
          * (rnd (8 * P.particleCount + 3 * i + 2) * (P.treeWidth * 0.1))) := by
  obtain ⟨r, hp⟩ := trunkLoop_extends L P rnd (canopyLoop L P rnd P.particleCount) (i + 1)
    (trunkParticles P).toNat hi
  have hlen : (trunkLoop L P rnd (canopyLoop L P rnd P.particleCount) i).positions.length
      = 3 * (P.particleCount + i) := by
    rw [(trunkLoop_length L P rnd _ i).1, (canopyLoop_length L P rnd _).1]
    ring
  have hp1 : (createParticleTree L P rnd).positions =
      (trunkLoop L P rnd (canopyLoop L P rnd P.particleCount) i).positions ++
        [L.cos (rnd (8 * P.particleCount + 3 * i + 1) * L.PI * 2)
            * (rnd (8 * P.particleCount + 3 * i + 2) * (P.treeWidth * 0.1)),
         (rnd (8 * P.particleCount + 3 * i) - 0.5) * (P.treeHeight * 0.15),
         L.sin (rnd (8 * P.particleCount + 3 * i + 1) * L.PI * 2)
            * (rnd (8 * P.particleCount + 3 * i + 2) * (P.treeWidth * 0.1))] ++ r := by
    unfold createParticleTree
    rw [hp]
    rfl
  exact getElem?_of_append_triple hlen hp1
end Trunk

/-- C23, amended: for every trunk particle of the tree, with draws in `[0, 1)`
and the real cosine and sine, the particle lies in the cylinder of radius
`0.1 * treeWidth` about the vertical axis, and its height is
`(draw - 0.5) * 0.15 * treeHeight`, between `-0.075 * treeHeight` and
`0.075 * treeHeight`: the trunk is centred on the height 0, the base of the
canopy, and half of it reaches into the canopy. -/
theorem trunk_particle_cylinder (L : Lib ℝ) (P : Params ℝ) (rnd : Nat → ℝ)
    (hr : ∀ k, 0 ≤ rnd k ∧ rnd k < 1) (hW : 0 ≤ P.treeWidth) (hH : 0 ≤ P.treeHeight)
    (i : Nat) (hi : i < (trunkParticles P).toNat) :
    ∃ x y z : ℝ,
      (createParticleTree (realMath L) P rnd).positions[3 * (P.particleCount + i)]? = some x ∧
      (createParticleTree (realMath L) P rnd).positions[3 * (P.particleCount + i) + 1]? = some y ∧
      (createParticleTree (realMath L) P rnd).positions[3 * (P.particleCount + i) + 2]? = some z ∧
      Real.sqrt (x ^ 2 + z ^ 2) ≤ 0.1 * P.treeWidth ∧
      y = (rnd (8 * P.particleCount + 3 * i) - 0.5) * (0.15 * P.treeHeight) ∧
      -(0.075 * P.treeHeight) ≤ y ∧ y ≤ 0.075 * P.treeHeight := by
  obtain ⟨h1, h2, h3⟩ := trunk_particle (realMath L) P rnd i hi
  refine ⟨_, _, _, h1, h2, h3, ?_, by ring, ?_, ?_⟩
  · have hk := hr (8 * P.particleCount + 3 * i + 2)
    have hrad : 0 ≤ rnd (8 * P.particleCount + 3 * i + 2) * (P.treeWidth * 0.1) :=
      mul_nonneg hk.1 (mul_nonneg hW (by norm_num))
    rw [spiral_distance_lib L _ _ hrad]
    nlinarith [hk.2]
  · have hk := hr (8 * P.particleCount + 3 * i)
    nlinarith [hk.1]
  · have hk := hr (8 * P.particleCount + 3 * i)
    nlinarith [hk.2]

theorem trunkParticles_default {α : Type} [LinearOrderedField α] [FloorRing α] :
    trunkParticles (defaultParams : Params α) = 250 := by
  unfold trunkParticles
  rw [Int.floor_eq_iff]
  simp only [defaultParams]
  norm_num

/-- The amended theorem of C23 at the first trunk particle of the default tree
with all draws equal to 1/2. -/
theorem trunk_particle_cylinder_witness :
    (∀ k : Nat, 0 ≤ (fun _ : Nat => (1 / 2 : ℝ)) k ∧ (fun _ : Nat => (1 / 2 : ℝ)) k < 1) ∧
    0 ≤ (defaultParams : Params ℝ).treeWidth ∧ 0 ≤ (defaultParams : Params ℝ).treeHeight ∧
    0 < (trunkParticles (defaultParams : Params ℝ)).toNat ∧
    ∃ x y z : ℝ,
      (createParticleTree (realMath flatLib) defaultParams (fun _ => 1 / 2)).positions[
        3 * ((defaultParams : Params ℝ).particleCount + 0)]? = some x ∧
      (createParticleTree (realMath flatLib) defaultParams (fun _ => 1 / 2)).positions[
        3 * ((defaultParams : Params ℝ).particleCount + 0) + 1]? = some y ∧
      (createParticleTree (realMath flatLib) defaultParams (fun _ => 1 / 2)).positions[
        3 * ((defaultParams : Params ℝ).particleCount + 0) + 2]? = some z ∧
      Real.sqrt (x ^ 2 + z ^ 2) ≤ 0.1 * (defaultParams : Params ℝ).treeWidth ∧
      -(0.075 * (defaultParams : Params ℝ).treeHeight) ≤ y ∧
      y ≤ 0.075 * (defaultParams : Params ℝ).treeHeight :=
  have hr : ∀ k : Nat, 0 ≤ (fun _ : Nat => (1 / 2 : ℝ)) k ∧ (fun _ : Nat => (1 / 2 : ℝ)) k < 1 :=
    fun _ => by norm_num
  have hW : 0 ≤ (defaultParams : Params ℝ).treeWidth := by simp [defaultParams]
  have hH : 0 ≤ (defaultParams : Params ℝ).treeHeight := by simp [defaultParams]
  have hi : 0 < (trunkParticles (defaultParams : Params ℝ)).toNat := by
    rw [trunkParticles_default]; decide
  ⟨hr, hW, hH, hi,
    let ⟨x, y, z, h1, h2, h3, h4, _, h6, h7⟩ :=
      trunk_particle_cylinder flatLib defaultParams (fun _ => 1 / 2) hr hW hH 0 hi
    ⟨x, y, z, h1, h2, h3, h4, h6, h7⟩⟩

theorem trunkDraws_unit (k : Nat) : 0 ≤ (trunkDraws k : ℚ) ∧ (trunkDraws k : ℚ) < 1 := by
  unfold trunkDraws
  split_ifs <;> norm_num

/-- C23, counterexample: with the default parameters (5000 canopy particles, 250
trunk particles, `treeHeight = 15`) and the draws `trunkDraws`, all in `[0, 1)`,
the first trunk particle, particle 5000 of the tree, has the height `9/10`,
above 0. -/
theorem trunk_particle_above_canopy_base :
    (∀ k : Nat, 0 ≤ (trunkDraws k : ℚ) ∧ (trunkDraws k : ℚ) < 1) ∧
    (5000 : Nat) = (defaultParams : Params ℚ).particleCount + 0 ∧
    0 < (trunkParticles (defaultParams : Params ℚ)).toNat ∧
    (createParticleTree (flatLib : Lib ℚ) defaultParams trunkDraws).positions[3 * 5000 + 1]?
      = some (9 / 10 : ℚ) ∧
    ¬ ((9 / 10 : ℚ) ≤ 0) := by
  have hi : 0 < (trunkParticles (defaultParams : Params ℚ)).toNat := by
    rw [trunkParticles_default]; decide
  obtain ⟨_, h2, _⟩ := trunk_particle (flatLib : Lib ℚ) defaultParams trunkDraws 0 hi
  have hy : ((trunkDraws (8 * (defaultParams : Params ℚ).particleCount + 3 * 0) : ℚ) - 0.5)
      * ((defaultParams : Params ℚ).treeHeight * 0.15) = 9 / 10 := by
    simp only [trunkDraws, defaultParams]
    norm_num
  rw [hy] at h2
  exact ⟨trunkDraws_unit, rfl, hi, h2, by norm_num⟩

/-! ## The star: the wedge between two outer vertices -/

theorem outerPoint_real (L : Lib ℝ) (k : Nat) :
    (outerPoint (realMath L) k).y = Real.cos ((k : ℝ) * (Real.pi * 2 / 5) - Real.pi / 2) * 1.5 ∧
    (outerPoint (realMath L) k).z = Real.sin ((k : ℝ) * (Real.pi * 2 / 5) - Real.pi / 2) * 1.5 :=
  ⟨rfl, rfl⟩

theorem innerPoint_real (L : Lib ℝ) (k : Nat) :
    (innerPoint (realMath L) k).y =
      Real.cos ((k : ℝ) * (Real.pi * 2 / 5) - Real.pi / 2 + Real.pi * 2 / 5 / 2) * 1.5 * 0.38 ∧
    (innerPoint (realMath L) k).z =
      Real.sin ((k : ℝ) * (Real.pi * 2 / 5) - Real.pi / 2 + Real.pi * 2 / 5 / 2) * 1.5 * 0.38 :=
  ⟨rfl, rfl⟩

/-- The component of an outer vertex along the direction of `inner_0`. -/
theorem outer_along_notch (L : Lib ℝ) (k : Nat) :
    (outerPoint (realMath L) k).y * Real.cos (-(Real.pi / 2) + Real.pi / 5)
      + (outerPoint (realMath L) k).z * Real.sin (-(Real.pi / 2) + Real.pi / 5)
      = 1.5 * Real.cos ((k : ℝ) * (Real.pi * 2 / 5) - Real.pi / 5) := by
  obtain ⟨hy, hz⟩ := outerPoint_real L k
  have h := Real.cos_sub ((k : ℝ) * (Real.pi * 2 / 5) - Real.pi / 2)
    (-(Real.pi / 2) + Real.pi / 5)
  have e : (k : ℝ) * (Real.pi * 2 / 5) - Real.pi / 2 - (-(Real.pi / 2) + Real.pi / 5)
      = (k : ℝ) * (Real.pi * 2 / 5) - Real.pi / 5 := by ring
  rw [e] at h
  rw [hy, hz, h]
  ring

/-- The component of an inner vertex along the direction of `inner_0`. -/
theorem inner_along_notch (L : Lib ℝ) (k : Nat) :
    (innerPoint (realMath L) k).y * Real.cos (-(Real.pi / 2) + Real.pi / 5)
      + (innerPoint (realMath L) k).z * Real.sin (-(Real.pi / 2) + Real.pi / 5)
      = 0.57 * Real.cos ((k : ℝ) * (Real.pi * 2 / 5)) := by
  obtain ⟨hy, hz⟩ := innerPoint_real L k
  have h := Real.cos_sub ((k : ℝ) * (Real.pi * 2 / 5) - Real.pi / 2 + Real.pi * 2 / 5 / 2)
    (-(Real.pi / 2) + Real.pi / 5)
  have e : (k : ℝ) * (Real.pi * 2 / 5) - Real.pi / 2 + Real.pi * 2 / 5 / 2
        - (-(Real.pi / 2) + Real.pi / 5)
      = (k : ℝ) * (Real.pi * 2 / 5) := by ring
  rw [e] at h
  rw [hy, hz, h]
  ring

theorem cos_pi_div_five_ge : (1 / 2 : ℝ) ≤ Real.cos (Real.pi / 5) := by
  have h := Real.cos_le_cos_of_nonneg_of_le_pi (x := Real.pi / 5) (y := Real.pi / 3)
    (by positivity) (by linarith [Real.pi_pos]) (by linarith [Real.pi_pos])
  rwa [Real.cos_pi_div_three] at h

theorem outer_along_notch_values (L : Lib ℝ) :
    (outerPoint (realMath L) 0).y * Real.cos (-(Real.pi / 2) + Real.pi / 5)
      + (outerPoint (realMath L) 0).z * Real.sin (-(Real.pi / 2) + Real.pi / 5)
      = 1.5 * Real.cos (Real.pi / 5) ∧
    (outerPoint (realMath L) 1).y * Real.cos (-(Real.pi / 2) + Real.pi / 5)
      + (outerPoint (realMath L) 1).z * Real.sin (-(Real.pi / 2) + Real.pi / 5)
      = 1.5 * Real.cos (Real.pi / 5) ∧
    (∀ k : Nat, 2 ≤ k → k ≤ 4 →
      (outerPoint (realMath L) k).y * Real.cos (-(Real.pi / 2) + Real.pi / 5)
        + (outerPoint (realMath L) k).z * Real.sin (-(Real.pi / 2) + Real.pi / 5) ≤ 0) := by
  have hpi := Real.pi_pos
  refine ⟨?_, ?_, ?_⟩
  · rw [outer_along_notch]
    have e : ((0 : Nat) : ℝ) * (Real.pi * 2 / 5) - Real.pi / 5 = -(Real.pi / 5) := by
      push_cast; ring
    rw [e, Real.cos_neg]
  · rw [outer_along_notch]
    have e : ((1 : Nat) : ℝ) * (Real.pi * 2 / 5) - Real.pi / 5 = Real.pi / 5 := by
      push_cast; ring
    rw [e]
  · intro k h2 h4
    rw [outer_along_notch]
    have hk2 : (2 : ℝ) ≤ (k : ℝ) := by exact_mod_cast h2
    have hk4 : (k : ℝ) ≤ 4 := by exact_mod_cast h4
    have hc : Real.cos ((k : ℝ) * (Real.pi * 2 / 5) - Real.pi / 5) ≤ 0 := by
      apply Real.cos_nonpos_of_pi_div_two_le_of_le
      · nlinarith
      · nlinarith
    nlinarith

theorem inner_along_notch_le (L : Lib ℝ) (k : Nat) :
    (innerPoint (realMath L) k).y * Real.cos (-(Real.pi / 2) + Real.pi / 5)
      + (innerPoint (realMath L) k).z * Real.sin (-(Real.pi / 2) + Real.pi / 5) ≤ 0.57 := by
  rw [inner_along_notch]
  have := Real.cos_le_one ((k : ℝ) * (Real.pi * 2 / 5))
  nlinarith

/-- A combination of two values, one at most `m` and one below `m`, with
weights of sum at most 1, reaches `m > 0` only with the whole weight on the
first. -/
theorem weights_at_maximum {a b c1 c2 m : ℝ} (ha : 0 ≤ a) (hb : 0 ≤ b) (hab : a + b ≤ 1)
    (h1 : c1 ≤ m) (h2 : c2 < m) (hm : 0 < m) (h : a * c1 + b * c2 = m) : a = 1 ∧ b = 0 := by
  have hb0 : b = 0 := by
    by_contra hne
    have hbpos : 0 < b := lt_of_le_of_ne hb (Ne.symm hne)
    nlinarith [mul_le_mul_of_nonneg_left h1 ha, mul_lt_mul_of_pos_left h2 hbpos]
  subst hb0
  refine ⟨?_, rfl⟩
  by_contra hne
  have ha1 : a < 1 := lt_of_le_of_ne (by linarith) hne
  nlinarith [mul_le_mul_of_nonneg_left h1 ha]

theorem outer_zero_one_differ (L : Lib ℝ) :
    (outerPoint (realMath L) 0).y = 0 ∧ 0 < (outerPoint (realMath L) 1).y := by
  have hpi := Real.pi_pos
  constructor
  · rw [(outerPoint_real L 0).1]
    have e : ((0 : Nat) : ℝ) * (Real.pi * 2 / 5) - Real.pi / 2 = -(Real.pi / 2) := by
      push_cast; ring
    rw [e, Real.cos_neg, Real.cos_pi_div_two]
    ring
  · rw [(outerPoint_real L 1).1]
    have hc : 0 < Real.cos (((1 : Nat) : ℝ) * (Real.pi * 2 / 5) - Real.pi / 2) := by
      apply Real.cos_pos_of_mem_Ioo
      constructor
      · push_cast; nlinarith
      · push_cast; nlinarith
    nlinarith

theorem fan_triangle_below {c s m n a b : ℝ} {M v w : ℝ × ℝ} (ha : 0 ≤ a) (hb : 0 ≤ b)
    (hab : a + b ≤ 1) (hM : M.1 * c + M.2 * s = m) (hn : n < m) (hn0 : 0 ≤ n)
    (hv : v.1 * c + v.2 * s ≤ n) (hw : w.1 * c + w.2 * s ≤ n)
    (hp : M = (a * v.1 + b * w.1, a * v.2 + b * w.2)) : False := by
  have h1 : M.1 = a * v.1 + b * w.1 := by rw [hp]
  have h2 : M.2 = a * v.2 + b * w.2 := by rw [hp]
  have h : a * (v.1 * c + v.2 * s) + b * (w.1 * c + w.2 * s) = m := by
    rw [← hM, h1, h2]; ring
  nlinarith [mul_le_mul_of_nonneg_left hv ha, mul_le_mul_of_nonneg_left hw hb]

theorem fan_triangle_first {c s m n a b : ℝ} {M v w : ℝ × ℝ} (ha : 0 ≤ a) (hb : 0 ≤ b)
    (hab : a + b ≤ 1) (hM : M.1 * c + M.2 * s = m) (hn : n < m) (hm : 0 < m)
    (hv : v.1 * c + v.2 * s = m) (hw : w.1 * c + w.2 * s ≤ n)
    (hp : M = (a * v.1 + b * w.1, a * v.2 + b * w.2)) : M.1 = v.1 := by
  have h1 : M.1 = a * v.1 + b * w.1 := by rw [hp]
  have h2 : M.2 = a * v.2 + b * w.2 := by rw [hp]
  have h : a * (v.1 * c + v.2 * s) + b * (w.1 * c + w.2 * s) = m := by
    rw [← hM, h1, h2]; ring
  obtain ⟨e1, e2⟩ := weights_at_maximum ha hb hab (le_of_eq hv) (lt_of_le_of_lt hw hn) hm h
  rw [h1, e1, e2]; ring

theorem fan_triangle_second {c s m n a b : ℝ} {M v w : ℝ × ℝ} (ha : 0 ≤ a) (hb : 0 ≤ b)
    (hab : a + b ≤ 1) (hM : M.1 * c + M.2 * s = m) (hn : n < m) (hm : 0 < m)
    (hv : v.1 * c + v.2 * s ≤ n) (hw : w.1 * c + w.2 * s = m)
    (hp : M = (a * v.1 + b * w.1, a * v.2 + b * w.2)) : M.1 = w.1 := by
  have h1 : M.1 = a * v.1 + b * w.1 := by rw [hp]
  have h2 : M.2 = a * v.2 + b * w.2 := by rw [hp]
  have h : b * (w.1 * c + w.2 * s) + a * (v.1 * c + v.2 * s) = m := by
    rw [← hM, h1, h2]; ring
  obtain ⟨e1, e2⟩ := weights_at_maximum hb ha (by linarith) (le_of_eq hw)
    (lt_of_le_of_lt hv hn) hm h
  rw [h1, e1, e2]; ring

/-- The middle of the segment from `outer_0` to `outer_1` is not a point of the
star polygon. -/
theorem notch_midpoint_outside (L : Lib ℝ) :
    ¬ specInsideStarPolygon (realMath L)
      (((outerPoint (realMath L) 0).y + (outerPoint (realMath L) 1).y) / 2,
       ((outerPoint (realMath L) 0).z + (outerPoint (realMath L) 1).z) / 2) := by
  obtain ⟨f0, f1, fk⟩ := outer_along_notch_values L
  have fi := inner_along_notch_le L
  obtain ⟨y0, y1⟩ := outer_zero_one_differ L
  have hc := cos_pi_div_five_ge
  have hm : (0 : ℝ) < 1.5 * Real.cos (Real.pi / 5) := by nlinarith
  have hn : (0.57 : ℝ) < 1.5 * Real.cos (Real.pi / 5) := by nlinarith
  have hn0 : (0 : ℝ) ≤ 0.57 := by norm_num
  have hM : (((outerPoint (realMath L) 0).y + (outerPoint (realMath L) 1).y) / 2,
       ((outerPoint (realMath L) 0).z + (outerPoint (realMath L) 1).z) / 2).1
        * Real.cos (-(Real.pi / 2) + Real.pi / 5)
      + (((outerPoint (realMath L) 0).y + (outerPoint (realMath L) 1).y) / 2,
       ((outerPoint (realMath L) 0).z + (outerPoint (realMath L) 1).z) / 2).2
        * Real.sin (-(Real.pi / 2) + Real.pi / 5)
      = 1.5 * Real.cos (Real.pi / 5) := by
    simp only
    linear_combination f0 / 2 + f1 / 2
  have o2 := fk 2 (le_refl 2) (by norm_num)
  have o3 := fk 3 (by norm_num) (by norm_num)
  have o4 := fk 4 (by norm_num) (le_refl 4)
  have o2' : (outerPoint (realMath L) 2).y * Real.cos (-(Real.pi / 2) + Real.pi / 5)
      + (outerPoint (realMath L) 2).z * Real.sin (-(Real.pi / 2) + Real.pi / 5) ≤ 0.57 :=
    le_trans o2 hn0
  have o3' : (outerPoint (realMath L) 3).y * Real.cos (-(Real.pi / 2) + Real.pi / 5)
      + (outerPoint (realMath L) 3).z * Real.sin (-(Real.pi / 2) + Real.pi / 5) ≤ 0.57 :=
    le_trans o3 hn0
  have o4' : (outerPoint (realMath L) 4).y * Real.cos (-(Real.pi / 2) + Real.pi / 5)
      + (outerPoint (realMath L) 4).z * Real.sin (-(Real.pi / 2) + Real.pi / 5) ≤ 0.57 :=
    le_trans o4 hn0
  rintro ⟨j, hj, a, b, ha, hb, hab, hp⟩
  have atO0 : (((outerPoint (realMath L) 0).y + (outerPoint (realMath L) 1).y) / 2,
       ((outerPoint (realMath L) 0).z + (outerPoint (realMath L) 1).z) / 2).1
      = (outerPoint (realMath L) 0).y → False := by
    intro h
    simp only at h
    linarith
  have atO1 : (((outerPoint (realMath L) 0).y + (outerPoint (realMath L) 1).y) / 2,
       ((outerPoint (realMath L) 0).z + (outerPoint (realMath L) 1).z) / 2).1
      = (outerPoint (realMath L) 1).y → False := by
    intro h
    simp only at h
    linarith
  interval_cases j
  · exact atO0 (fan_triangle_first (v := starVertex (realMath L) 0)
      (w := starVertex (realMath L) 1) ha hb hab hM hn hm f0 (fi 0) hp)
  · exact atO1 (fan_triangle_second (v := starVertex (realMath L) 1)
      (w := starVertex (realMath L) 2) ha hb hab hM hn hm (fi 0) f1 hp)
  · exact atO1 (fan_triangle_first (v := starVertex (realMath L) 2)
      (w := starVertex (realMath L) 3) ha hb hab hM hn hm f1 (fi 1) hp)
  · exact fan_triangle_below (v := starVertex (realMath L) 3)
      (w := starVertex (realMath L) 4) ha hb hab hM hn hn0 (fi 1) o2' hp
  · exact fan_triangle_below (v := starVertex (realMath L) 4)
      (w := starVertex (realMath L) 5) ha hb hab hM hn hn0 o2' (fi 2) hp
  · exact fan_triangle_below (v := starVertex (realMath L) 5)
      (w := starVertex (realMath L) 6) ha hb hab hM hn hn0 (fi 2) o3' hp
  · exact fan_triangle_below (v := starVertex (realMath L) 6)
      (w := starVertex (realMath L) 7) ha hb hab hM hn hn0 o3' (fi 3) hp
  · exact fan_triangle_below (v := starVertex (realMath L) 7)
      (w := starVertex (realMath L) 8) ha hb hab hM hn hn0 (fi 3) o4' hp
  · exact fan_triangle_below (v := starVertex (realMath L) 8)
      (w := starVertex (realMath L) 9) ha hb hab hM hn hn0 o4' (fi 4) hp
  · exact atO0 (fan_triangle_second (v := starVertex (realMath L) 9)
      (w := starVertex (realMath L) 10) ha hb hab hM hn hm (fi 4) f0 hp)

section StarLoop
variable {α : Type} [LinearOrderedField α] [FloorRing α]

theorem starStep_positions (L : Lib α) (P : Params α) (rnd : Nat → α) (t : DiskArrays α) :
    ∃ x y z, (starStep L P rnd t).positions = t.positions ++ [x, y, z] :=
  ⟨_, _, _, rfl⟩

theorem starLoop_extends (L : Lib α) (P : Params α) (rnd : Nat → α) (i n : Nat) (h : i ≤ n) :
    ∃ r, (starLoop L P rnd n).positions = (starLoop L P rnd i).positions ++ r := by
  induction n with
  | zero =>
    have : i = 0 := by omega
    subst this
    exact ⟨[], (List.append_nil _).symm⟩
  | succ n ih =>
    rcases Nat.lt_or_ge i (n + 1) with h1 | h1
    · obtain ⟨r, hr⟩ := ih (by omega)
      obtain ⟨x, y, z, hs⟩ := starStep_positions L P rnd (starLoop L P rnd n)
      refine ⟨r ++ [x, y, z], ?_⟩
      simp only [starLoop, hs, hr, List.append_assoc]
    · have : i = n + 1 := by omega
      subst this
      exact ⟨[], (List.append_nil _).symm⟩

/-- The first particle of the star is the one the first iteration pushes. -/
theorem star_first_particle (L : Lib α) (P : Params α) (rnd : Nat → α)
    (hN : 0 < P.starParticleCount) {x y z : α}
    (hs : (starStep L P rnd ⟨[], [], [], [], 0⟩).positions = [] ++ [x, y, z]) :
    (createStar L P rnd).positions[0]? = some x ∧
    (createStar L P rnd).positions[1]? = some y ∧
    (createStar L P rnd).positions[2]? = some z := by
  obtain ⟨r, hp⟩ := starLoop_extends L P rnd 1 P.starParticleCount hN
  have hp1 : (createStar L P rnd).positions = [] ++ [x, y, z] ++ r := by
    unfold createStar
    rw [hp]
    show (starStep L P rnd ⟨[], [], [], [], 0⟩).positions ++ r = _
    rw [hs]
  exact getElem?_of_append_triple (l := []) rfl hp1
end StarLoop

theorem notchDraws_unit (k : Nat) : 0 ≤ (notchDraws k : ℝ) ∧ (notchDraws k : ℝ) < 1 := by
  unfold notchDraws
  split_ifs <;> norm_num

theorem starWedge_zero (L : Lib ℝ) :
    starWedge (realMath L) 0 =
      (outerPoint (realMath L) 0, innerPoint (realMath L) 0, outerPoint (realMath L) 1) := by
  simp [starWedge]

/-- C22: a star particle can be generated outside the star polygon.  With the
default parameters and the draws `notchDraws`, all in `[0, 1)`, the first star
particle takes the wedge branch with the segment 0, whose triangle is
`outer_0, inner_0, outer_1`, and is pushed at `x = 0` and at the middle of the
segment from `outer_0` to `outer_1` in the plane of `y` and `z`; that point is
not in the star polygon bounded by `outer_0, inner_0, outer_1, ..., inner_4`. -/
theorem star_particle_in_notch (L : Lib ℝ) :
    (∀ k : Nat, 0 ≤ (notchDraws k : ℝ) ∧ (notchDraws k : ℝ) < 1) ∧
    (starWedge (realMath L) (notchDraws 1) =
      (outerPoint (realMath L) 0, innerPoint (realMath L) 0, outerPoint (realMath L) 1)) ∧
    ∃ y z : ℝ,
      (createStar (realMath L) defaultParams notchDraws).positions[0]? = some (0 : ℝ) ∧
      (createStar (realMath L) defaultParams notchDraws).positions[1]?
        = some (((defaultParams : Params ℝ).treeHeight + 2.0) + y) ∧
      (createStar (realMath L) defaultParams notchDraws).positions[2]? = some z ∧
      y = ((outerPoint (realMath L) 0).y + (outerPoint (realMath L) 1).y) / 2 ∧
      z = ((outerPoint (realMath L) 0).z + (outerPoint (realMath L) 1).z) / 2 ∧
      ¬ specInsideStarPolygon (realMath L) (y, z) := by
  have e0 : (notchDraws 0 : ℝ) = 0 := by simp [notchDraws]
  have e1 : (notchDraws (0 + 1) : ℝ) = 0 := by simp [notchDraws]
  have e2 : (notchDraws (0 + 2) : ℝ) = 0 := by simp [notchDraws]
  have e3 : (notchDraws (0 + 3) : ℝ) = 1 / 2 := by simp [notchDraws]
  have e4 : (notchDraws (0 + 4) : ℝ) = 1 / 2 := by simp [notchDraws]
  have hw : (notchDraws (⟨[], [], [], [], 0⟩ : DiskArrays ℝ).draws : ℝ) < 0.6 := by
    show (notchDraws 0 : ℝ) < 0.6
    rw [e0]; norm_num
  have hs := starStep_wedge (realMath L) (defaultParams : Params ℝ) notchDraws
    ⟨[], [], [], [], 0⟩ hw
  simp only [e1, e2, e3, e4, starWedge_zero] at hs
  have hif : ¬ ((0 : ℝ) + 1 / 2 > 1) := by norm_num
  simp only [hif, if_false] at hs
  have hN : 0 < (defaultParams : Params ℝ).starParticleCount := by simp [defaultParams]
  obtain ⟨h1, h2, h3⟩ := star_first_particle (realMath L) (defaultParams : Params ℝ) notchDraws
    hN hs
  refine ⟨notchDraws_unit, ?_, _, _, ?_, h2, h3, ?_, ?_, ?_⟩
  · have : (notchDraws 1 : ℝ) = 0 := by simp [notchDraws]
    rw [this, starWedge_zero]
  · rw [h1]; norm_num
  · ring
  · ring
  · have hout := notch_midpoint_outside L
    have ey : (outerPoint (realMath L) 0).y * (1 - 0 - 1 / 2) + (innerPoint (realMath L) 0).y * 0
        + (outerPoint (realMath L) 1).y * (1 / 2)
        = ((outerPoint (realMath L) 0).y + (outerPoint (realMath L) 1).y) / 2 := by ring
    have ez : (outerPoint (realMath L) 0).z * (1 - 0 - 1 / 2) + (innerPoint (realMath L) 0).z * 0
        + (outerPoint (realMath L) 1).z * (1 / 2)
        = ((outerPoint (realMath L) 0).z + (outerPoint (realMath L) 1).z) / 2 := by ring
    rw [ey, ez]
    exact hout

end MerryChristmas
